import Mathlib

/-!
# gameserver: roster, player, message dispatch and match orchestration

A shallow embedding of `roster.go`, `player.go`, `message.go`, `server.go`
and of the send primitives of `net.go`.

Modelling conventions

* `uuid.UUID` is a natural number, `uuid.Nil` is `0`.  An identity minted by
  `uuid.NewV4` is an argument (`fresh`), as are the results of `rand.Intn(10)`
  (`digits`) and of `time.Now()` (`now`).
* `net.Conn` is `Option Conn` (`none` is the nil interface value); a live
  connection is identified by the string of its remote address.  `net.Addr`
  is `Option String` in the same way.
* `float32` values (health, damage) are the rationals the format represents;
  a subtraction of two of them is followed by `float32`, the rounding of the
  exact difference to the nearest such value, ties to even.  Infinities and
  NaN are not represented: a result of magnitude `2 ^ 128` or more is kept as
  the rounded rational.  From a finite health and a damage `≥ 0` such a result
  can only be negative, and `TakeDamage` replaces a negative result by 0
  whether it is finite or not.
* `int32` counters are integers wrapped by `int32`.
* A Go map is an association list with distinct keys (`AList`).  Go leaves
  the order of a `range` unspecified and draws it anew for each `range`.  A
  call whose result can depend on the order of its one `range` (the lookup)
  visits the entries in list order, and its statements are made for every
  list order.  The broadcasts, where one call ranges over the connections up
  to three times and the orders show in what is written, take the order of
  each `range` as an argument (`RangeOrder`).
* The `sync.RWMutex` of the roster is explicit state.  A call is run alone,
  from entry to exit: it either returns, waits forever on the lock, or
  dereferences nil; `Outcome` records which, together with the state reached.
  A read hold that is never released is never released by another goroutine
  either, since every `RUnlock` of the source follows an `RLock` of the same
  call; waiting on it is waiting forever under any interleaving.
* Methods of `Roster` are always called on the global `ROSTER`, and methods of
  `Server` on the global `SVR`; `World` holds both globals.
* Logging and `prettyPrint` only write to the console and are left out.
  Network writes are recorded in `World.sent`; a failed write is only logged
  by the source, so it is recorded like a successful one.  `Close` on a
  connection is modelled only by its nil dereference.
* The accept loop and the read loop of `net.go` and `main` are not modelled.
-/

namespace GameServer

/-! ## Outcomes and sequencing -/

/-- How a call ends: it returns a value, it waits forever on the lock, it
dereferences nil (or unlocks an unlocked mutex), or a bounded loop of the
model ran out of iterations.  Each carries the state reached. -/
inductive Outcome (σ α : Type) where
  | ret : α → σ → Outcome σ α
  | blocked : σ → Outcome σ α
  | crash : σ → Outcome σ α
  | timeout : σ → Outcome σ α
  deriving DecidableEq, Repr

/-- The state in which a call ended. -/
def Outcome.state {σ α : Type} : Outcome σ α → σ
  | .ret _ s => s
  | .blocked s => s
  | .crash s => s
  | .timeout s => s

/-- The value a call returned, if it returned. -/
def Outcome.value {σ α : Type} : Outcome σ α → Option α
  | .ret a _ => some a
  | _ => none

/-- A stateful call. -/
def Op (σ α : Type) : Type := σ → Outcome σ α

/-- Return without touching the state. -/
def Op.pure {σ α : Type} (a : α) : Op σ α := fun s => .ret a s

/-- Sequencing: the second call runs only if the first one returned. -/
def Op.bind {σ α β : Type} (m : Op σ α) (f : α → Op σ β) : Op σ β := fun s =>
  match m s with
  | .ret a s1 => f a s1
  | .blocked s1 => .blocked s1
  | .crash s1 => .crash s1
  | .timeout s1 => .timeout s1

instance {σ : Type} : Monad (Op σ) where
  pure := Op.pure
  bind := Op.bind

/-- Read the state. -/
def getS {σ : Type} : Op σ σ := fun s => .ret s s

/-- Replace the state. -/
def setS {σ : Type} (s : σ) : Op σ Unit := fun _ => .ret () s

/-! ## Basic types -/

/-- Type `uuid.UUID`. -/
abbrev UUID := Nat

/-- Value `uuid.Nil`. -/
def uuid.Nil : UUID := 0

/-- A live `net.Conn`, identified by `RemoteAddr().String()`. -/
structure Conn where
  RemoteAddr : String
  deriving DecidableEq, Repr

/-- Wrap an integer to `int32`. -/
def int32 (x : Int) : Int := (x + 2147483648) % 4294967296 - 2147483648

/-! ## Numbers -/

/-- Round to the nearest integer, ties to even. -/
def roundHalfEven (q : ℚ) : Int :=
  let f := Rat.floor q
  let d := q - f
  if d < 1 / 2 then f else if 1 / 2 < d then f + 1 else if f % 2 = 0 then f else f + 1

/-- The unit in the last place of `float32` at `q`: the format keeps 24
significant bits, and the exponent is not below that of the subnormal
numbers. -/
def float32Ulp (q : ℚ) : ℚ := 2 ^ (max (Int.log 2 |q|) (-126) - 23)

/-- Rounding to `float32`, as every arithmetic operation on `float32` operands
does with its exact result: the nearest multiple of the unit in the last place,
ties to the even significand. -/
def float32 (q : ℚ) : ℚ := roundHalfEven (q / float32Ulp q) * float32Ulp q

/-- The rational `q` is a finite `float32` value. -/
def IsFloat32 (q : ℚ) : Prop := float32 q = q ∧ |q| < 2 ^ 128

/-! ## player.go -/

/-- Type `PlayerState`. -/
abbrev PlayerState := Int

def IDLE : PlayerState := 1
def DEAD : PlayerState := 2
def MOVING : PlayerState := 3
def JUMPING : PlayerState := 4
def FIRING : PlayerState := 5

/-- Type `Vector`. -/
abbrev Vector := List ℚ

/-- Struct `Player`. -/
structure Player where
  connection : Option Conn
  health : ℚ
  id : UUID
  name : String
  state : PlayerState
  deriving DecidableEq

/-- The zero value of `Player`, read from a map at an absent key. -/
def Player.zero : Player :=
  { connection := none, health := 0, id := uuid.Nil, name := "", state := 0 }

/-- Function `newPlayer`; `fresh` is the identity minted by `uuid.NewV4`. -/
def newPlayer (fresh : UUID) (name : String) (conn : Option Conn) : Player :=
  { connection := conn, health := 100, id := fresh, name := name, state := IDLE }

/-- Method `IsDead`. -/
def Player.IsDead (p : Player) : Bool :=
  if p.state = DEAD then true else false

/-- Method `Hit`: the updated player and the returned flag. -/
def Player.Hit (p : Player) (damage : ℚ) : Player × Bool :=
  let p1 := { p with health := float32 (p.health - damage) }
  let p2 := { p1 with state := DEAD }
  (p2, p2.IsDead)

/-- Method `Move`. -/
def Player.Move (_p : Player) (_v : Vector) : Bool := true

/-- Method `ID`. -/
def Player.ID (p : Player) : UUID := p.id

/-- Method `Health`. -/
def Player.Health (p : Player) : ℚ := p.health

/-- Method `Name`. -/
def Player.Name (p : Player) : String := p.name

/-- Method `Connection`. -/
def Player.Connection (p : Player) : Option Conn := p.connection

/-- Method `SetName`. -/
def Player.SetName (p : Player) (name : String) : Player := { p with name := name }

/-- Method `TakeDamage`. -/
def Player.TakeDamage (p : Player) (amount : ℚ) : Player :=
  let p1 := { p with health := float32 (p.health - amount) }
  if p1.health < 0 then { p1 with health := 0 } else p1

/-- Method `Respawn`. -/
def Player.Respawn (p : Player) (health : ℚ) : Player :=
  { p with health := health, state := IDLE }

/-! ## roster.go -/

/-- A `sync.RWMutex`: the number of read holds and whether it is write-held. -/
structure RWMutex where
  readers : Nat
  writer : Bool
  deriving DecidableEq, Repr

/-- An unlocked mutex. -/
def RWMutex.free : RWMutex := { readers := 0, writer := false }

/-- Struct `Roster`. -/
structure Roster where
  lock : RWMutex
  players : AList (fun _ : UUID => Player)
  kills : AList (fun _ : UUID => Int)
  deaths : AList (fun _ : UUID => Int)
  deriving DecidableEq

/-- Function `newRoster`. -/
def newRoster : Roster :=
  { lock := RWMutex.free, players := ∅, kills := ∅, deaths := ∅ }

/-- Call `r.lock.Lock()`: waits until nobody holds the lock. -/
def Roster.Lock : Op Roster Unit := fun r =>
  if r.lock.readers = 0 ∧ r.lock.writer = false then
    .ret () { r with lock := { r.lock with writer := true } }
  else .blocked r

/-- Call `r.lock.Unlock()`: a fatal error when not write-held. -/
def Roster.Unlock : Op Roster Unit := fun r =>
  if r.lock.writer = true then
    .ret () { r with lock := { r.lock with writer := false } }
  else .crash r

/-- Call `r.lock.RLock()`: waits while the lock is write-held. -/
def Roster.RLock : Op Roster Unit := fun r =>
  if r.lock.writer = false then
    .ret () { r with lock := { r.lock with readers := r.lock.readers + 1 } }
  else .blocked r

/-- Call `r.lock.RUnlock()`: a fatal error when not read-held. -/
def Roster.RUnlock : Op Roster Unit := fun r =>
  if 0 < r.lock.readers then
    .ret () { r with lock := { r.lock with readers := r.lock.readers - 1 } }
  else .crash r

/-- Method `PlayerNameUnique`. -/
def Roster.PlayerNameUnique (name : String) : Op Roster Bool := do
  Roster.RLock
  let r ← getS
  let unique := !(r.players.entries.any (fun e => decide (name = e.2.Name)))
  Roster.RUnlock
  pure unique

/-- The loop of `PlayerConnUnique`; `none` is a nil dereference. -/
def connUniqueScan (conn : Option Conn) : List (Sigma (fun _ : UUID => Player)) → Option Bool
  | [] => some true
  | e :: es =>
    match conn, e.2.Connection with
    | some c, some c1 =>
      if c.RemoteAddr = c1.RemoteAddr then some false else connUniqueScan conn es
    | _, _ => none

/-- Method `PlayerConnUnique`. -/
def Roster.PlayerConnUnique (conn : Option Conn) : Op Roster Bool := do
  Roster.RLock
  let r ← getS
  match connUniqueScan conn r.players.entries with
  | none => fun s => .crash s
  | some unique => do
    Roster.RUnlock
    pure unique

/-- Method `PlayerIDUnique`. -/
def Roster.PlayerIDUnique (puuid : UUID) : Op Roster Bool := do
  Roster.RLock
  let r ← getS
  let unique := !(r.players.keys.any (fun pID => decide (puuid = pID)))
  Roster.RUnlock
  pure unique

/-- The renaming loop of `AddPlayer`: while the name is taken, append the next
random digit.  `digits i` is the result of the `i`-th call of `rand.Intn(10)`.
The first argument bounds the number of iterations. -/
def renameLoop (digits : Nat → Fin 10) : Nat → Nat → Player → Op Roster Player
  | 0, _, _ => fun s => .timeout s
  | fuel + 1, i, p => do
    let unique ← Roster.PlayerNameUnique p.Name
    if unique then pure p
    else renameLoop digits fuel (i + 1) (p.SetName (p.Name ++ toString (digits i).val))

/-- The length of the longest registered name. -/
def Roster.maxNameLen (r : Roster) : Nat :=
  (r.players.entries.map (fun e => e.2.Name.length)).foldr max 0

/-- Method `AddPlayer`.  The renaming loop is given `maxNameLen + 2`
iterations, which `renameLoop_run` and `AddPlayer_no_timeout` show to be
enough for every digit sequence: each iteration makes the name one character
longer, and a name longer than every registered name is free. -/
def Roster.AddPlayer (digits : Nat → Fin 10) (p : Player) : Op Roster Bool := do
  let idUnique ← Roster.PlayerIDUnique p.ID
  if !idUnique then pure false
  else do
    let connUnique ← Roster.PlayerConnUnique p.Connection
    if !connUnique then pure false
    else do
      let r0 ← getS
      let p ← renameLoop digits (r0.maxNameLen + 2) 0 p
      Roster.Lock
      let r ← getS
      setS { r with players := r.players.insert p.ID p }
      let r ← getS
      setS { r with deaths := r.deaths.insert p.ID 0 }
      let r ← getS
      setS { r with kills := r.kills.insert p.ID 0 }
      Roster.Unlock
      pure true

/-- Method `RemovePlayer`. -/
def Roster.RemovePlayer (puuid : UUID) : Op Roster Bool := do
  Roster.Lock
  let r ← getS
  match r.players.lookup puuid with
  | some p =>
    match p.Connection with
    | none => fun s => .crash s
    | some _ => do
      setS { r with players := r.players.erase puuid,
                    kills := r.kills.erase puuid,
                    deaths := r.deaths.erase puuid }
      Roster.Unlock
      pure true
  | none => do
    Roster.Unlock
    pure false

/-- Method `PlayerKilled` of the roster. -/
def Roster.PlayerKilled (vUUID aUUID : UUID) : Op Roster Unit := do
  Roster.Lock
  let r ← getS
  match r.kills.lookup aUUID with
  | some k => setS { r with kills := r.kills.insert aUUID (int32 (k + 1)) }
  | none => setS { r with kills := r.kills.insert aUUID 1 }
  let r ← getS
  setS { r with deaths := r.deaths.insert vUUID (int32 ((r.deaths.lookup vUUID).getD 0 + 1)) }
  Roster.Unlock

/-- Method `PlayerKills`. -/
def Roster.PlayerKills (puuid : UUID) : Op Roster Int := do
  Roster.RLock
  let r ← getS
  let kills := (r.kills.lookup puuid).getD 0
  Roster.RUnlock
  pure kills

/-- Method `PlayerDeaths`. -/
def Roster.PlayerDeaths (puuid : UUID) : Op Roster Int := do
  Roster.RLock
  let r ← getS
  let deaths := (r.deaths.lookup puuid).getD 0
  Roster.RUnlock
  pure deaths

/-- The loop of `PlayerLookup`, with its two `break`s. -/
def lookupScan (name : String) (addr : Option String) :
    List (Sigma (fun _ : UUID => Player)) → UUID
  | [] => uuid.Nil
  | e :: es =>
    if name ≠ "" ∧ name = e.2.Name then e.1
    else
      match e.2.Connection, addr with
      | some c, some a => if c.RemoteAddr = a then e.1 else lookupScan name addr es
      | _, _ => lookupScan name addr es

/-- Method `PlayerLookup`. -/
def Roster.PlayerLookup (name : String) (addr : Option String) : Op Roster UUID := do
  Roster.RLock
  let r ← getS
  let pu := lookupScan name addr r.players.entries
  Roster.RUnlock
  pure pu

/-- Method `PlayerName`. -/
def Roster.PlayerName (puuid : UUID) : Op Roster String := do
  Roster.RLock
  let r ← getS
  let name := match r.players.lookup puuid with
    | some p => p.Name
    | none => ""
  Roster.RUnlock
  pure name

/-- The loop of `Scoreboard`: one `PlayerName` call and one map write per
entry of `kills`.  The source calls `PlayerName` on the global `ROSTER`, which
is the receiver, so the read lock is taken a second time. -/
def scoreboardLoop :
    List (Sigma (fun _ : UUID => Int)) → AList (fun _ : String => Int) →
      Op Roster (AList (fun _ : String => Int))
  | [], scores => pure scores
  | e :: es, scores => do
    let pname ← Roster.PlayerName e.1
    scoreboardLoop es (scores.insert pname e.2)

/-- Method `Scoreboard`. -/
def Roster.Scoreboard : Op Roster (AList (fun _ : String => Int)) := do
  Roster.RLock
  let r ← getS
  let scores ← scoreboardLoop r.kills.entries ∅
  Roster.RUnlock
  pure scores

/-- Method `PlayerHealth`. -/
def Roster.PlayerHealth (puuid : UUID) : Op Roster ℚ := do
  Roster.RLock
  let r ← getS
  let health := match r.players.lookup puuid with
    | some p => p.Health
    | none => 0
  Roster.RUnlock
  pure health

/-- Method `PlayerDamage`: the map read has no presence check, so an absent
key yields the zero player, which is then stored. -/
def Roster.PlayerDamage (puuid : UUID) (damage : ℚ) : Op Roster ℚ := do
  Roster.Lock
  let r ← getS
  let p := (r.players.lookup puuid).getD Player.zero
  let p := p.TakeDamage damage
  let health := p.Health
  setS { r with players := r.players.insert puuid p }
  Roster.Unlock
  pure health

/-- Method `RespawnPlayer`. -/
def Roster.RespawnPlayer (puuid : UUID) : Op Roster Unit := do
  Roster.Lock
  let r ← getS
  match r.players.lookup puuid with
  | some p => setS { r with players := r.players.insert puuid (p.Respawn 100) }
  | none => pure ()
  Roster.Unlock

/-- Method `ResetPlayer`. -/
def Roster.ResetPlayer (puuid : UUID) : Op Roster Unit := do
  Roster.Lock
  let r ← getS
  match r.players.lookup puuid with
  | some p => setS { r with players := r.players.insert puuid (p.Respawn 100) }
  | none => pure ()
  let r ← getS
  setS { r with kills := r.kills.insert puuid 0 }
  let r ← getS
  setS { r with deaths := r.deaths.insert puuid 0 }
  Roster.Unlock

/-- The loop of `Reset` over the keys of `players`. -/
def resetLoop : List UUID → Op Roster Unit
  | [] => pure ()
  | puuid :: rest => do
    Roster.ResetPlayer puuid
    resetLoop rest

/-- Method `Reset` of the roster. -/
def Roster.Reset : Op Roster Unit := do
  Roster.Lock
  let r ← getS
  setS { r with kills := ∅ }
  let r ← getS
  setS { r with deaths := ∅ }
  Roster.Unlock
  let r ← getS
  resetLoop r.players.keys

/-- Method `PlayerConn`: the branch that finds the player returns without
`RUnlock`. -/
def Roster.PlayerConn (puuid : UUID) : Op Roster (Option Conn) := do
  Roster.RLock
  let r ← getS
  match r.players.lookup puuid with
  | some p => pure p.Connection
  | none => do
    Roster.RUnlock
    pure none

/-- The order in which one `range` over the map `players` visits its entries.
Go draws it anew for every `range`, so it is an argument of the call, like the
random digits: a rearrangement of the entries, whatever they are. -/
structure RangeOrder where
  visit : List (Sigma (fun _ : UUID => Player)) → List (Sigma (fun _ : UUID => Player))
  perm : ∀ l, (visit l).Perm l

/-- Method `PlayerConnAll`; `order` is the order of its `range`. -/
def Roster.PlayerConnAll (order : RangeOrder) : Op Roster (List (Option Conn)) := do
  Roster.RLock
  let r ← getS
  let conns := (order.visit r.players.entries).map (fun e => e.2.Connection)
  Roster.RUnlock
  pure conns

/-- Method `PlayerCount` (reads the map without the lock). -/
def Roster.PlayerCount : Op Roster Int := do
  let r ← getS
  pure (r.players.entries.length : Int)

/-! ## message.go: envelope -/

/-- Type `MessageType`. -/
abbrev MessageType := Int

def CONNECT : MessageType := 1
def DISCONNECT : MessageType := 2
def PING : MessageType := 3
def JUMP : MessageType := 4
def MOVE : MessageType := 5
def FIRE : MessageType := 6
def HIT : MessageType := 7
def JOIN : MessageType := 8
def LEAVE : MessageType := 9
def SCOREBOARD : MessageType := 10
def BROADCAST : MessageType := 11
def CHAT : MessageType := 12
def CLIENT : MessageType := 13
def KILL : MessageType := 14

/-- Struct `Message`; the field `Type` is named `MsgType` here. -/
structure Message where
  Damage : ℚ
  HitPlayer : String
  Name : String
  Sender : UUID
  MsgType : MessageType
  Content : String
  MessageTo : String
  Scoreboard : AList (fun _ : String => Int)
  Nonce : String
  Result : String
  Attacker : String
  deriving DecidableEq

/-- The zero value of `Message`. -/
def Message.zero : Message :=
  { Damage := 0, HitPlayer := "", Name := "", Sender := uuid.Nil, MsgType := 0, Content := "",
    MessageTo := "", Scoreboard := ∅, Nonce := "", Result := "", Attacker := "" }

/-- Function `newBroadcastMessage`. -/
def newBroadcastMessage (content : String) : Message :=
  { Message.zero with MsgType := BROADCAST, Content := content }

/-- Function `newClientMessage`. -/
def newClientMessage (content : String) : Message :=
  { Message.zero with MsgType := CLIENT, Content := content }

/-- Function `newChatMessage` (the content argument is dropped by the source). -/
def newChatMessage (sender _content : String) : Message :=
  { Message.zero with MsgType := CHAT, Name := sender }

/-- Function `newJoinMessage`. -/
def newJoinMessage (puuid name result : String) : Message :=
  { Message.zero with MsgType := JOIN, Name := name, Content := puuid, Result := result }

/-- Function `newKillMessage`. -/
def newKillMessage (attacker : String) : Message :=
  { Message.zero with MsgType := KILL, Attacker := attacker }

/-- Function `newLeaveMessage`. -/
def newLeaveMessage (name : String) : Message :=
  { Message.zero with MsgType := LEAVE, Name := name }

/-! ## Formatting -/

/-- Verb `%3.2f`. -/
def fmtFloat2 (q : ℚ) : String :=
  let n := (roundHalfEven (|q| * 100)).toNat
  let frac := n % 100
  (if q < 0 then "-" else "") ++ toString (n / 100) ++ "." ++
    (if frac < 10 then "0" else "") ++ toString frac

/-- Method `String` of `uuid.UUID`: 32 hexadecimal digits grouped 8-4-4-4-12. -/
def UUID.String (u : UUID) : String :=
  let ds := Nat.toDigits 16 (u % 340282366920938463463374607431768211456)
  let h := List.replicate (32 - ds.length) (Char.ofNat 48) ++ ds
  let dash := [Char.ofNat 45]
  String.mk (h.take 8 ++ dash ++ (h.drop 8).take 4 ++ dash ++ (h.drop 12).take 4 ++ dash ++
    (h.drop 16).take 4 ++ dash ++ h.drop 20)

/-! ## server.go -/

/-- Type `ServerState`. -/
abbrev ServerState := Int

def STOPPED : ServerState := 1
def STARTED : ServerState := 2

/-- Struct `Server`; `Started` is a clock reading. -/
structure Server where
  ID : UUID
  Started : Int
  Roster : Roster
  State : ServerState
  Duration : ℚ
  Timed : Bool
  MaxKills : Int
  MaxPlayers : Int
  deriving DecidableEq

/-- Function `newServer`; `fresh` is the identity minted by `uuid.NewV4`.
Fields the source does not set keep their zero value. -/
def newServer (fresh : UUID) (timed : Bool) (durationSeconds : ℚ) : Server :=
  { ID := fresh, Started := 0, Roster := newRoster, State := 0, Duration := durationSeconds,
    Timed := timed, MaxKills := 0, MaxPlayers := 20 }

/-- The globals `ROSTER` and `SVR`, and the messages written to connections so
far, oldest first. -/
structure World where
  ROSTER : Roster
  SVR : Server
  sent : List (Conn × Message)
  deriving DecidableEq

/-- Run a roster method on the global `ROSTER`. -/
def liftR {α : Type} (m : Op Roster α) : Op World α := fun w =>
  match m w.ROSTER with
  | .ret a r => .ret a { w with ROSTER := r }
  | .blocked r => .blocked { w with ROSTER := r }
  | .crash r => .crash { w with ROSTER := r }
  | .timeout r => .timeout { w with ROSTER := r }

/-- Functions `netSendMessage` and `netSendBytes`: nothing is written to a nil
connection. -/
def netSendMessage (conn : Option Conn) (msg : Message) : Op World Unit := fun w =>
  match conn with
  | some c => .ret () { w with sent := w.sent ++ [(c, msg)] }
  | none => .ret () w

/-- Function `newScoreboardMessage`. -/
def newScoreboardMessage : Op World Message := do
  let scores ← liftR Roster.Scoreboard
  pure { Message.zero with MsgType := SCOREBOARD, Scoreboard := scores }

/-- Method `Start`; `now` is the reading of `time.Now()`. -/
def Server.Start (now : Int) : Op World Unit := do
  let w ← getS
  setS { w with SVR := { w.SVR with Started := now } }
  let w ← getS
  setS { w with SVR := { w.SVR with State := STARTED } }

/-- Method `End`. -/
def Server.End : Op World Unit := do
  let w ← getS
  setS { w with SVR := { w.SVR with State := STOPPED } }

/-- The loop of `BroadcastMessage`. -/
def broadcastLoop (m : Message) : List (Option Conn) → Op World Unit
  | [] => pure ()
  | conn :: rest => do
    netSendMessage conn m
    broadcastLoop m rest

/-- Method `BroadcastMessage`; `order` is the order of the `range` of its call
of `PlayerConnAll`. -/
def Server.BroadcastMessage (order : RangeOrder) (m : Message) : Op World Unit := do
  let conns ← liftR (Roster.PlayerConnAll order)
  broadcastLoop m conns

/-- Method `SendScores`; `order` is the order of the `range` of its
broadcast. -/
def Server.SendScores (order : RangeOrder) : Op World Unit := do
  let _scores ← liftR Roster.Scoreboard
  let msg ← newScoreboardMessage
  Server.BroadcastMessage order msg

/-- Method `ClientMessage`. -/
def Server.ClientMessage (puuid : UUID) (m : Message) : Op World Unit := do
  let conn ← liftR (Roster.PlayerConn puuid)
  netSendMessage conn m

/-- Method `BroadcastClientMessage`. -/
def Server.BroadcastClientMessage (order : RangeOrder) (content : String) : Op World Unit :=
  Server.BroadcastMessage order (newClientMessage content)

/-- Method `ChatMessage`. -/
def Server.ChatMessage (recipient : UUID) (sender msgText : String) : Op World Unit := do
  let conn ← liftR (Roster.PlayerConn recipient)
  netSendMessage conn (newChatMessage sender msgText)

/-- Method `PlayerJoin`; `orders i` is the order of the `range` of the `i`-th
broadcast of the call. -/
def Server.PlayerJoin (digits : Nat → Fin 10) (orders : Nat → RangeOrder) (p : Player) :
    Op World Unit := do
  let w ← getS
  let count ← liftR Roster.PlayerCount
  if count ≥ w.SVR.MaxPlayers then pure ()
  else do
    let added ← liftR (Roster.AddPlayer digits p)
    if added then do
      let pname ← liftR (Roster.PlayerName p.ID)
      let msgText := "Player " ++ pname ++ " joined"
      Server.BroadcastMessage (orders 0) (newBroadcastMessage msgText)
      Server.SendScores (orders 1)
      netSendMessage p.Connection (newJoinMessage (UUID.String p.ID) pname "success")
    else
      netSendMessage p.Connection (newJoinMessage "" "" "failure")

/-- Method `PlayerKilled` of the server; `orders i` is the order of the `range`
of the `i`-th broadcast of the call. -/
def Server.PlayerKilled (orders : Nat → RangeOrder) (vUUID aUUID : UUID) : Op World Unit := do
  liftR (Roster.PlayerKilled vUUID aUUID)
  let aname ← liftR (Roster.PlayerName aUUID)
  Server.ClientMessage vUUID (newKillMessage aname)
  let aname ← liftR (Roster.PlayerName aUUID)
  let vname ← liftR (Roster.PlayerName vUUID)
  let msgText := aname ++ " killed " ++ vname
  Server.BroadcastMessage (orders 0) (newBroadcastMessage msgText)
  Server.SendScores (orders 1)
  liftR (Roster.RespawnPlayer vUUID)

/-- Method `PlayerHit`; `orders` are the orders of the broadcasts of its call of
`PlayerKilled`. -/
def Server.PlayerHit (orders : Nat → RangeOrder) (victim : String) (aUUID : UUID)
    (damage : ℚ) : Op World Unit := do
  let vUUID ← liftR (Roster.PlayerLookup victim none)
  if vUUID = uuid.Nil then do
    let _aname ← liftR (Roster.PlayerName aUUID)
    pure ()
  else do
    let health ← liftR (Roster.PlayerDamage vUUID damage)
    let m := newClientMessage ("remaining health " ++ fmtFloat2 health)
    Server.ClientMessage vUUID m
    if health ≤ 0 then Server.PlayerKilled orders vUUID aUUID
    else pure ()

/-- Method `Reset` of the server. -/
def Server.Reset (now : Int) : Op World Unit := do
  Server.End
  liftR Roster.Reset
  Server.Start now

/-- Method `RemovePlayer` of the server; `orders i` is the order of the `range`
of the `i`-th broadcast of the call. -/
def Server.RemovePlayer (orders : Nat → RangeOrder) (puuid : UUID) : Op World Unit := do
  let pname ← liftR (Roster.PlayerName puuid)
  let removed ← liftR (Roster.RemovePlayer puuid)
  if removed then do
    let msgText := "Player " ++ pname ++ " left"
    Server.BroadcastMessage (orders 0) (newBroadcastMessage msgText)
    Server.BroadcastMessage (orders 1) (newLeaveMessage pname)
    Server.SendScores (orders 2)
  else pure ()

/-! ## message.go: dispatch -/

/-- Function `ProcessMessage`; `conn` is the live connection the message
arrived on, `fresh` the identity `newPlayer` would mint, `orders i` the order
of the `range` of the `i`-th broadcast made. -/
def ProcessMessage (fresh : UUID) (digits : Nat → Fin 10) (orders : Nat → RangeOrder)
    (conn : Conn) (msg : Message) : Op World Unit :=
  if msg.MsgType = CONNECT then pure ()
  else if msg.MsgType = DISCONNECT then pure ()
  else if msg.MsgType = PING then pure ()
  else if msg.MsgType = JOIN then
    Server.PlayerJoin digits orders (newPlayer fresh msg.Name (some conn))
  else if msg.Sender = uuid.Nil then pure ()
  else do
    let _pn ← liftR (Roster.PlayerName msg.Sender)
    if msg.MsgType = JUMP then pure ()
    else if msg.MsgType = MOVE then pure ()
    else if msg.MsgType = FIRE then pure ()
    else if msg.MsgType = HIT then Server.PlayerHit orders msg.Name msg.Sender 50
    else if msg.MsgType = LEAVE then Server.RemovePlayer orders msg.Sender
    else if msg.MsgType = SCOREBOARD then Server.SendScores (orders 0)
    else if msg.MsgType = BROADCAST then pure ()
    else if msg.MsgType = CHAT then pure ()
    else pure ()

/-- Function `parseClientMessage`; `decoded` is the result of
`json.Unmarshal` on the raw payload (`none` when it fails). -/
def parseClientMessage (fresh : UUID) (digits : Nat → Fin 10) (orders : Nat → RangeOrder)
    (conn : Conn) (decoded : Option Message) : Op World Unit :=
  match decoded with
  | none => pure ()
  | some msg => do
    let sender ← liftR (Roster.PlayerLookup "" (some conn.RemoteAddr))
    ProcessMessage fresh digits orders conn { msg with Sender := sender }

/-! ## Predicates and sample data used in the statements -/

/-- Some registered player has the display name `name`. -/
def Roster.NameTaken (r : Roster) (name : String) : Prop :=
  ∃ e ∈ r.players.entries, e.2.Name = name

/-- Some registered player's connection has the remote address of `conn`. -/
def Roster.AddrTaken (r : Roster) (conn : Option Conn) : Prop :=
  ∃ e ∈ r.players.entries, ∃ c c1,
    conn = some c ∧ e.2.Connection = some c1 ∧ c.RemoteAddr = c1.RemoteAddr

/-- Every registered player has a connection (none is nil). -/
def Roster.Live (r : Roster) : Prop :=
  ∀ e ∈ r.players.entries, e.2.Connection ≠ none

/-- Two entries differ in display name and in remote address. -/
def Distinct (e f : Sigma (fun _ : UUID => Player)) : Prop :=
  e.2.Name ≠ f.2.Name ∧
  ∀ c c1, e.2.Connection = some c → f.2.Connection = some c1 → c.RemoteAddr ≠ c1.RemoteAddr

/-- The invariant kept by joins and leaves: the lock is free on return, every entry is keyed by its player's identity and has a connection, and the entries are pairwise distinct in name and address. -/
def Roster.JoinLeaveInv (r : Roster) : Prop :=
  r.lock = RWMutex.free ∧
  (∀ e ∈ r.players.entries, e.2.ID = e.1 ∧ e.2.Connection ≠ none) ∧
  r.players.entries.Pairwise Distinct

/-- Rosters reachable from `newRoster` by `AddPlayer` (players with a
connection, any digit sequence) and `RemovePlayer`.  As Go fixes no iteration
order for its maps, a reachable roster may present its entries in any order. -/
inductive JoinLeaveReachable : Roster → Prop where
  | init : JoinLeaveReachable newRoster
  | add (r r1 : Roster) (digits : Nat → Fin 10) (p : Player) (b : Bool) :
      JoinLeaveReachable r → p.Connection ≠ none →
      Roster.AddPlayer digits p r = .ret b r1 → JoinLeaveReachable r1
  | remove (r r1 : Roster) (puuid : UUID) (b : Bool) :
      JoinLeaveReachable r →
      Roster.RemovePlayer puuid r = .ret b r1 → JoinLeaveReachable r1
  | reorder (r r1 : Roster) :
      JoinLeaveReachable r → r1.lock = r.lock →
      r1.players.entries.Perm r.players.entries →
      r1.kills.entries.Perm r.kills.entries →
      r1.deaths.entries.Perm r.deaths.entries → JoinLeaveReachable r1

/-- Every key of `players` is a key of `kills` and of `deaths`. -/
def Roster.CountersCover (r : Roster) : Prop :=
  ∀ k, k ∈ r.players → k ∈ r.kills ∧ k ∈ r.deaths

/-- Rosters reachable from `newRoster` by the mutating methods of the roster,
with arbitrary arguments except that `PlayerDamage` is only called on a
registered identity. -/
inductive GuardedReachable : Roster → Prop where
  | init : GuardedReachable newRoster
  | addPlayer (r r1 : Roster) (digits : Nat → Fin 10) (p : Player) (b : Bool) :
      GuardedReachable r → Roster.AddPlayer digits p r = .ret b r1 → GuardedReachable r1
  | removePlayer (r r1 : Roster) (puuid : UUID) (b : Bool) :
      GuardedReachable r → Roster.RemovePlayer puuid r = .ret b r1 → GuardedReachable r1
  | playerKilled (r r1 : Roster) (vUUID aUUID : UUID) :
      GuardedReachable r → Roster.PlayerKilled vUUID aUUID r = .ret () r1 → GuardedReachable r1
  | playerDamage (r r1 : Roster) (puuid : UUID) (damage health : ℚ) :
      GuardedReachable r → puuid ∈ r.players →
      Roster.PlayerDamage puuid damage r = .ret health r1 → GuardedReachable r1
  | respawnPlayer (r r1 : Roster) (puuid : UUID) :
      GuardedReachable r → Roster.RespawnPlayer puuid r = .ret () r1 → GuardedReachable r1
  | resetPlayer (r r1 : Roster) (puuid : UUID) :
      GuardedReachable r → Roster.ResetPlayer puuid r = .ret () r1 → GuardedReachable r1
  | reset (r r1 : Roster) :
      GuardedReachable r → Roster.Reset r = .ret () r1 → GuardedReachable r1

/-- A player named Alice on a first connection. -/
def sampleAlice : Player := newPlayer 1 "Alice" (some ⟨"10.0.0.1:5000"⟩)

/-- A player named Bob on a second connection. -/
def sampleBob : Player := newPlayer 2 "Bob" (some ⟨"10.0.0.2:5000"⟩)

/-- A second player who asks for the name Alice, from the second connection. -/
def sampleAliceAgain : Player := newPlayer 2 "Alice" (some ⟨"10.0.0.2:5000"⟩)

/-- The second Alice as stored after the digit 3 was drawn for her. -/
def sampleAlice3 : Player := newPlayer 2 "Alice3" (some ⟨"10.0.0.2:5000"⟩)

/-- Alice and Bob registered, all counters 0, lock free; Alice is scanned first. -/
def sampleRoster : Roster :=
  { lock := RWMutex.free,
    players := AList.insert 1 sampleAlice (AList.insert 2 sampleBob ∅),
    kills := AList.insert 1 0 (AList.insert 2 0 ∅),
    deaths := AList.insert 1 0 (AList.insert 2 0 ∅) }

/-- A world around `sampleRoster` with nothing sent yet. -/
def sampleWorld : World :=
  { ROSTER := sampleRoster, SVR := newServer 99 false 300, sent := [] }

/-- The roster after Alice joined the empty roster. -/
def oneAlice : Roster :=
  { lock := RWMutex.free,
    players := AList.insert 1 sampleAlice ∅,
    kills := AList.insert 1 0 ∅,
    deaths := AList.insert 1 0 ∅ }

/-- The roster after the second Alice joined `oneAlice` with the digit 3 drawn. -/
def twoAlices : Roster :=
  { lock := RWMutex.free,
    players := AList.insert 2 sampleAlice3 (AList.insert 1 sampleAlice ∅),
    kills := AList.insert 2 0 (AList.insert 1 0 ∅),
    deaths := AList.insert 2 0 (AList.insert 1 0 ∅) }

/-- A HIT message naming Bob, with an identity forged into the sender field. -/
def sampleHit : Message :=
  { Message.zero with MsgType := HIT, Name := "Bob", Sender := 1 }

/-- The name `PlayerName` reports for an identity: the empty string when it is
not registered. -/
def Roster.nameOf (r : Roster) (puuid : UUID) : String :=
  match r.players.lookup puuid with
  | some p => p.Name
  | none => ""

/-- One step of the loop of `Scoreboard`. -/
def Roster.scoreStep (r : Roster) (scores : AList (fun _ : String => Int))
    (e : Sigma (fun _ : UUID => Int)) : AList (fun _ : String => Int) :=
  scores.insert (r.nameOf e.1) e.2

/-- The map `Scoreboard` builds: the entries of `kills` written one after the
other under the name of their identity. -/
def Roster.scores (r : Roster) : AList (fun _ : String => Int) :=
  r.kills.entries.foldl r.scoreStep ∅

/-- The roster once `RemovePlayer` has deleted the three entries of an
identity. -/
def Roster.without (r : Roster) (puuid : UUID) : Roster :=
  { r with players := r.players.erase puuid,
           kills := r.kills.erase puuid,
           deaths := r.deaths.erase puuid }

/-- The connections of the registered players, in list order. -/
def Roster.conns (r : Roster) : List (Option Conn) :=
  r.players.entries.map (fun e => e.2.Connection)

/-- The connections `PlayerConnAll` returns when its `range` runs in `order`. -/
def Roster.connsIn (r : Roster) (order : RangeOrder) : List (Option Conn) :=
  (order.visit r.players.entries).map (fun e => e.2.Connection)

/-- The order of a `range` that visits the entries as they are listed. -/
def RangeOrder.listed : RangeOrder :=
  { visit := fun l => l, perm := fun l => List.Perm.refl l }

/-- The order of a `range` that visits the entries from the last listed to the
first. -/
def RangeOrder.reversed : RangeOrder :=
  { visit := List.reverse, perm := List.reverse_perm }

/-- The order of a `range` that visits the entries as `o` lists them, when `o`
is a rearrangement of them. -/
def RangeOrder.fixed (o : List (Sigma (fun _ : UUID => Player))) : RangeOrder :=
  { visit := fun l => if o.Perm l then o else l,
    perm := fun l => by
      show (if o.Perm l then o else l).Perm l
      by_cases h : o.Perm l
      · rw [if_pos h]
        exact h
      · rw [if_neg h] }

/-- An envelope with the wire type `ty` and the fields `name`, `content` and
`result`; every other field has its zero value and is left out on the wire. -/
def envelope (ty : Int) (name content result : String) : Message :=
  { Damage := 0, HitPlayer := "", Name := name, Sender := 0, MsgType := ty, Content := content,
    MessageTo := "", Scoreboard := ∅, Nonce := "", Result := result, Attacker := "" }

/-- A SCOREBOARD envelope (wire type 10) carrying the map `scores`. -/
def scoreboardEnvelope (scores : AList (fun _ : String => Int)) : Message :=
  { Damage := 0, HitPlayer := "", Name := "", Sender := 0, MsgType := 10, Content := "",
    MessageTo := "", Scoreboard := scores, Nonce := "", Result := "", Attacker := "" }

/-- The writes of one broadcast of `m` to `conns`: one per non-nil connection,
in order. -/
def deliveries (m : Message) (conns : List (Option Conn)) : List (Conn × Message) :=
  conns.filterMap (fun c => c.map (fun c1 => (c1, m)))

/-- The SCOREBOARD envelope for a roster. -/
def scoreboardMessage (r : Roster) : Message :=
  { Message.zero with MsgType := SCOREBOARD, Scoreboard := r.scores }

/-- The endpoint `addr` is that of the connection of `p`. -/
def Player.AtAddr (p : Player) (addr : Option String) : Prop :=
  addr ≠ none ∧ p.Connection.map Conn.RemoteAddr = addr

/-- Whether a player is at an endpoint can be computed. -/
instance (p : Player) (addr : Option String) : Decidable (p.AtAddr addr) := by
  unfold Player.AtAddr
  infer_instance

/-- The roster with Alice registered after `PlayerConn` was called for her: one
read hold is outstanding. -/
def oneAliceHeld : Roster :=
  { oneAlice with lock := { readers := 1, writer := false } }

/-- Worlds reachable from `w0` by `Start`, `End` and `Reset` of the server. -/
inductive LifecycleReachable (w0 : World) : World → Prop where
  | init : LifecycleReachable w0 w0
  | start (w w1 : World) (now : Int) :
      LifecycleReachable w0 w → Server.Start now w = .ret () w1 → LifecycleReachable w0 w1
  | stop (w w1 : World) :
      LifecycleReachable w0 w → Server.End w = .ret () w1 → LifecycleReachable w0 w1
  | reset (w w1 : World) (now : Int) :
      LifecycleReachable w0 w → Server.Reset now w = .ret () w1 → LifecycleReachable w0 w1

/-- Twenty players, identities 1 to 20, each on a connection of its own. -/
def twentyPlayers : List (Sigma (fun _ : UUID => Player)) :=
  (List.range 20).map (fun i =>
    ⟨i + 1, newPlayer (i + 1) ("P" ++ toString i) (some ⟨"10.0.1." ++ toString i ++ ":5000"⟩)⟩)

/-- A roster at the capacity of `newServer`. -/
def fullRoster : Roster :=
  { lock := RWMutex.free,
    players := twentyPlayers.toAList,
    kills := ((List.range 20).map (fun i => (⟨i + 1, 0⟩ : Sigma (fun _ : UUID => Int)))).toAList,
    deaths := ((List.range 20).map (fun i => (⟨i + 1, 0⟩ : Sigma (fun _ : UUID => Int)))).toAList }

/-- A world whose roster is at capacity. -/
def fullWorld : World :=
  { ROSTER := fullRoster, SVR := newServer 99 false 300, sent := [] }

/-- A newcomer on a connection of its own. -/
def sampleZed : Player := newPlayer 21 "Zed" (some ⟨"10.0.0.21:5000"⟩)

/-- Worlds reachable from an empty roster under the server `svr` by
`PlayerJoin` and by `RemovePlayer`, of the server or of the roster. -/
inductive CapacityReachable (svr : Server) : World → Prop where
  | init : CapacityReachable svr { ROSTER := newRoster, SVR := svr, sent := [] }
  | join (w w1 : World) (digits : Nat → Fin 10) (orders : Nat → RangeOrder) (p : Player) :
      CapacityReachable svr w → Server.PlayerJoin digits orders p w = .ret () w1 →
      CapacityReachable svr w1
  | leave (w w1 : World) (orders : Nat → RangeOrder) (puuid : UUID) :
      CapacityReachable svr w → Server.RemovePlayer orders puuid w = .ret () w1 →
      CapacityReachable svr w1
  | rosterLeave (w : World) (r1 : Roster) (puuid : UUID) (b : Bool) :
      CapacityReachable svr w → Roster.RemovePlayer puuid w.ROSTER = .ret b r1 →
      CapacityReachable svr { w with ROSTER := r1 }

/-- The message `sampleHit` with a payload claiming a damage of 10 on another
player: it differs from `sampleHit` in the fields `Damage` and `HitPlayer`
only. -/
def sampleHitPayload : Message :=
  { sampleHit with Damage := 10, HitPlayer := "Alice" }

/-- The `float32` nearest to one tenth, the value of the Go constant
`float32(0.1)`. -/
def tenth32 : ℚ := 13421773 / 134217728

/-- Alice after `Hit` with a damage of 150: her health is -50. -/
def hurtAlice : Player := (sampleAlice.Hit 150).1

/-- A roster in which `hurtAlice` is registered. -/
def oneHurtAlice : Roster :=
  { lock := RWMutex.free,
    players := AList.insert 1 hurtAlice ∅,
    kills := AList.insert 1 0 ∅,
    deaths := AList.insert 1 0 ∅ }

/-- Orders for a call that broadcasts more than once: the first `range` visits
the players as they are listed, every later one from the last to the first. -/
def sampleOrders : Nat → RangeOrder :=
  fun i => if i = 0 then RangeOrder.listed else RangeOrder.reversed

/-- A player named Carol on a third connection. -/
def sampleCarol : Player := newPlayer 3 "Carol" (some ⟨"10.0.0.3:5000"⟩)

/-- Alice, Bob and Carol registered, all counters 0, lock free, nothing sent
yet. -/
def threeWorld : World :=
  { ROSTER :=
      { lock := RWMutex.free,
        players :=
          AList.insert 1 sampleAlice (AList.insert 2 sampleBob (AList.insert 3 sampleCarol ∅)),
        kills := AList.insert 1 0 (AList.insert 2 0 (AList.insert 3 0 ∅)),
        deaths := AList.insert 1 0 (AList.insert 2 0 (AList.insert 3 0 ∅)) },
    SVR := newServer 99 false 300,
    sent := [] }

/-! # Verification -/

/-! ## Running calls -/

/-- Running a sequence. -/
@[simp]
theorem Op.bind_run {σ α β : Type} (m : Op σ α) (f : α → Op σ β) (s : σ) :
    (m >>= f) s = match m s with
      | .ret a s1 => f a s1
      | .blocked s1 => .blocked s1
      | .crash s1 => .crash s1
      | .timeout s1 => .timeout s1 := rfl

/-- Running a plain return. -/
@[simp]
theorem Op.pure_run {σ α : Type} (a : α) (s : σ) :
    (Pure.pure a : Op σ α) s = .ret a s := rfl

/-- Running a state read. -/
@[simp]
theorem getS_run {σ : Type} (s : σ) : (getS : Op σ σ) s = .ret s s := rfl

/-- Running a state write. -/
@[simp]
theorem setS_run {σ : Type} (s t : σ) : (setS t : Op σ Unit) s = .ret () t := rfl

/-- An outcome with a value is a return in its final state. -/
theorem Outcome.eq_ret_of {σ α : Type} (o : Outcome σ α) (a : α) (s : σ)
    (hv : o.value = some a) (hs : o.state = s) : o = .ret a s := by
  cases o with
  | ret b t =>
    simp only [Outcome.value, Option.some.injEq] at hv
    simp only [Outcome.state] at hs
    rw [hv, hs]
  | blocked t => cases hv
  | crash t => cases hv
  | timeout t => cases hv

/-- Two rosters with the same lock state and the same entries are equal. -/
theorem Roster.ext_entries (r s : Roster) (hl : r.lock = s.lock)
    (hp : r.players.entries = s.players.entries) (hk : r.kills.entries = s.kills.entries)
    (hd : r.deaths.entries = s.deaths.entries) : r = s := by
  obtain ⟨l1, p1, k1, d1⟩ := r
  obtain ⟨l2, p2, k2, d2⟩ := s
  simp only at hl hp hk hd
  rw [hl, AList.ext hp, AList.ext hk, AList.ext hd]

/-- A roster method that returns, run on the global roster. -/
theorem liftR_ret {α : Type} (m : Op Roster α) (w : World) (a : α) (r : Roster)
    (h : m w.ROSTER = .ret a r) : liftR m w = .ret a { w with ROSTER := r } := by
  simp [liftR, h]

/-- A roster method that waits forever, run on the global roster. -/
theorem liftR_blocked {α : Type} (m : Op Roster α) (w : World) (r : Roster)
    (h : m w.ROSTER = .blocked r) : liftR m w = .blocked { w with ROSTER := r } := by
  simp [liftR, h]

/-- A decimal digit prints as one character. -/
theorem digit_length (d : Fin 10) : (toString d.val).length = 1 := by
  revert d; decide

/-- A scan for an equal element is a membership test. -/
theorem any_decide_eq {α : Type} [DecidableEq α] (a : α) (l : List α) :
    (l.any (fun x => decide (a = x))) = decide (a ∈ l) := by
  induction l with
  | nil => simp
  | cons x xs ih => simp [List.any_cons, ih]

/-- Unfolding of `roundHalfEven` with the floor of the rationals. -/
theorem roundHalfEven_def (q : ℚ) :
    roundHalfEven q =
      if q - ⌊q⌋ < 1 / 2 then ⌊q⌋
      else if 1 / 2 < q - ⌊q⌋ then ⌊q⌋ + 1 else if ⌊q⌋ % 2 = 0 then ⌊q⌋ else ⌊q⌋ + 1 := rfl

/-- Rounding yields the floor, or the floor plus one when the fraction is at
least a half. -/
theorem roundHalfEven_cases (q : ℚ) :
    roundHalfEven q = ⌊q⌋ ∨ (roundHalfEven q = ⌊q⌋ + 1 ∧ 1 / 2 ≤ q - ⌊q⌋) := by
  rw [roundHalfEven_def]
  by_cases h1 : q - ⌊q⌋ < 1 / 2
  · left
    rw [if_pos h1]
  · rw [if_neg h1]
    by_cases h2 : 1 / 2 < q - ⌊q⌋
    · right
      rw [if_pos h2]
      exact ⟨rfl, le_of_lt h2⟩
    · rw [if_neg h2]
      by_cases h3 : ⌊q⌋ % 2 = 0
      · left
        rw [if_pos h3]
      · right
        rw [if_neg h3]
        exact ⟨rfl, not_lt.mp h1⟩

/-- An integer rounds to itself. -/
theorem roundHalfEven_intCast (n : Int) : roundHalfEven (n : ℚ) = n := by
  have h : (n : ℚ) - ⌊(n : ℚ)⌋ < 1 / 2 := by
    rw [Int.floor_intCast]
    norm_num
  rw [roundHalfEven_def, if_pos h, Int.floor_intCast]

/-- Rounding does not pass an integer above. -/
theorem roundHalfEven_le_int (q : ℚ) (n : Int) (h : q ≤ n) : roundHalfEven q ≤ n := by
  have hfl : ⌊q⌋ ≤ n := Int.floor_le_iff.mpr (lt_of_le_of_lt h (by exact_mod_cast Int.lt_succ n))
  rcases roundHalfEven_cases q with h1 | ⟨h1, h2⟩
  · rw [h1]; exact hfl
  · rw [h1]
    by_contra hc
    have hn : n = ⌊q⌋ := by omega
    have : (⌊q⌋ : ℚ) ≤ q := Int.floor_le q
    rw [hn] at h
    have : q - ⌊q⌋ ≤ 0 := by linarith
    linarith

/-- Rounding does not pass an integer below. -/
theorem roundHalfEven_ge_int (q : ℚ) (n : Int) (h : (n : ℚ) ≤ q) : n ≤ roundHalfEven q := by
  have hfl : n ≤ ⌊q⌋ := Int.le_floor.mpr h
  rcases roundHalfEven_cases q with h1 | ⟨h1, -⟩
  · rw [h1]; exact hfl
  · rw [h1]; omega

/-- A rational within less than a half of an integer rounds to it. -/
theorem roundHalfEven_near (q : ℚ) (n : Int) (h : |q - n| < 1 / 2) : roundHalfEven q = n := by
  have h1 := abs_lt.mp h
  have hlo : ((n - 1 : Int) : ℚ) ≤ q := by push_cast; linarith
  have hhi : q ≤ ((n + 1 : Int) : ℚ) := by push_cast; linarith
  have hfl1 : n - 1 ≤ ⌊q⌋ := Int.le_floor.mpr hlo
  have hfl2 : ⌊q⌋ ≤ n := by
    apply Int.floor_le_iff.mpr
    linarith [h1.2]
  have hq1 : (⌊q⌋ : ℚ) ≤ q := Int.floor_le q
  have hq2 : q < ⌊q⌋ + 1 := Int.lt_floor_add_one q
  by_cases hf : ⌊q⌋ = n
  · rw [roundHalfEven_def, hf, if_pos h1.2]
  · have hf2 : ⌊q⌋ = n - 1 := by omega
    have hd : ¬ (q - ((n - 1 : Int) : ℚ) < 1 / 2) := by push_cast; linarith [h1.1]
    have hd2 : (1 : ℚ) / 2 < q - ((n - 1 : Int) : ℚ) := by push_cast; linarith [h1.1]
    rw [roundHalfEven_def, hf2, if_neg hd, if_pos hd2]
    omega

/-- The unit in the last place is positive. -/
theorem float32Ulp_pos (q : ℚ) : 0 < float32Ulp q := by
  unfold float32Ulp
  positivity

/-- Zero is a `float32` value. -/
theorem float32_zero : float32 0 = 0 := by
  have h : (0 : ℚ) / float32Ulp 0 = ((0 : Int) : ℚ) := by simp
  rw [float32, h, roundHalfEven_intCast]
  simp

/-- Rounding keeps a value that is not positive from becoming positive. -/
theorem float32_nonpos (x : ℚ) (h : x ≤ 0) : float32 x ≤ 0 := by
  have hq : x / float32Ulp x ≤ ((0 : Int) : ℚ) := by
    rw [Int.cast_zero]
    exact div_nonpos_of_nonpos_of_nonneg h (le_of_lt (float32Ulp_pos x))
  have hr : ((roundHalfEven (x / float32Ulp x) : Int) : ℚ) ≤ 0 := by
    exact_mod_cast roundHalfEven_le_int _ _ hq
  exact mul_nonpos_of_nonpos_of_nonneg hr (le_of_lt (float32Ulp_pos x))

/-- Rounding keeps a value that is not negative from becoming negative. -/
theorem float32_nonneg (x : ℚ) (h : 0 ≤ x) : 0 ≤ float32 x := by
  have hq : ((0 : Int) : ℚ) ≤ x / float32Ulp x := by
    rw [Int.cast_zero]
    exact div_nonneg h (le_of_lt (float32Ulp_pos x))
  have hr : (0 : ℚ) ≤ ((roundHalfEven (x / float32Ulp x) : Int) : ℚ) := by
    exact_mod_cast roundHalfEven_ge_int _ _ hq
  exact mul_nonneg hr (le_of_lt (float32Ulp_pos x))

/-- Rounding a positive value does not pass a `float32` value above it. -/
theorem float32_le_of_le (x y : ℚ) (hx : 0 < x) (hxy : x ≤ y) (hy : float32 y = y) :
    float32 x ≤ y := by
  have hy0 : 0 < y := lt_of_lt_of_le hx hxy
  have hlog : Int.log 2 |x| ≤ Int.log 2 |y| := by
    rw [abs_of_pos hx, abs_of_pos hy0]
    exact Int.log_mono_right hx hxy
  have hexp : max (Int.log 2 |x|) (-126) ≤ max (Int.log 2 |y|) (-126) :=
    max_le_max hlog (le_refl _)
  obtain ⟨k, hk⟩ := Int.eq_ofNat_of_zero_le (sub_nonneg.mpr hexp)
  have hu : float32Ulp y = float32Ulp x * ((2 ^ k : Int) : ℚ) := by
    unfold float32Ulp
    have he : max (Int.log 2 |y|) (-126) - 23 = (max (Int.log 2 |x|) (-126) - 23) + (k : Int) := by
      omega
    rw [he, zpow_add₀ (by norm_num : (2 : ℚ) ≠ 0), zpow_natCast]
    push_cast
    rfl
  have hy1 : y = (roundHalfEven (y / float32Ulp y) : ℚ) * float32Ulp y := hy.symm
  generalize roundHalfEven (y / float32Ulp y) = n at hy1
  have hyu : y = ((n * 2 ^ k : Int) : ℚ) * float32Ulp x := by
    calc y = (n : ℚ) * float32Ulp y := hy1
      _ = (n : ℚ) * (float32Ulp x * ((2 ^ k : Int) : ℚ)) := by rw [hu]
      _ = ((n * 2 ^ k : Int) : ℚ) * float32Ulp x := by push_cast; ring
  have hq : x / float32Ulp x ≤ ((n * 2 ^ k : Int) : ℚ) := by
    rw [div_le_iff₀ (float32Ulp_pos x), ← hyu]
    exact hxy
  have hr := roundHalfEven_le_int _ _ hq
  have hr2 : ((roundHalfEven (x / float32Ulp x) : Int) : ℚ) ≤ ((n * 2 ^ k : Int) : ℚ) := by
    exact_mod_cast hr
  calc float32 x = (roundHalfEven (x / float32Ulp x) : ℚ) * float32Ulp x := rfl
    _ ≤ ((n * 2 ^ k : Int) : ℚ) * float32Ulp x :=
        mul_le_mul_of_nonneg_right hr2 (le_of_lt (float32Ulp_pos x))
    _ = y := hyu.symm

/-- A value of at least the smallest subnormal number does not round to 0. -/
theorem float32_pos (x : ℚ) (hx : (2 : ℚ) ^ (-149 : Int) ≤ x) : 0 < float32 x := by
  have hx0 : 0 < x := lt_of_lt_of_le (by positivity) hx
  have hu : float32Ulp x ≤ x := by
    unfold float32Ulp
    rcases le_total (Int.log 2 |x|) (-126) with hle | hle
    · rw [max_eq_right hle]
      exact hx
    · rw [max_eq_left hle, abs_of_pos hx0]
      have h1 : ((2 : ℕ) : ℚ) ^ Int.log 2 x ≤ x := Int.zpow_log_le_self (by norm_num) hx0
      have h2 : (2 : ℚ) ^ (Int.log 2 x - 23) ≤ (2 : ℚ) ^ Int.log 2 x :=
        zpow_le_zpow_right₀ (by norm_num) (by omega)
      exact le_trans h2 (by exact_mod_cast h1)
  have hq : ((1 : Int) : ℚ) ≤ x / float32Ulp x := by
    rw [Int.cast_one, le_div_iff₀ (float32Ulp_pos x), one_mul]
    exact hu
  have hr : (1 : ℚ) ≤ ((roundHalfEven (x / float32Ulp x) : Int) : ℚ) := by
    exact_mod_cast roundHalfEven_ge_int _ _ hq
  exact mul_pos (lt_of_lt_of_le one_pos hr) (float32Ulp_pos x)

/-- The unit in the last place of a value in the binade of exponent `e`. -/
theorem float32Ulp_of_binade (q : ℚ) (e : Int) (he : -126 ≤ e) (h1 : (2 : ℚ) ^ e ≤ |q|)
    (h2 : |q| < (2 : ℚ) ^ (e + 1)) : float32Ulp q = 2 ^ (e - 23) := by
  have hq : 0 < |q| := lt_of_lt_of_le (by positivity) h1
  have hlo : e ≤ Int.log 2 |q| :=
    (Int.zpow_le_iff_le_log (by norm_num) hq).mp (by exact_mod_cast h1)
  have hhi : Int.log 2 |q| < e + 1 :=
    (Int.lt_zpow_iff_log_lt (by norm_num) hq).mp (by exact_mod_cast h2)
  have hlog : Int.log 2 |q| = e := by omega
  unfold float32Ulp
  rw [hlog, max_eq_left he]

/-- The number 50 is a `float32` value. -/
theorem float32_fifty : float32 50 = 50 := by
  have hu : float32Ulp 50 = 2 ^ ((5 : Int) - 23) :=
    float32Ulp_of_binade 50 5 (by norm_num) (by norm_num) (by norm_num)
  have hq : (50 : ℚ) / 2 ^ ((5 : Int) - 23) = ((13107200 : Int) : ℚ) := by norm_num
  rw [float32, hu, hq, roundHalfEven_intCast]
  norm_num

/-- The number 100 is a `float32` value. -/
theorem float32_hundred : float32 100 = 100 := by
  have hu : float32Ulp 100 = 2 ^ ((6 : Int) - 23) :=
    float32Ulp_of_binade 100 6 (by norm_num) (by norm_num) (by norm_num)
  have hq : (100 : ℚ) / 2 ^ ((6 : Int) - 23) = ((13107200 : Int) : ℚ) := by norm_num
  rw [float32, hu, hq, roundHalfEven_intCast]
  norm_num

/-- The `float32` nearest to one tenth, 13421773 / 2 ^ 27, is a `float32`
value. -/
theorem float32_tenth : float32 (13421773 / 134217728) = 13421773 / 134217728 := by
  have hu : float32Ulp (13421773 / 134217728) = 2 ^ ((-4 : Int) - 23) :=
    float32Ulp_of_binade _ (-4) (by norm_num) (by norm_num [abs_of_pos]) (by norm_num [abs_of_pos])
  have hq : (13421773 / 134217728 : ℚ) / 2 ^ ((-4 : Int) - 23) = ((13421773 : Int) : ℚ) := by
    norm_num
  rw [float32, hu, hq, roundHalfEven_intCast]
  norm_num

/-- The difference of 100 and the `float32` nearest to one tenth is not a
`float32` value: it rounds to 13094093 / 2 ^ 17. -/
theorem float32_hundred_sub_tenth :
    float32 (100 - 13421773 / 134217728) = 13094093 / 131072 := by
  have hv : (100 - 13421773 / 134217728 : ℚ) = 13408351027 / 134217728 := by norm_num
  have hu : float32Ulp (13408351027 / 134217728) = 2 ^ ((6 : Int) - 23) :=
    float32Ulp_of_binade _ 6 (by norm_num) (by norm_num [abs_of_pos]) (by norm_num [abs_of_pos])
  have hr : roundHalfEven ((13408351027 / 134217728 : ℚ) / 2 ^ ((6 : Int) - 23)) = 13094093 := by
    apply roundHalfEven_near
    norm_num [abs_lt]
  rw [hv, float32, hu, hr]
  norm_num

/-- A `float32` value above 50 exceeds it by at least 2 ^ -18, so the
difference does not round to 0. -/
theorem float32_sub_fifty_pos (h : ℚ) (hrep : float32 h = h) (hlt : 50 < h) :
    0 < float32 (h - 50) := by
  have h0 : 0 < h := by linarith
  have hlog : (5 : Int) ≤ Int.log 2 |h| := by
    rw [abs_of_pos h0]
    apply (Int.zpow_le_iff_le_log (by norm_num) h0).mp
    norm_num
    linarith
  obtain ⟨k, hk⟩ := Int.eq_ofNat_of_zero_le (sub_nonneg.mpr hlog)
  have hu : float32Ulp h = (2 : ℚ) ^ (-18 : Int) * ((2 ^ k : Int) : ℚ) := by
    unfold float32Ulp
    have he : max (Int.log 2 |h|) (-126) - 23 = (-18 : Int) + (k : Int) := by omega
    rw [he, zpow_add₀ (by norm_num : (2 : ℚ) ≠ 0), zpow_natCast]
    push_cast
    rfl
  have h1 : h = (roundHalfEven (h / float32Ulp h) : ℚ) * float32Ulp h := hrep.symm
  generalize roundHalfEven (h / float32Ulp h) = n at h1
  have h2 : h * 262144 = ((n * 2 ^ k : Int) : ℚ) := by
    rw [h1, hu]
    push_cast
    norm_num
    ring
  have h3 : ((13107200 : Int) : ℚ) < ((n * 2 ^ k : Int) : ℚ) := by
    rw [← h2]
    push_cast
    linarith
  have h4 : (13107200 : Int) + 1 ≤ n * 2 ^ k := by exact_mod_cast h3
  have h5 : ((13107201 : Int) : ℚ) ≤ ((n * 2 ^ k : Int) : ℚ) := by exact_mod_cast h4
  rw [← h2] at h5
  apply float32_pos
  have : (2 : ℚ) ^ (-149 : Int) ≤ 1 / 262144 := by
    rw [show (1 : ℚ) / 262144 = 2 ^ (-18 : Int) by norm_num]
    exact zpow_le_zpow_right₀ (by norm_num) (by norm_num)
  push_cast at h5
  have h6 : (1 : ℚ) / 262144 ≤ h - 50 := by linarith
  exact le_trans this h6

/-- Rounding moves a value by at most a half. -/
theorem roundHalfEven_error (q : ℚ) : |(roundHalfEven q : ℚ) - q| ≤ 1 / 2 := by
  have hq1 : (⌊q⌋ : ℚ) ≤ q := Int.floor_le q
  have hq2 : q < ⌊q⌋ + 1 := Int.lt_floor_add_one q
  rw [roundHalfEven_def, abs_le]
  by_cases h1 : q - ⌊q⌋ < 1 / 2
  · rw [if_pos h1]
    constructor <;> linarith
  · rw [if_neg h1]
    have h1' : (1 : ℚ) / 2 ≤ q - ⌊q⌋ := not_lt.mp h1
    by_cases h2 : 1 / 2 < q - ⌊q⌋
    · rw [if_pos h2]
      push_cast
      constructor <;> linarith
    · rw [if_neg h2]
      have h2' : q - ⌊q⌋ ≤ 1 / 2 := not_lt.mp h2
      by_cases h3 : ⌊q⌋ % 2 = 0
      · rw [if_pos h3]
        constructor <;> linarith
      · rw [if_neg h3]
        push_cast
        constructor <;> linarith

/-- Rounding to `float32` moves a value by at most half a unit in the last
place. -/
theorem float32_error (x : ℚ) : |float32 x - x| ≤ float32Ulp x / 2 := by
  have hu := float32Ulp_pos x
  have h := roundHalfEven_error (x / float32Ulp x)
  have hx : float32 x - x = ((roundHalfEven (x / float32Ulp x) : ℚ) - x / float32Ulp x) *
      float32Ulp x := by
    rw [float32]
    field_simp
  rw [hx, abs_mul, abs_of_pos hu]
  calc |(roundHalfEven (x / float32Ulp x) : ℚ) - x / float32Ulp x| * float32Ulp x
      ≤ 1 / 2 * float32Ulp x := mul_le_mul_of_nonneg_right h (le_of_lt hu)
    _ = float32Ulp x / 2 := by ring

/-- A `float32` value of at least 32 is a multiple of 2 ^ -18. -/
theorem float32_grid (h : ℚ) (hrep : float32 h = h) (h32 : 32 ≤ h) :
    ∃ N : Int, h * 262144 = (N : ℚ) := by
  have h0 : 0 < h := by linarith
  have hlog : (5 : Int) ≤ Int.log 2 |h| := by
    rw [abs_of_pos h0]
    apply (Int.zpow_le_iff_le_log (by norm_num) h0).mp
    norm_num
    linarith
  obtain ⟨k, hk⟩ := Int.eq_ofNat_of_zero_le (sub_nonneg.mpr hlog)
  have hu : float32Ulp h = (2 : ℚ) ^ (-18 : Int) * ((2 ^ k : Int) : ℚ) := by
    unfold float32Ulp
    have he : max (Int.log 2 |h|) (-126) - 23 = (-18 : Int) + (k : Int) := by omega
    rw [he, zpow_add₀ (by norm_num : (2 : ℚ) ≠ 0), zpow_natCast]
    push_cast
    rfl
  have h1 : h = (roundHalfEven (h / float32Ulp h) : ℚ) * float32Ulp h := hrep.symm
  generalize roundHalfEven (h / float32Ulp h) = n at h1
  refine ⟨n * 2 ^ k, ?_⟩
  rw [h1, hu]
  push_cast
  norm_num
  ring

/-- The difference of a `float32` value between 50 and 100 and 50 is a
`float32` value: the subtraction is exact. -/
theorem float32_sub_fifty_exact (h : ℚ) (hrep : float32 h = h) (h50 : 50 ≤ h) (h100 : h ≤ 100) :
    float32 (h - 50) = h - 50 := by
  rcases eq_or_lt_of_le h50 with heq | hlt
  · rw [← heq, sub_self, float32_zero]
  · obtain ⟨N, hN⟩ := float32_grid h hrep (by linarith)
    have hx0 : 0 < h - 50 := by linarith
    have hM : (h - 50) * 262144 = ((N - 13107200 : Int) : ℚ) := by
      push_cast
      linarith
    have hlog : Int.log 2 |h - 50| < 6 := by
      rw [abs_of_pos hx0]
      apply (Int.lt_zpow_iff_log_lt (by norm_num) hx0).mp
      norm_num
      linarith
    have hexp : max (Int.log 2 |h - 50|) (-126) ≤ 5 := max_le (by omega) (by norm_num)
    obtain ⟨k, hk⟩ := Int.eq_ofNat_of_zero_le (sub_nonneg.mpr hexp)
    have hu : (2 : ℚ) ^ (-18 : Int) = float32Ulp (h - 50) * ((2 ^ k : Int) : ℚ) := by
      unfold float32Ulp
      have he : (-18 : Int) = (max (Int.log 2 |h - 50|) (-126) - 23) + (k : Int) := by omega
      conv_lhs => rw [he]
      rw [zpow_add₀ (by norm_num : (2 : ℚ) ≠ 0), zpow_natCast]
      push_cast
      rfl
    have hq : (h - 50) / float32Ulp (h - 50) = (((N - 13107200) * 2 ^ k : Int) : ℚ) := by
      rw [div_eq_iff (ne_of_gt (float32Ulp_pos _))]
      have h18 : (h - 50) = ((N - 13107200 : Int) : ℚ) * (2 : ℚ) ^ (-18 : Int) := by
        rw [← hM]
        norm_num
        ring
      conv_lhs => rw [h18, hu]
      push_cast
      ring
    rw [float32, hq, roundHalfEven_intCast, ← hq]
    exact div_mul_cancel₀ _ (ne_of_gt (float32Ulp_pos _))

/-- The number -50 is a `float32` value. -/
theorem float32_neg_fifty : float32 (-50) = -50 := by
  have hu : float32Ulp (-50) = 2 ^ ((5 : Int) - 23) :=
    float32Ulp_of_binade (-50) 5 (by norm_num) (by norm_num) (by norm_num)
  have hq : (-50 : ℚ) / 2 ^ ((5 : Int) - 23) = ((-13107200 : Int) : ℚ) := by norm_num
  rw [float32, hu, hq, roundHalfEven_intCast]
  norm_num

/-- Clamping at 0 does not add to the rounding error. -/
theorem float32_clamp_error (x : ℚ) : |max 0 (float32 x) - max 0 x| ≤ float32Ulp x / 2 := by
  have h := abs_max_sub_max_le_abs (float32 x) x 0
  rw [max_comm (float32 x) 0, max_comm x 0] at h
  exact le_trans h (float32_error x)

/-- Method `TakeDamage` stores the rounded difference, or 0 when that is
negative. -/
theorem TakeDamage_eq (p : Player) (d : ℚ) :
    p.TakeDamage d = { p with health := max 0 (float32 (p.Health - d)) } := by
  unfold Player.TakeDamage Player.Health
  by_cases hneg : float32 (p.health - d) < 0
  · simp [hneg, max_eq_left (le_of_lt hneg)]
  · simp [hneg, max_eq_right (not_lt.mp hneg)]

/-- A damage of at least the health leaves the health 0. -/
theorem TakeDamage_lethal (p : Player) (d : ℚ) (h : p.Health ≤ d) :
    p.TakeDamage d = { p with health := 0 } := by
  rw [TakeDamage_eq, max_eq_left (float32_nonpos _ (by linarith))]

/-- Method `PlayerNameUnique` returns, lock restored, when the lock is not write-held. -/
theorem PlayerNameUnique_run (r : Roster) (name : String) (h : r.lock.writer = false) :
    Roster.PlayerNameUnique name r
      = .ret (!(r.players.entries.any (fun e => decide (name = e.2.Name)))) r := by
  obtain ⟨⟨readers, writer⟩, players, kills, deaths⟩ := r
  simp only at h
  subst h
  simp [Roster.PlayerNameUnique, Roster.RLock, Roster.RUnlock]

/-- Method `PlayerNameUnique` waits forever when the lock is write-held. -/
theorem PlayerNameUnique_blocked (r : Roster) (name : String) (h : r.lock.writer = true) :
    Roster.PlayerNameUnique name r = .blocked r := by
  simp [Roster.PlayerNameUnique, Roster.RLock, Roster.RUnlock, h]

/-- Method `PlayerIDUnique` returns whether the identity is absent, lock restored. -/
theorem PlayerIDUnique_run (r : Roster) (puuid : UUID) (h : r.lock.writer = false) :
    Roster.PlayerIDUnique puuid r = .ret (decide (puuid ∉ r.players)) r := by
  obtain ⟨⟨readers, writer⟩, players, kills, deaths⟩ := r
  simp only at h
  subst h
  simp [Roster.PlayerIDUnique, Roster.RLock, Roster.RUnlock, AList.mem_keys, any_decide_eq]

/-- No registered name is longer than `maxNameLen`. -/
theorem name_length_le_max (r : Roster) (e : Sigma (fun _ : UUID => Player))
    (he : e ∈ r.players.entries) : e.2.Name.length ≤ r.maxNameLen := by
  unfold Roster.maxNameLen
  generalize r.players.entries = l at he
  induction l with
  | nil => simp at he
  | cons x xs ih =>
    simp only [List.map_cons, List.foldr_cons]
    rcases List.mem_cons.mp he with h | h
    · subst h; exact le_max_left _ _
    · exact le_trans (ih h) (le_max_right _ _)

/-- The flag computed by `PlayerNameUnique` is true exactly when the name is free. -/
theorem nameUnique_eq_true (r : Roster) (name : String) :
    (!(r.players.entries.any (fun e => decide (name = e.2.Name)))) = true ↔ ¬ r.NameTaken name := by
  unfold Roster.NameTaken
  rw [Bool.not_eq_true', ← Bool.not_eq_true, List.any_eq_true]
  constructor
  · rintro h ⟨e, he, hn⟩
    exact h ⟨e, he, decide_eq_true hn.symm⟩
  · rintro h ⟨e, he, hn⟩
    exact h ⟨e, he, (of_decide_eq_true hn).symm⟩

/-- The renaming loop terminates for every digit sequence: given as many iterations as the longest registered name has characters, plus one more than already used by the name, it returns the player renamed by a run of digits to a free name, and draws no digit when the name was free. -/
theorem renameLoop_run (digits : Nat → Fin 10) (r : Roster) (hw : r.lock.writer = false) :
    ∀ (fuel i : Nat) (p : Player), r.maxNameLen + 1 ≤ fuel + p.Name.length →
      ∃ ds : List (Fin 10),
        renameLoop digits (fuel + 1) i p r
          = .ret (p.SetName (ds.foldl (fun s d => s ++ toString d.val) p.Name)) r ∧
        ¬ r.NameTaken (ds.foldl (fun s d => s ++ toString d.val) p.Name) ∧
        (¬ r.NameTaken p.Name → ds = []) := by
  intro fuel
  induction fuel with
  | zero =>
    intro i p hlen
    refine ⟨[], ?_⟩
    have hfree : ¬ r.NameTaken p.Name := by
      rintro ⟨e, he, hn⟩
      have := name_length_le_max r e he
      rw [hn] at this
      omega
    have hb := (nameUnique_eq_true r p.Name).mpr hfree
    refine ⟨?_, hfree, fun _ => rfl⟩
    rw [renameLoop]
    simp only [Op.bind_run, PlayerNameUnique_run r _ hw, hb]
    rfl
  | succ fuel ih =>
    intro i p hlen
    by_cases hfree : r.NameTaken p.Name
    · have hb : (!(r.players.entries.any (fun e => decide (p.Name = e.2.Name)))) = false := by
        rw [← Bool.not_eq_true, nameUnique_eq_true]; simpa using hfree
      obtain ⟨ds, hrun, huniq, -⟩ := ih (i + 1) (p.SetName (p.Name ++ toString (digits i).val))
        (by simp [Player.SetName, Player.Name, String.length_append, digit_length] at hlen ⊢; omega)
      refine ⟨digits i :: ds, ?_, ?_, ?_⟩
      · rw [renameLoop]
        simp only [Op.bind_run, PlayerNameUnique_run r _ hw, hb]
        simpa [Player.SetName, Player.Name] using hrun
      · simpa [Player.SetName, Player.Name] using huniq
      · intro h; exact absurd hfree h
    · refine ⟨[], ?_⟩
      have hb := (nameUnique_eq_true r p.Name).mpr hfree
      refine ⟨?_, hfree, fun _ => rfl⟩
      rw [renameLoop]
      simp only [Op.bind_run, PlayerNameUnique_run r _ hw, hb]
      rfl

/-- A scan that reports the address unique met no equal address. -/
theorem connUniqueScan_true (conn : Option Conn) :
    ∀ l : List (Sigma (fun _ : UUID => Player)), connUniqueScan conn l = some true →
      ¬ ∃ e ∈ l, ∃ c c1, conn = some c ∧ e.2.Connection = some c1 ∧ c.RemoteAddr = c1.RemoteAddr := by
  intro l
  induction l with
  | nil => simp
  | cons x xs ih =>
    intro h
    unfold connUniqueScan at h
    rintro ⟨e, he, c, c1, hc, hc1, hcc⟩
    subst hc
    cases hx : x.2.Connection with
    | none => simp [hx] at h
    | some cx =>
      simp only [hx] at h
      by_cases heq : c.RemoteAddr = cx.RemoteAddr
      · simp [heq] at h
      · simp only [heq, if_false] at h
        rcases List.mem_cons.mp he with rfl | hmem
        · rw [hx] at hc1
          cases hc1
          exact heq hcc
        · exact ih h ⟨e, hmem, c, c1, rfl, hc1, hcc⟩

/-- A scan that reports a clash met an equal address. -/
theorem connUniqueScan_false (conn : Option Conn) :
    ∀ l : List (Sigma (fun _ : UUID => Player)), connUniqueScan conn l = some false →
      ∃ e ∈ l, ∃ c c1, conn = some c ∧ e.2.Connection = some c1 ∧ c.RemoteAddr = c1.RemoteAddr := by
  intro l
  induction l with
  | nil => simp [connUniqueScan]
  | cons x xs ih =>
    intro h
    unfold connUniqueScan at h
    cases conn with
    | none => simp at h
    | some c =>
      cases hx : x.2.Connection with
      | none => simp [hx] at h
      | some cx =>
        simp only [hx] at h
        by_cases heq : c.RemoteAddr = cx.RemoteAddr
        · exact ⟨x, List.mem_cons_self _ _, c, cx, rfl, hx, heq⟩
        · simp only [heq, if_false] at h
          obtain ⟨e, he, c2, c1, h1, h2, h3⟩ := ih h
          exact ⟨e, List.mem_cons_of_mem _ he, c2, c1, h1, h2, h3⟩

/-- The scan dereferences no nil when all connections are present. -/
theorem connUniqueScan_live (c : Conn) :
    ∀ l : List (Sigma (fun _ : UUID => Player)), (∀ e ∈ l, e.2.Connection ≠ none) →
      ∃ b, connUniqueScan (some c) l = some b := by
  intro l
  induction l with
  | nil => intro _; exact ⟨true, rfl⟩
  | cons x xs ih =>
    intro h
    unfold connUniqueScan
    cases hx : x.2.Connection with
    | none => exact absurd hx (h x (List.mem_cons_self _ _))
    | some cx =>
      by_cases heq : c.RemoteAddr = cx.RemoteAddr
      · exact ⟨false, by simp [heq]⟩
      · simpa [heq] using ih (fun e he => h e (List.mem_cons_of_mem _ he))

/-- Method `PlayerConnUnique`: the scan result, or a nil dereference with the read lock held. -/
theorem PlayerConnUnique_run (r : Roster) (conn : Option Conn) (h : r.lock.writer = false) :
    Roster.PlayerConnUnique conn r
      = match connUniqueScan conn r.players.entries with
        | none => .crash { r with lock := { r.lock with readers := r.lock.readers + 1 } }
        | some b => .ret b r := by
  obtain ⟨⟨readers, writer⟩, players, kills, deaths⟩ := r
  simp only at h
  subst h
  cases hs : connUniqueScan conn players.entries <;>
    simp [Roster.PlayerConnUnique, Roster.RLock, Roster.RUnlock, hs]

/-- What `AddPlayer` does from a state whose lock is not write-held. -/
theorem AddPlayer_run (digits : Nat → Fin 10) (p : Player) (r : Roster)
    (hw : r.lock.writer = false) :
    (p.ID ∈ r.players ∧ Roster.AddPlayer digits p r = .ret false r) ∨
    (p.ID ∉ r.players ∧ connUniqueScan p.Connection r.players.entries = none ∧
      Roster.AddPlayer digits p r
        = .crash { r with lock := { r.lock with readers := r.lock.readers + 1 } }) ∨
    (p.ID ∉ r.players ∧ connUniqueScan p.Connection r.players.entries = some false ∧
      Roster.AddPlayer digits p r = .ret false r) ∨
    (p.ID ∉ r.players ∧ connUniqueScan p.Connection r.players.entries = some true ∧
      ∃ ds : List (Fin 10),
        ¬ r.NameTaken (ds.foldl (fun s d => s ++ toString d.val) p.Name) ∧
        (¬ r.NameTaken p.Name → ds = []) ∧
        ((r.lock.readers ≠ 0 ∧ Roster.AddPlayer digits p r = .blocked r) ∨
         (r.lock.readers = 0 ∧
          Roster.AddPlayer digits p r = .ret true
            { r with
              players := r.players.insert p.ID
                (p.SetName (ds.foldl (fun s d => s ++ toString d.val) p.Name)),
              deaths := r.deaths.insert p.ID 0,
              kills := r.kills.insert p.ID 0 }))) := by
  unfold Roster.AddPlayer
  by_cases hid : p.ID ∈ r.players
  · left
    exact ⟨hid, by simp [PlayerIDUnique_run r _ hw, hid]⟩
  · right
    cases hs : connUniqueScan p.Connection r.players.entries with
    | none =>
      left
      exact ⟨hid, rfl, by simp [PlayerIDUnique_run r _ hw, PlayerConnUnique_run r _ hw, hid, hs]⟩
    | some b =>
      right
      cases b with
      | false =>
        left
        exact ⟨hid, rfl, by simp [PlayerIDUnique_run r _ hw, PlayerConnUnique_run r _ hw, hid, hs]⟩
      | true =>
        right
        obtain ⟨ds, hrun, huniq, hnil⟩ :=
          renameLoop_run digits r hw (r.maxNameLen + 1) 0 p (by omega)
        have hrun2 : renameLoop digits (r.maxNameLen + 2) 0 p r
            = .ret (p.SetName (ds.foldl (fun s d => s ++ toString d.val) p.Name)) r := hrun
        refine ⟨hid, rfl, ds, huniq, hnil, ?_⟩
        by_cases hr : r.lock.readers = 0
        · right
          refine ⟨hr, ?_⟩
          have hlock : Roster.Lock r
              = .ret () { r with lock := { r.lock with writer := true } } := by
            simp [Roster.Lock, hr, hw]
          have hfin : ({ readers := r.lock.readers, writer := false } : RWMutex) = r.lock := by
            rw [← hw]
          simp [PlayerIDUnique_run r _ hw, PlayerConnUnique_run r _ hw, hs, hid, hrun2, hlock,
            Roster.Unlock, hfin]
          exact ⟨rfl, rfl, rfl⟩
        · left
          refine ⟨hr, ?_⟩
          have hlock : Roster.Lock r = .blocked r := by
            simp [Roster.Lock, hr]
          simp [PlayerIDUnique_run r _ hw, PlayerConnUnique_run r _ hw, hs, hid, hrun2, hlock]

/-- Method `AddPlayer` waits forever when the lock is write-held. -/
theorem AddPlayer_blocked (digits : Nat → Fin 10) (p : Player) (r : Roster)
    (hw : r.lock.writer = true) : Roster.AddPlayer digits p r = .blocked r := by
  simp [Roster.AddPlayer, Roster.PlayerIDUnique, Roster.RLock, hw]

/-- What `RemovePlayer` does from a state whose lock is free. -/
theorem RemovePlayer_run (r : Roster) (puuid : UUID) (hlock : r.lock = RWMutex.free) :
    Roster.RemovePlayer puuid r =
      match r.players.lookup puuid with
      | none => .ret false r
      | some p =>
        match p.Connection with
        | none => .crash { r with lock := { r.lock with writer := true } }
        | some _ => .ret true { r with players := r.players.erase puuid,
                                       kills := r.kills.erase puuid,
                                       deaths := r.deaths.erase puuid } := by
  obtain ⟨lock, players, kills, deaths⟩ := r
  simp only at hlock
  subst hlock
  cases hp : players.lookup puuid with
  | none => simp [Roster.RemovePlayer, Roster.Lock, Roster.Unlock, RWMutex.free, hp]
  | some p =>
    cases hc : p.Connection <;>
      simp [Roster.RemovePlayer, Roster.Lock, Roster.Unlock, RWMutex.free, hp, hc]

/-- What `PlayerDamage` does from a state whose lock is free. -/
theorem PlayerDamage_run (r : Roster) (puuid : UUID) (d : ℚ) (hlock : r.lock = RWMutex.free) :
    Roster.PlayerDamage puuid d r =
      .ret (((r.players.lookup puuid).getD Player.zero).TakeDamage d).Health
        { r with players := r.players.insert puuid
                   (((r.players.lookup puuid).getD Player.zero).TakeDamage d) } := by
  obtain ⟨lock, players, kills, deaths⟩ := r
  simp only at hlock
  subst hlock
  simp [Roster.PlayerDamage, Roster.Lock, Roster.Unlock, RWMutex.free]

/-- Method `PlayerConn` on a registered identity returns with one more read hold. -/
theorem PlayerConn_run_registered (r : Roster) (puuid : UUID) (p : Player)
    (hw : r.lock.writer = false) (hp : r.players.lookup puuid = some p) :
    Roster.PlayerConn puuid r =
      .ret p.Connection { r with lock := { r.lock with readers := r.lock.readers + 1 } } := by
  simp [Roster.PlayerConn, Roster.RLock, hw, hp]

/-- Method `PlayerConn` on an unregistered identity returns nil, lock restored. -/
theorem PlayerConn_run_unregistered (r : Roster) (puuid : UUID)
    (hw : r.lock.writer = false) (hp : r.players.lookup puuid = none) :
    Roster.PlayerConn puuid r = .ret none r := by
  obtain ⟨⟨readers, writer⟩, players, kills, deaths⟩ := r
  simp only at hw hp
  subst hw
  simp [Roster.PlayerConn, Roster.RLock, Roster.RUnlock, hp]

/-- Method `PlayerKilled` waits forever while a read hold is outstanding. -/
theorem Roster_PlayerKilled_blocked (r : Roster) (v a : UUID) (h : r.lock.readers ≠ 0) :
    Roster.PlayerKilled v a r = .blocked r := by
  simp [Roster.PlayerKilled, Roster.Lock, h]

/-- Method `PlayerLookup` returns the scan result, lock restored. -/
theorem PlayerLookup_run (r : Roster) (name : String) (addr : Option String)
    (h : r.lock.writer = false) :
    Roster.PlayerLookup name addr r = .ret (lookupScan name addr r.players.entries) r := by
  obtain ⟨⟨readers, writer⟩, players, kills, deaths⟩ := r
  simp only at h
  subst h
  simp [Roster.PlayerLookup, Roster.RLock, Roster.RUnlock]

/-- Method `PlayerLookup` waits forever when the lock is write-held. -/
theorem PlayerLookup_blocked (r : Roster) (name : String) (addr : Option String)
    (h : r.lock.writer = true) : Roster.PlayerLookup name addr r = .blocked r := by
  simp [Roster.PlayerLookup, Roster.RLock, h]

/-- With an empty name, the scan returns `uuid.Nil` when no connection has the address. -/
theorem lookupScan_unknown (a : String) :
    ∀ l : List (Sigma (fun _ : UUID => Player)),
      (∀ e ∈ l, e.2.Connection.map Conn.RemoteAddr ≠ some a) →
      lookupScan "" (some a) l = uuid.Nil := by
  intro l
  induction l with
  | nil => intro _; rfl
  | cons x xs ih =>
    intro h
    unfold lookupScan
    have hx := h x (List.mem_cons_self _ _)
    have hrest := ih (fun e he => h e (List.mem_cons_of_mem _ he))
    cases hc : x.2.Connection with
    | none => simp [hrest]
    | some c =>
      have hne : c.RemoteAddr ≠ a := by simpa [hc] using hx
      simp [hne, hrest]

/-- The scan returns the key of an entry that has the name, when every entry
whose connection matches has the name too. -/
theorem lookupScan_by_name (name : String) (addr : Option String) (hname : name ≠ "") :
    ∀ l : List (Sigma (fun _ : UUID => Player)),
      (∃ e ∈ l, e.2.Name = name) →
      (∀ e ∈ l, addr ≠ none → e.2.Connection.map Conn.RemoteAddr = addr → e.2.Name = name) →
      ∃ e ∈ l, e.2.Name = name ∧ lookupScan name addr l = e.1 := by
  intro l
  induction l with
  | nil => rintro ⟨e, he, -⟩; cases he
  | cons x xs ih =>
    intro hex haddr
    by_cases hx : name = x.2.Name
    · refine ⟨x, List.mem_cons_self _ _, hx.symm, ?_⟩
      unfold lookupScan
      rw [if_pos ⟨hname, hx⟩]
    · have hex2 : ∃ e ∈ xs, e.2.Name = name := by
        obtain ⟨e, he, hn⟩ := hex
        rcases List.mem_cons.mp he with rfl | hmem
        · exact absurd hn.symm hx
        · exact ⟨e, hmem, hn⟩
      obtain ⟨e, he, hn, hrun⟩ := ih hex2 (fun e he => haddr e (List.mem_cons_of_mem _ he))
      refine ⟨e, List.mem_cons_of_mem _ he, hn, ?_⟩
      unfold lookupScan
      simp only [hx, and_false, if_false]
      cases hc : x.2.Connection with
      | none => simpa using hrun
      | some c =>
        cases addr with
        | none => simpa using hrun
        | some a =>
          have hca : c.RemoteAddr ≠ a := by
            intro hca
            exact hx (haddr x (List.mem_cons_self _ _) (by simp) (by simp [hc, hca])).symm
          simpa [hca] using hrun

/-- Distinctness of entries is symmetric. -/
theorem Distinct_symm : Symmetric Distinct := by
  intro e f h
  exact ⟨fun hn => h.1 hn.symm, fun c c1 hc hc1 hcc => h.2 c1 c hc1 hc hcc.symm⟩

/-- Every reachable roster satisfies the join/leave invariant. -/
theorem JoinLeaveInv_of_reachable (r : Roster) (h : JoinLeaveReachable r) : r.JoinLeaveInv := by
  induction h with
  | init =>
    refine ⟨rfl, ?_, List.Pairwise.nil⟩
    intro e he
    simp [newRoster] at he
  | add r r1 digits p b _ hconn hrun ih =>
    obtain ⟨hlock, hent, hpair⟩ := ih
    have hw : r.lock.writer = false := by rw [hlock]; rfl
    rcases AddPlayer_run digits p r hw with
      ⟨hid, hrun1⟩ | ⟨hid, hs, hrun1⟩ | ⟨hid, hs, hrun1⟩ | ⟨hid, hs, ds, huniq, -, hrun1⟩
    · rw [hrun1] at hrun; cases hrun; exact ⟨hlock, hent, hpair⟩
    · rw [hrun1] at hrun; cases hrun
    · rw [hrun1] at hrun; cases hrun; exact ⟨hlock, hent, hpair⟩
    · rcases hrun1 with ⟨hr, hrun1⟩ | ⟨hr, hrun1⟩
      · rw [hrun1] at hrun; cases hrun
      · rw [hrun1] at hrun
        cases hrun
        have hnot := connUniqueScan_true _ _ hs
        refine ⟨hlock, ?_, ?_⟩
        · intro e he
          simp only [AList.insert_entries_of_neg hid] at he
          rcases List.mem_cons.mp he with rfl | hmem
          · exact ⟨rfl, hconn⟩
          · exact hent e hmem
        · simp only [AList.insert_entries_of_neg hid]
          refine List.Pairwise.cons ?_ hpair
          intro f hf
          refine ⟨fun hn => huniq ⟨f, hf, hn.symm⟩, ?_⟩
          intro c c1 hc hc1 hcc
          exact hnot ⟨f, hf, c, c1, hc, hc1, hcc⟩
  | remove r r1 puuid b _ hrun ih =>
    obtain ⟨hlock, hent, hpair⟩ := ih
    rw [RemovePlayer_run r puuid hlock] at hrun
    cases hp : r.players.lookup puuid with
    | none =>
      simp only [hp] at hrun
      cases hrun
      exact ⟨hlock, hent, hpair⟩
    | some p =>
      cases hc : p.Connection with
      | none => simp only [hp, hc] at hrun; cases hrun
      | some c =>
        simp only [hp, hc] at hrun
        cases hrun
        have hsub : (r.players.erase puuid).entries.Sublist r.players.entries :=
          List.kerase_sublist _ _
        exact ⟨hlock, fun e he => hent e (hsub.subset he), hpair.sublist hsub⟩
  | reorder r r1 _ hl hp _ _ ih =>
    obtain ⟨hlock, hent, hpair⟩ := ih
    exact ⟨hl.trans hlock, fun e he => hent e (hp.mem_iff.mp he),
      (hp.pairwise_iff (fun {_ _} h => Distinct_symm h)).mpr hpair⟩

/-- What `Server.PlayerHit` does when the victim resolves to a registered
player and the lock is free: the damage is stored and the health notice is
sent, `PlayerConn` leaves one read hold behind, and a lethal hit then waits
forever in `Roster.PlayerKilled`. -/
theorem PlayerHit_run (orders : Nat → RangeOrder) (w : World) (victim : String)
    (aUUID vUUID : UUID) (d : ℚ) (p : Player)
    (hlock : w.ROSTER.lock = RWMutex.free)
    (hv : lookupScan victim none w.ROSTER.players.entries = vUUID)
    (hne : vUUID ≠ uuid.Nil) (hp : w.ROSTER.players.lookup vUUID = some p) :
    Server.PlayerHit orders victim aUUID d w =
      (if (p.TakeDamage d).Health ≤ 0 then Outcome.blocked else Outcome.ret ())
        { w with
          ROSTER :=
            { lock := { readers := 1, writer := false },
              players := w.ROSTER.players.insert vUUID (p.TakeDamage d),
              kills := w.ROSTER.kills,
              deaths := w.ROSTER.deaths },
          sent :=
            match p.Connection with
            | some c =>
              w.sent ++ [(c, newClientMessage
                ("remaining health " ++ fmtFloat2 (p.TakeDamage d).Health))]
            | none => w.sent } := by
  obtain ⟨⟨lock, players, kills, deaths⟩, svr, sent⟩ := w
  simp only at hlock hv hp
  subst hlock
  have h1 := liftR_ret _ (World.mk ⟨RWMutex.free, players, kills, deaths⟩ svr sent) _ _
    (PlayerLookup_run ⟨RWMutex.free, players, kills, deaths⟩ victim none rfl)
  have h2 := liftR_ret _ (World.mk ⟨RWMutex.free, players, kills, deaths⟩ svr sent) _ _
    (PlayerDamage_run ⟨RWMutex.free, players, kills, deaths⟩ vUUID d rfl)
  have h3 := liftR_ret _
    (World.mk ⟨RWMutex.free, players.insert vUUID (p.TakeDamage d), kills, deaths⟩ svr sent) _ _
    (PlayerConn_run_registered
      ⟨RWMutex.free, players.insert vUUID (p.TakeDamage d), kills, deaths⟩ vUUID
      (p.TakeDamage d) rfl (AList.lookup_insert _))
  simp only [hp, Option.getD_some] at h2
  unfold Server.PlayerHit
  simp only [Op.bind_run, h1, hv, hne, if_false, h2, Server.ClientMessage, h3]
  have hconn : (p.TakeDamage d).Connection = p.Connection := by
    rw [TakeDamage_eq]
    rfl
  rw [hconn]
  by_cases hdead : (p.TakeDamage d).Health ≤ 0
  · simp only [hdead, if_true]
    cases p.Connection <;>
      simp [netSendMessage, Server.PlayerKilled, liftR, Roster.PlayerKilled, Roster.Lock,
        RWMutex.free]
  · simp only [hdead, if_false]
    cases p.Connection <;> simp [netSendMessage, RWMutex.free]

/-- The renaming loop of `AddPlayer` never runs out of iterations. -/
theorem AddPlayer_no_timeout (digits : Nat → Fin 10) (p : Player) (r s : Roster) :
    Roster.AddPlayer digits p r ≠ .timeout s := by
  intro h
  cases hw : r.lock.writer with
  | true => rw [AddPlayer_blocked digits p r hw] at h; cases h
  | false =>
    rcases AddPlayer_run digits p r hw with
      ⟨-, hrun⟩ | ⟨-, -, hrun⟩ | ⟨-, -, hrun⟩ | ⟨-, -, ds, -, -, ⟨-, hrun⟩ | ⟨-, hrun⟩⟩ <;>
    · rw [hrun] at h
      cases h

/-- What `RespawnPlayer` does from a state whose lock is free. -/
theorem RespawnPlayer_run (r : Roster) (puuid : UUID) (hlock : r.lock = RWMutex.free) :
    Roster.RespawnPlayer puuid r =
      .ret () { r with players :=
                  match r.players.lookup puuid with
                  | some p => r.players.insert puuid (p.Respawn 100)
                  | none => r.players } := by
  obtain ⟨lock, players, kills, deaths⟩ := r
  simp only at hlock
  subst hlock
  cases hp : players.lookup puuid <;>
    simp [Roster.RespawnPlayer, Roster.Lock, Roster.Unlock, RWMutex.free, hp]

/-- What `ResetPlayer` does from a state whose lock is free. -/
theorem ResetPlayer_run (r : Roster) (puuid : UUID) (hlock : r.lock = RWMutex.free) :
    Roster.ResetPlayer puuid r =
      .ret () { r with players :=
                  match r.players.lookup puuid with
                  | some p => r.players.insert puuid (p.Respawn 100)
                  | none => r.players,
                       kills := r.kills.insert puuid 0,
                       deaths := r.deaths.insert puuid 0 } := by
  obtain ⟨lock, players, kills, deaths⟩ := r
  simp only at hlock
  subst hlock
  cases hp : players.lookup puuid <;>
    simp [Roster.ResetPlayer, Roster.Lock, Roster.Unlock, RWMutex.free, hp]

/-- What `PlayerKilled` does from a state whose lock is free. -/
theorem PlayerKilled_run (r : Roster) (v a : UUID) (hlock : r.lock = RWMutex.free) :
    Roster.PlayerKilled v a r =
      .ret () { r with
        kills := r.kills.insert a (match r.kills.lookup a with
          | some k => int32 (k + 1)
          | none => 1),
        deaths := r.deaths.insert v (int32 ((r.deaths.lookup v).getD 0 + 1)) } := by
  obtain ⟨lock, players, kills, deaths⟩ := r
  simp only at hlock
  subst hlock
  cases hk : kills.lookup a <;>
    simp [Roster.PlayerKilled, Roster.Lock, Roster.Unlock, RWMutex.free, hk]

/-- The loop of `Reset`, run with the lock free: it returns with the lock free;
every listed identity has both counters at 0 and, if registered, its player
respawned; everything else is as before. -/
theorem resetLoop_run : ∀ (keys : List UUID) (r : Roster), r.lock = RWMutex.free →
    ∃ r1, resetLoop keys r = .ret () r1 ∧ r1.lock = RWMutex.free ∧
      (∀ k, r1.players.lookup k =
        if k ∈ keys then (r.players.lookup k).map (fun p => p.Respawn 100)
        else r.players.lookup k) ∧
      (∀ k, r1.kills.lookup k = if k ∈ keys then some 0 else r.kills.lookup k) ∧
      (∀ k, r1.deaths.lookup k = if k ∈ keys then some 0 else r.deaths.lookup k) := by
  intro keys
  induction keys with
  | nil =>
    intro r hlock
    exact ⟨r, rfl, hlock, by simp, by simp, by simp⟩
  | cons x xs ih =>
    intro r hlock
    obtain ⟨r1, hrun, hl, hp, hk, hd⟩ := ih _
      (show ({ r with players :=
                  match r.players.lookup x with
                  | some p => r.players.insert x (p.Respawn 100)
                  | none => r.players,
                       kills := r.kills.insert x 0,
                       deaths := r.deaths.insert x 0 } : Roster).lock = RWMutex.free from hlock)
    refine ⟨r1, ?_, hl, ?_, ?_, ?_⟩
    · rw [resetLoop]
      simp only [Op.bind_run, ResetPlayer_run r x hlock]
      exact hrun
    · intro k
      rw [hp k]
      by_cases hkx : k = x
      · subst hkx
        cases hlk : r.players.lookup k with
        | none => simp [hlk]
        | some p =>
          simp only [hlk, AList.lookup_insert, List.mem_cons, true_or, if_true, Option.map_some']
          split <;> simp [Player.Respawn]
      · have hne : r.players.lookup k =
            (match r.players.lookup x with
              | some p => r.players.insert x (p.Respawn 100)
              | none => r.players).lookup k := by
          cases r.players.lookup x with
          | none => rfl
          | some p => exact (AList.lookup_insert_ne hkx).symm
        simp only [List.mem_cons, hkx, false_or, ← hne]
    · intro k
      rw [hk k]
      by_cases hkx : k = x
      · subst hkx
        simp
      · simp [hkx, AList.lookup_insert_ne hkx]
    · intro k
      rw [hd k]
      by_cases hkx : k = x
      · subst hkx
        simp
      · simp [hkx, AList.lookup_insert_ne hkx]

/-- What `Reset` does from a state whose lock is free: it returns with the lock
free, every registered player respawned and both counter maps holding exactly
one entry, 0, per registered identity. -/
theorem Reset_run (r : Roster) (hlock : r.lock = RWMutex.free) :
    ∃ r1, Roster.Reset r = .ret () r1 ∧ r1.lock = RWMutex.free ∧
      (∀ k, r1.players.lookup k = (r.players.lookup k).map (fun p => p.Respawn 100)) ∧
      (∀ k, r1.kills.lookup k = if k ∈ r.players then some 0 else none) ∧
      (∀ k, r1.deaths.lookup k = if k ∈ r.players then some 0 else none) := by
  obtain ⟨lock, players, kills, deaths⟩ := r
  simp only at hlock
  subst hlock
  obtain ⟨r1, hrun, hl, hp, hk, hd⟩ :=
    resetLoop_run players.keys ⟨RWMutex.free, players, ∅, ∅⟩ rfl
  refine ⟨r1, ?_, hl, ?_, ?_, ?_⟩
  · simp [Roster.Reset, Roster.Lock, Roster.Unlock, RWMutex.free] at hrun ⊢
    exact hrun
  · intro k
    rw [hp k]
    by_cases hmem : k ∈ players.keys
    · simp [hmem]
    · have hnone : players.lookup k = none := AList.lookup_eq_none.mpr hmem
      simp [hmem, hnone]
  · intro k
    rw [hk k]
    simp [AList.mem_keys]
  · intro k
    rw [hd k]
    simp [AList.mem_keys]

/-- A key with a value is a key of the map. -/
theorem mem_of_lookup_some {β : Type} (m : AList (fun _ : UUID => β)) (k : UUID) (b : β)
    (h : m.lookup k = some b) : k ∈ m := by
  rw [← AList.lookup_isSome, h]
  rfl

/-- Method `PlayerName` returns the name on record, lock restored, when the lock is not write-held. -/
theorem PlayerName_run (r : Roster) (puuid : UUID) (h : r.lock.writer = false) :
    Roster.PlayerName puuid r = .ret (r.nameOf puuid) r := by
  obtain ⟨⟨readers, writer⟩, players, kills, deaths⟩ := r
  simp only at h
  subst h
  simp only [Roster.PlayerName, Roster.RLock, Roster.RUnlock, Roster.nameOf, Op.bind_run,
    getS_run, Op.pure_run]
  cases hp : players.lookup puuid <;> simp [hp]

/-- Method `PlayerName` waits forever when the lock is write-held. -/
theorem PlayerName_blocked (r : Roster) (puuid : UUID) (h : r.lock.writer = true) :
    Roster.PlayerName puuid r = .blocked r := by
  simp [Roster.PlayerName, Roster.RLock, h]

/-- Method `PlayerConnAll` returns the connections in the order of its `range`,
lock restored. -/
theorem PlayerConnAll_run (order : RangeOrder) (r : Roster) (h : r.lock.writer = false) :
    Roster.PlayerConnAll order r = .ret (r.connsIn order) r := by
  obtain ⟨⟨readers, writer⟩, players, kills, deaths⟩ := r
  simp only at h
  subst h
  simp [Roster.PlayerConnAll, Roster.RLock, Roster.RUnlock, Roster.connsIn]

/-- The loop of `Scoreboard` writes the entries one after the other and leaves the roster as it was. -/
theorem scoreboardLoop_run (r : Roster) (h : r.lock.writer = false) :
    ∀ (l : List (Sigma (fun _ : UUID => Int))) (scores : AList (fun _ : String => Int)),
      scoreboardLoop l scores r = .ret (l.foldl r.scoreStep scores) r := by
  intro l
  induction l with
  | nil => intro scores; rfl
  | cons e es ih =>
    intro scores
    rw [scoreboardLoop]
    simp only [Op.bind_run, PlayerName_run r e.1 h, List.foldl_cons]
    exact ih _

/-- Method `Scoreboard` returns the map of names to kill counts, lock restored. -/
theorem Scoreboard_run (r : Roster) (h : r.lock.writer = false) :
    Roster.Scoreboard r = .ret r.scores r := by
  have hloop := scoreboardLoop_run
    { r with lock := { r.lock with readers := r.lock.readers + 1 } } h r.kills.entries ∅
  obtain ⟨⟨readers, writer⟩, players, kills, deaths⟩ := r
  simp only at h
  subst h
  simp only [Roster.Scoreboard, Roster.RLock, Op.bind_run, getS_run] at hloop ⊢
  have hstep : (Roster.mk ⟨readers + 1, false⟩ players kills deaths).scoreStep
      = (Roster.mk ⟨readers, false⟩ players kills deaths).scoreStep := rfl
  simp [hloop, Roster.RUnlock, Roster.scores, hstep]

/-- A roster method that returns without changing the roster, run on the global roster. -/
theorem liftR_same {α : Type} (m : Op Roster α) (w : World) (a : α)
    (h : m w.ROSTER = .ret a w.ROSTER) : liftR m w = .ret a w := by
  simp [liftR, h]

/-- A roster method that dereferences nil, run on the global roster. -/
theorem liftR_crash {α : Type} (m : Op Roster α) (w : World) (r : Roster)
    (h : m w.ROSTER = .crash r) : liftR m w = .crash { w with ROSTER := r } := by
  simp [liftR, h]

/-- The loop of `BroadcastMessage` appends one write per non-nil connection. -/
theorem broadcastLoop_run (m : Message) :
    ∀ (conns : List (Option Conn)) (w : World),
      broadcastLoop m conns w = .ret () { w with sent := w.sent ++ deliveries m conns } := by
  intro conns
  induction conns with
  | nil => intro w; simp [broadcastLoop, deliveries]
  | cons c cs ih =>
    intro w
    rw [broadcastLoop]
    cases c with
    | none =>
      simp only [Op.bind_run, netSendMessage, ih]
      simp [deliveries]
    | some c1 =>
      simp only [Op.bind_run, netSendMessage, ih]
      simp [deliveries]

/-- Method `BroadcastMessage` writes the envelope to every registered connection and changes nothing else. -/
theorem BroadcastMessage_run (order : RangeOrder) (m : Message) (w : World)
    (hw : w.ROSTER.lock.writer = false) :
    Server.BroadcastMessage order m w
      = .ret () { w with sent := w.sent ++ deliveries m (w.ROSTER.connsIn order) } := by
  simp only [Server.BroadcastMessage, Op.bind_run,
    liftR_same _ w _ (PlayerConnAll_run order w.ROSTER hw), broadcastLoop_run]

/-- Method `SendScores` writes the SCOREBOARD envelope of the roster to every registered connection. -/
theorem SendScores_run (order : RangeOrder) (w : World) (hw : w.ROSTER.lock.writer = false) :
    Server.SendScores order w
      = .ret () { w with
          sent := w.sent ++
            deliveries (scoreboardMessage w.ROSTER) (w.ROSTER.connsIn order) } := by
  simp only [Server.SendScores, newScoreboardMessage, Op.bind_run,
    liftR_same _ w _ (Scoreboard_run w.ROSTER hw), Op.pure_run]
  exact BroadcastMessage_run order _ w hw

/-- A roster method whose loop ran out of iterations, run on the global roster. -/
theorem liftR_timeout {α : Type} (m : Op Roster α) (w : World) (r : Roster)
    (h : m w.ROSTER = .timeout r) : liftR m w = .timeout { w with ROSTER := r } := by
  simp [liftR, h]

/-- A call of `AddPlayer` that returns leaves the lock as it found it, not
write-held. -/
theorem AddPlayer_ret_lock (digits : Nat → Fin 10) (p : Player) (r r1 : Roster) (b : Bool)
    (h : Roster.AddPlayer digits p r = .ret b r1) :
    r1.lock = r.lock ∧ r.lock.writer = false := by
  have hw : r.lock.writer = false := by
    cases hwr : r.lock.writer with
    | false => rfl
    | true => rw [AddPlayer_blocked digits p r hwr] at h; cases h
  refine ⟨?_, hw⟩
  rcases AddPlayer_run digits p r hw with
    ⟨-, hrun⟩ | ⟨-, -, hrun⟩ | ⟨-, -, hrun⟩ | ⟨-, -, ds, -, -, ⟨-, hrun⟩ | ⟨-, hrun⟩⟩ <;>
  · rw [hrun] at h
    cases h <;> rfl

/-- Method `PlayerJoin` at capacity: it returns at once, in the world it was
called in. -/
theorem PlayerJoin_full (digits : Nat → Fin 10) (orders : Nat → RangeOrder) (p : Player)
    (w : World)
    (hfull : (w.ROSTER.players.entries.length : Int) ≥ w.SVR.MaxPlayers) :
    Server.PlayerJoin digits orders p w = .ret () w := by
  simp [Server.PlayerJoin, liftR, Roster.PlayerCount, hfull]

/-- Method `PlayerJoin` below capacity when `AddPlayer` returns true. -/
theorem PlayerJoin_added (digits : Nat → Fin 10) (orders : Nat → RangeOrder) (p : Player)
    (w : World) (r1 : Roster)
    (hroom : (w.ROSTER.players.entries.length : Int) < w.SVR.MaxPlayers)
    (hadd : Roster.AddPlayer digits p w.ROSTER = .ret true r1) :
    Server.PlayerJoin digits orders p w =
      netSendMessage p.Connection
        (newJoinMessage (UUID.String p.ID) (r1.nameOf p.ID) "success")
        { w with
          ROSTER := r1,
          sent := w.sent ++
            deliveries (newBroadcastMessage ("Player " ++ r1.nameOf p.ID ++ " joined"))
              (r1.connsIn (orders 0)) ++
            deliveries (scoreboardMessage r1) (r1.connsIn (orders 1)) } := by
  obtain ⟨hl, hw⟩ := AddPlayer_ret_lock digits p _ _ _ hadd
  have hw1 : r1.lock.writer = false := by rw [hl]; exact hw
  have hroom2 : ¬ ((w.ROSTER.players.entries.length : Int) ≥ w.SVR.MaxPlayers) := not_le.mpr hroom
  have h1 := liftR_ret _ w _ _ hadd
  have h2 := liftR_same _ { w with ROSTER := r1 } _ (PlayerName_run r1 p.ID hw1)
  have h3 := BroadcastMessage_run (orders 0)
    (newBroadcastMessage ("Player " ++ r1.nameOf p.ID ++ " joined")) { w with ROSTER := r1 } hw1
  have h4 := SendScores_run (orders 1)
    { w with
      ROSTER := r1,
      sent := w.sent ++
        deliveries (newBroadcastMessage ("Player " ++ r1.nameOf p.ID ++ " joined"))
          (r1.connsIn (orders 0)) } hw1
  simp only [Server.PlayerJoin, Op.bind_run, getS_run, liftR, Roster.PlayerCount, Op.pure_run,
    hroom2, if_false]
  simp only [hadd, if_true, Op.bind_run, h2, h3, h4]

/-- Method `PlayerJoin` below capacity when `AddPlayer` returns false. -/
theorem PlayerJoin_rejected (digits : Nat → Fin 10) (orders : Nat → RangeOrder) (p : Player)
    (w : World) (r1 : Roster)
    (hroom : (w.ROSTER.players.entries.length : Int) < w.SVR.MaxPlayers)
    (hadd : Roster.AddPlayer digits p w.ROSTER = .ret false r1) :
    Server.PlayerJoin digits orders p w =
      netSendMessage p.Connection (newJoinMessage "" "" "failure") { w with ROSTER := r1 } := by
  have hroom2 : ¬ ((w.ROSTER.players.entries.length : Int) ≥ w.SVR.MaxPlayers) := not_le.mpr hroom
  simp [Server.PlayerJoin, liftR, Roster.PlayerCount, hroom2, hadd]

/-- Method `PlayerJoin` below capacity when `AddPlayer` does not return. -/
theorem PlayerJoin_not_ret (digits : Nat → Fin 10) (orders : Nat → RangeOrder) (p : Player)
    (w : World)
    (hroom : (w.ROSTER.players.entries.length : Int) < w.SVR.MaxPlayers)
    (hadd : (Roster.AddPlayer digits p w.ROSTER).value = none) :
    (Server.PlayerJoin digits orders p w).value = none := by
  have hroom2 : ¬ ((w.ROSTER.players.entries.length : Int) ≥ w.SVR.MaxPlayers) := not_le.mpr hroom
  cases hout : Roster.AddPlayer digits p w.ROSTER with
  | ret b r1 => rw [hout] at hadd; cases hadd
  | blocked r1 => simp [Server.PlayerJoin, liftR, Roster.PlayerCount, hroom2, hout, Outcome.value]
  | crash r1 => simp [Server.PlayerJoin, liftR, Roster.PlayerCount, hroom2, hout, Outcome.value]
  | timeout r1 => simp [Server.PlayerJoin, liftR, Roster.PlayerCount, hroom2, hout, Outcome.value]

/-- What `Server.RemovePlayer` does from a world whose roster lock is free. -/
theorem Server_RemovePlayer_run (orders : Nat → RangeOrder) (w : World) (puuid : UUID)
    (hlock : w.ROSTER.lock = RWMutex.free) :
    Server.RemovePlayer orders puuid w =
      match w.ROSTER.players.lookup puuid with
      | none => .ret () w
      | some p =>
        match p.Connection with
        | none =>
          .crash { w with ROSTER := { w.ROSTER with lock := { w.ROSTER.lock with writer := true } } }
        | some _ =>
          .ret ()
            { w with
              ROSTER := w.ROSTER.without puuid,
              sent := w.sent ++
                deliveries (newBroadcastMessage ("Player " ++ p.Name ++ " left"))
                  ((w.ROSTER.without puuid).connsIn (orders 0)) ++
                deliveries (newLeaveMessage p.Name)
                  ((w.ROSTER.without puuid).connsIn (orders 1)) ++
                deliveries (scoreboardMessage (w.ROSTER.without puuid))
                  ((w.ROSTER.without puuid).connsIn (orders 2)) } := by
  have hw : w.ROSTER.lock.writer = false := by rw [hlock]; rfl
  have h1 := liftR_same _ w _ (PlayerName_run w.ROSTER puuid hw)
  have hrm := RemovePlayer_run w.ROSTER puuid hlock
  simp only [Server.RemovePlayer, Op.bind_run, h1]
  cases hp : w.ROSTER.players.lookup puuid with
  | none =>
    simp only [hp] at hrm
    simp [liftR_same _ w _ hrm]
  | some p =>
    cases hc : p.Connection with
    | none =>
      simp only [hp, hc] at hrm
      simp [liftR_crash _ w _ hrm, hc]
    | some c =>
      simp only [hp, hc] at hrm
      have hw1 : (w.ROSTER.without puuid).lock.writer = false := hw
      have hname : w.ROSTER.nameOf puuid = p.Name := by simp [Roster.nameOf, hp]
      have h2 := liftR_ret _ w _ _ hrm
      have h3 := BroadcastMessage_run (orders 0)
        (newBroadcastMessage ("Player " ++ p.Name ++ " left"))
        { w with ROSTER := w.ROSTER.without puuid } hw1
      have h4 := BroadcastMessage_run (orders 1) (newLeaveMessage p.Name)
        { w with
          ROSTER := w.ROSTER.without puuid,
          sent := w.sent ++
            deliveries (newBroadcastMessage ("Player " ++ p.Name ++ " left"))
              ((w.ROSTER.without puuid).connsIn (orders 0)) } hw1
      have h5 := SendScores_run (orders 2)
        { w with
          ROSTER := w.ROSTER.without puuid,
          sent := w.sent ++
            deliveries (newBroadcastMessage ("Player " ++ p.Name ++ " left"))
              ((w.ROSTER.without puuid).connsIn (orders 0)) ++
            deliveries (newLeaveMessage p.Name)
              ((w.ROSTER.without puuid).connsIn (orders 1)) } hw1
      simp only [Roster.without] at h2 h3 h4 h5 ⊢
      simp only [h2, if_true, Op.bind_run, hname, h3, h4, h5, hc]

/-- With an empty name the scan returns the key of the first entry whose
connection has the address, or `uuid.Nil` when there is none. -/
theorem lookupScan_by_addr (addr : Option String) :
    ∀ l : List (Sigma (fun _ : UUID => Player)),
      ((∀ e ∈ l, ¬ e.2.AtAddr addr) ∧ lookupScan "" addr l = uuid.Nil) ∨
      (∃ e ∈ l, e.2.AtAddr addr ∧ lookupScan "" addr l = e.1) := by
  intro l
  induction l with
  | nil => left; exact ⟨fun e he => (by cases he), rfl⟩
  | cons x xs ih =>
    by_cases hx : x.2.AtAddr addr
    · right
      refine ⟨x, List.mem_cons_self _ _, hx, ?_⟩
      obtain ⟨hne, hmap⟩ := hx
      conv_lhs => unfold lookupScan
      cases hc : x.2.Connection with
      | none => rw [hc] at hmap; exact absurd hmap.symm hne
      | some c =>
        cases addr with
        | none => exact absurd rfl hne
        | some a =>
          rw [hc] at hmap
          have hca : c.RemoteAddr = a := by simpa using hmap
          simp [hca]
    · have hstep : lookupScan "" addr (x :: xs) = lookupScan "" addr xs := by
        conv_lhs => unfold lookupScan
        cases hc : x.2.Connection with
        | none => simp
        | some c =>
          cases addr with
          | none => simp
          | some a =>
            have hca : c.RemoteAddr ≠ a := by
              intro hca
              exact hx ⟨by simp, by simp [hc, hca]⟩
            simp [hca]
      rcases ih with ⟨hall, hnil⟩ | ⟨e, he, hat, hrun⟩
      · left
        refine ⟨?_, by rw [hstep, hnil]⟩
        intro e he
        rcases List.mem_cons.mp he with rfl | hmem
        · exact hx
        · exact hall e hmem
      · right
        exact ⟨e, List.mem_cons_of_mem _ he, hat, by rw [hstep, hrun]⟩

/-- Writing entries with pairwise different names one after the other: an entry
of the result is either one of the written entries or an untouched entry of the
map written into. -/
theorem foldl_scoreStep_lookup (r : Roster) :
    ∀ (l : List (Sigma (fun _ : UUID => Int))) (s0 : AList (fun _ : String => Int)),
      l.Pairwise (fun e f => r.nameOf e.1 ≠ r.nameOf f.1) →
      ∀ (n : String) (k : Int),
        (l.foldl r.scoreStep s0).lookup n = some k ↔
          ((∃ e ∈ l, r.nameOf e.1 = n ∧ e.2 = k) ∨
            ((∀ e ∈ l, r.nameOf e.1 ≠ n) ∧ s0.lookup n = some k)) := by
  intro l
  induction l with
  | nil =>
    intro s0 _ n k
    simp
  | cons x xs ih =>
    intro s0 hpair n k
    obtain ⟨hx, hrest⟩ := List.pairwise_cons.mp hpair
    rw [List.foldl_cons, ih _ hrest n k]
    constructor
    · rintro (⟨e, he, hn, hk⟩ | ⟨hall, hlk⟩)
      · exact Or.inl ⟨e, List.mem_cons_of_mem _ he, hn, hk⟩
      · by_cases hxn : r.nameOf x.1 = n
        · left
          refine ⟨x, List.mem_cons_self _ _, hxn, ?_⟩
          rw [Roster.scoreStep, hxn, AList.lookup_insert] at hlk
          exact Option.some.inj hlk
        · right
          refine ⟨?_, ?_⟩
          · intro e he
            rcases List.mem_cons.mp he with rfl | hmem
            · exact hxn
            · exact hall e hmem
          · rw [Roster.scoreStep, AList.lookup_insert_ne (Ne.symm hxn)] at hlk
            exact hlk
    · rintro (⟨e, he, hn, hk⟩ | ⟨hall, hlk⟩)
      · rcases List.mem_cons.mp he with rfl | hmem
        · right
          refine ⟨?_, ?_⟩
          · intro f hf hfn
            exact hx f hf (hn.trans hfn.symm)
          · rw [Roster.scoreStep, hn, AList.lookup_insert, hk]
        · exact Or.inl ⟨e, hmem, hn, hk⟩
      · right
        refine ⟨fun e he => hall e (List.mem_cons_of_mem _ he), ?_⟩
        have hxn : r.nameOf x.1 ≠ n := hall x (List.mem_cons_self _ _)
        rw [Roster.scoreStep, AList.lookup_insert_ne (Ne.symm hxn)]
        exact hlk

/-- Writing entries with pairwise different names, none of them a key yet,
adds one entry each. -/
theorem foldl_scoreStep_length (r : Roster) :
    ∀ (l : List (Sigma (fun _ : UUID => Int))) (s0 : AList (fun _ : String => Int)),
      l.Pairwise (fun e f => r.nameOf e.1 ≠ r.nameOf f.1) →
      (∀ e ∈ l, r.nameOf e.1 ∉ s0) →
      (l.foldl r.scoreStep s0).entries.length = s0.entries.length + l.length := by
  intro l
  induction l with
  | nil => intro s0 _ _; simp
  | cons x xs ih =>
    intro s0 hpair hnew
    obtain ⟨hx, hrest⟩ := List.pairwise_cons.mp hpair
    have hxnew : r.nameOf x.1 ∉ s0 := hnew x (List.mem_cons_self _ _)
    rw [List.foldl_cons, ih _ hrest]
    · rw [Roster.scoreStep, AList.insert_entries_of_neg hxnew]
      simp only [List.length_cons]
      omega
    · intro e he hmem
      rw [Roster.scoreStep] at hmem
      rcases (AList.mem_insert _).mp hmem with h | h
      · exact hx e he h.symm
      · exact hnew e (List.mem_cons_of_mem _ he) h

/-- Two maps with the same keys have the same number of entries. -/
theorem entries_length_eq_of_keys {β γ : Type} (m : AList (fun _ : UUID => β))
    (n : AList (fun _ : UUID => γ)) (h : ∀ k, k ∈ m ↔ k ∈ n) :
    m.entries.length = n.entries.length := by
  have hperm : m.keys.Perm n.keys :=
    (List.perm_ext_iff_of_nodup m.keys_nodup n.keys_nodup).mpr
      (fun k => by simpa [AList.mem_keys] using h k)
  have := hperm.length_eq
  simpa [AList.keys, List.keys] using this

/-- A write lock is not granted while the lock is held. -/
theorem Lock_blocked (r : Roster) (h : r.lock ≠ RWMutex.free) : Roster.Lock r = .blocked r := by
  obtain ⟨⟨readers, writer⟩, players, kills, deaths⟩ := r
  have : ¬ (readers = 0 ∧ writer = false) := by
    rintro ⟨h1, h2⟩
    subst h1 h2
    exact h rfl
  simp [Roster.Lock, this]

/-- Every method of `Roster` other than `PlayerConn`, whenever it returns,
returns with the lock in the state it was called in. -/
theorem lock_balanced_elsewhere (r r1 : Roster) :
    (∀ name b, Roster.PlayerNameUnique name r = .ret b r1 → r1.lock = r.lock) ∧
    (∀ conn b, Roster.PlayerConnUnique conn r = .ret b r1 → r1.lock = r.lock) ∧
    (∀ puuid b, Roster.PlayerIDUnique puuid r = .ret b r1 → r1.lock = r.lock) ∧
    (∀ digits p b, Roster.AddPlayer digits p r = .ret b r1 → r1.lock = r.lock) ∧
    (∀ puuid b, Roster.RemovePlayer puuid r = .ret b r1 → r1.lock = r.lock) ∧
    (∀ v a, Roster.PlayerKilled v a r = .ret () r1 → r1.lock = r.lock) ∧
    (∀ puuid k, Roster.PlayerKills puuid r = .ret k r1 → r1.lock = r.lock) ∧
    (∀ puuid k, Roster.PlayerDeaths puuid r = .ret k r1 → r1.lock = r.lock) ∧
    (∀ name addr puuid, Roster.PlayerLookup name addr r = .ret puuid r1 → r1.lock = r.lock) ∧
    (∀ scores, Roster.Scoreboard r = .ret scores r1 → r1.lock = r.lock) ∧
    (∀ puuid name, Roster.PlayerName puuid r = .ret name r1 → r1.lock = r.lock) ∧
    (∀ puuid health, Roster.PlayerHealth puuid r = .ret health r1 → r1.lock = r.lock) ∧
    (∀ puuid d health, Roster.PlayerDamage puuid d r = .ret health r1 → r1.lock = r.lock) ∧
    (∀ puuid, Roster.RespawnPlayer puuid r = .ret () r1 → r1.lock = r.lock) ∧
    (∀ puuid, Roster.ResetPlayer puuid r = .ret () r1 → r1.lock = r.lock) ∧
    (Roster.Reset r = .ret () r1 → r1.lock = r.lock) ∧
    (∀ order conns, Roster.PlayerConnAll order r = .ret conns r1 → r1.lock = r.lock) ∧
    (∀ n, Roster.PlayerCount r = .ret n r1 → r1.lock = r.lock) ∧
    (∀ puuid conn, r.players.lookup puuid = none →
      Roster.PlayerConn puuid r = .ret conn r1 → r1.lock = r.lock) := by
  have hread : ∀ {α : Type} (m : Op Roster α) (v : α),
      (r.lock.writer = false → m r = .ret v r) → (r.lock.writer = true → m r = .blocked r) →
      ∀ a, m r = .ret a r1 → r1.lock = r.lock := by
    intro α m v h1 h2 a h
    cases hw : r.lock.writer with
    | false => rw [h1 hw] at h; cases h; rfl
    | true => rw [h2 hw] at h; cases h
  have hblk : ∀ {α : Type} (m : Op Roster α) (a : α), m r = .blocked r → m r = .ret a r1 →
      r1.lock = r.lock := by
    intro α m a hb h
    rw [hb] at h
    cases h
  have hsame : ∀ {α : Type} (m : Op Roster α) (a v : α) (s : Roster),
      m r = .ret v s → s.lock = r.lock → m r = .ret a r1 → r1.lock = r.lock := by
    intro α m a v s hrun hs h
    rw [hrun] at h
    cases h
    exact hs
  refine ⟨?_, ?_, ?_, ?_, ?_, ?_, ?_, ?_, ?_, ?_, ?_, ?_, ?_, ?_, ?_, ?_, ?_, ?_, ?_⟩
  · intro name
    exact hread _ _ (PlayerNameUnique_run r name) (PlayerNameUnique_blocked r name)
  · intro conn b h
    cases hw : r.lock.writer with
    | false =>
      rw [PlayerConnUnique_run r conn hw] at h
      cases hs : connUniqueScan conn r.players.entries with
      | none => simp only [hs] at h; cases h
      | some b1 => simp only [hs] at h; cases h; rfl
    | true =>
      simp [Roster.PlayerConnUnique, Roster.RLock, hw] at h
  · intro puuid
    refine hread _ _ (PlayerIDUnique_run r puuid) ?_
    intro hw
    simp [Roster.PlayerIDUnique, Roster.RLock, hw]
  · intro digits p b h
    exact (AddPlayer_ret_lock digits p r r1 b h).1
  · intro puuid b h
    by_cases hl : r.lock = RWMutex.free
    · rw [RemovePlayer_run r puuid hl] at h
      cases hp : r.players.lookup puuid with
      | none => simp only [hp] at h; cases h; rfl
      | some p =>
        cases hc : p.Connection with
        | none => simp only [hp, hc] at h; cases h
        | some c => simp only [hp, hc] at h; cases h; rfl
    · exact hblk _ _ (by simp [Roster.RemovePlayer, Lock_blocked r hl]) h
  · intro v a h
    by_cases hl : r.lock = RWMutex.free
    · exact hsame _ _ _ _ (PlayerKilled_run r v a hl) rfl h
    · exact hblk _ _ (by simp [Roster.PlayerKilled, Lock_blocked r hl]) h
  · intro puuid k h
    obtain ⟨⟨readers, writer⟩, players, kills, deaths⟩ := r
    cases writer <;> simp [Roster.PlayerKills, Roster.RLock, Roster.RUnlock] at h
    rw [← h.2]
  · intro puuid k h
    obtain ⟨⟨readers, writer⟩, players, kills, deaths⟩ := r
    cases writer <;> simp [Roster.PlayerDeaths, Roster.RLock, Roster.RUnlock] at h
    rw [← h.2]
  · intro name addr
    exact hread _ _ (PlayerLookup_run r name addr) (PlayerLookup_blocked r name addr)
  · refine hread _ _ (Scoreboard_run r) ?_
    intro hw
    simp [Roster.Scoreboard, Roster.RLock, hw]
  · intro puuid
    exact hread _ _ (PlayerName_run r puuid) (PlayerName_blocked r puuid)
  · intro puuid k h
    obtain ⟨⟨readers, writer⟩, players, kills, deaths⟩ := r
    cases writer <;> simp [Roster.PlayerHealth, Roster.RLock, Roster.RUnlock] at h
    rw [← h.2]
  · intro puuid d health h
    by_cases hl : r.lock = RWMutex.free
    · exact hsame _ _ _ _ (PlayerDamage_run r puuid d hl) rfl h
    · exact hblk _ _ (by simp [Roster.PlayerDamage, Lock_blocked r hl]) h
  · intro puuid h
    by_cases hl : r.lock = RWMutex.free
    · exact hsame _ _ _ _ (RespawnPlayer_run r puuid hl) rfl h
    · exact hblk _ _ (by simp [Roster.RespawnPlayer, Lock_blocked r hl]) h
  · intro puuid h
    by_cases hl : r.lock = RWMutex.free
    · exact hsame _ _ _ _ (ResetPlayer_run r puuid hl) rfl h
    · exact hblk _ _ (by simp [Roster.ResetPlayer, Lock_blocked r hl]) h
  · intro h
    by_cases hl : r.lock = RWMutex.free
    · obtain ⟨s, hrun, hs, -⟩ := Reset_run r hl
      exact hsame _ _ _ _ hrun (hs.trans hl.symm) h
    · exact hblk _ _ (by simp [Roster.Reset, Lock_blocked r hl]) h
  · intro order
    refine hread _ _ (PlayerConnAll_run order r) ?_
    intro hw
    simp [Roster.PlayerConnAll, Roster.RLock, hw]
  · intro n h
    simp [Roster.PlayerCount] at h
    rw [← h.2]
  · intro puuid conn hp h
    cases hw : r.lock.writer with
    | false => exact hsame _ _ _ _ (PlayerConn_run_unregistered r puuid hw hp) rfl h
    | true => exact hblk _ _ (by simp [Roster.PlayerConn, Roster.RLock, hw]) h

/-- Method `Start` records the time and sets STARTED. -/
theorem Start_run (now : Int) (w : World) :
    Server.Start now w
      = .ret () { w with SVR := { w.SVR with Started := now, State := STARTED } } := rfl

/-- Method `End` sets STOPPED. -/
theorem End_run (w : World) :
    Server.End w = .ret () { w with SVR := { w.SVR with State := STOPPED } } := rfl

/-- Method `Reset` of the server, whenever it returns, leaves the server
started at `now`, with its other fields as before. -/
theorem Server_Reset_ret (now : Int) (w w1 : World) (h : Server.Reset now w = .ret () w1) :
    w1.SVR = { w.SVR with Started := now, State := STARTED } := by
  simp only [Server.Reset, Op.bind_run, End_run, liftR] at h
  cases hr : Roster.Reset w.ROSTER with
  | ret a r1 =>
    simp only [hr, Start_run] at h
    cases h
    rfl
  | blocked r1 => simp only [hr] at h; cases h
  | crash r1 => simp only [hr] at h; cases h
  | timeout r1 => simp only [hr] at h; cases h

/-- Method `Reset` of the server returns when the roster lock is free. -/
theorem Server_Reset_returns (now : Int) (w : World) (hlock : w.ROSTER.lock = RWMutex.free) :
    ∃ w1, Server.Reset now w = .ret () w1 ∧ w1.ROSTER.lock = RWMutex.free := by
  obtain ⟨r1, hrun, hl, -⟩ := Reset_run w.ROSTER hlock
  refine ⟨{ w with ROSTER := r1, SVR := { w.SVR with Started := now, State := STARTED } }, ?_, hl⟩
  simp only [Server.Reset, Op.bind_run, End_run, liftR, hrun, Start_run]

/-- The lifecycle away from construction: in every world reachable from `w0` by
`Start`, `End` and `Reset`, the identity of the server is that of `w0`, and its
state is that of `w0`, or STOPPED, or STARTED; `Start` yields STARTED, `End`
yields STOPPED and `Reset`, when it returns, yields STARTED. -/
theorem lifecycle_states (w0 w : World) (h : LifecycleReachable w0 w) :
    w.SVR.ID = w0.SVR.ID ∧
    (w.SVR.State = w0.SVR.State ∨ w.SVR.State = STOPPED ∨ w.SVR.State = STARTED) := by
  induction h with
  | init => exact ⟨rfl, Or.inl rfl⟩
  | start w w1 now _ hrun ih =>
    rw [Start_run] at hrun
    cases hrun
    exact ⟨ih.1, Or.inr (Or.inr rfl)⟩
  | stop w w1 _ hrun ih =>
    rw [End_run] at hrun
    cases hrun
    exact ⟨ih.1, Or.inr (Or.inl rfl)⟩
  | reset w w1 now _ hrun ih =>
    have hs := Server_Reset_ret now w w1 hrun
    rw [hs]
    exact ⟨ih.1, Or.inr (Or.inr rfl)⟩

/-- The damage step never writes the state: the stored player has the state it
had before, whether or not its health reached 0. -/
theorem PlayerDamage_keeps_state (r : Roster) (puuid : UUID) (p : Player) (d : ℚ)
    (hlock : r.lock = RWMutex.free) (hp : r.players.lookup puuid = some p) :
    ∃ health r1 q, Roster.PlayerDamage puuid d r = .ret health r1 ∧
      r1.players.lookup puuid = some q ∧ q.state = p.state ∧ q.Health = health := by
  have hrun := PlayerDamage_run r puuid d hlock
  rw [hp, Option.getD_some, TakeDamage_eq] at hrun
  exact ⟨_, _, _, hrun, AList.lookup_insert _, rfl, rfl⟩

/-- A send changes neither global. -/
theorem netSendMessage_ret (conn : Option Conn) (m : Message) (w w1 : World)
    (h : netSendMessage conn m w = .ret () w1) : w1.ROSTER = w.ROSTER ∧ w1.SVR = w.SVR := by
  cases conn <;> simp [netSendMessage] at h <;> rw [← h] <;> exact ⟨rfl, rfl⟩

/-- Deleting a key does not add entries. -/
theorem erase_length_le {β : Type} (m : AList (fun _ : UUID => β)) (k : UUID) :
    (m.erase k).entries.length ≤ m.entries.length :=
  (List.kerase_sublist k m.entries).length_le

/-- The invariant behind the capacity bound. -/
theorem capacity_inv (svr : Server) (hmax : 0 ≤ svr.MaxPlayers) (w : World)
    (h : CapacityReachable svr w) :
    w.SVR = svr ∧ w.ROSTER.lock = RWMutex.free ∧
    (w.ROSTER.players.entries.length : Int) ≤ svr.MaxPlayers := by
  induction h with
  | init => exact ⟨rfl, rfl, by simpa [newRoster] using hmax⟩
  | join w w1 digits orders p _ hrun ih =>
    obtain ⟨hsvr, hlock, hlen⟩ := ih
    by_cases hfull : (w.ROSTER.players.entries.length : Int) ≥ w.SVR.MaxPlayers
    · rw [PlayerJoin_full digits orders p w hfull] at hrun
      cases hrun
      exact ⟨hsvr, hlock, hlen⟩
    · have hroom : (w.ROSTER.players.entries.length : Int) < w.SVR.MaxPlayers := not_le.mp hfull
      have hw : w.ROSTER.lock.writer = false := by rw [hlock]; rfl
      have hr0 : w.ROSTER.lock.readers = 0 := by rw [hlock]; rfl
      rcases AddPlayer_run digits p w.ROSTER hw with
        ⟨-, hadd⟩ | ⟨-, -, hadd⟩ | ⟨-, -, hadd⟩ | ⟨hid, -, ds, -, -, ⟨hr, -⟩ | ⟨-, hadd⟩⟩
      · rw [PlayerJoin_rejected digits orders p w _ hroom hadd] at hrun
        obtain ⟨h1, h2⟩ := netSendMessage_ret _ _ _ _ hrun
        rw [h1, h2]
        exact ⟨hsvr, hlock, hlen⟩
      · have := PlayerJoin_not_ret digits orders p w hroom (by rw [hadd]; rfl)
        rw [hrun] at this
        cases this
      · rw [PlayerJoin_rejected digits orders p w _ hroom hadd] at hrun
        obtain ⟨h1, h2⟩ := netSendMessage_ret _ _ _ _ hrun
        rw [h1, h2]
        exact ⟨hsvr, hlock, hlen⟩
      · exact absurd hr0 hr
      · rw [PlayerJoin_added digits orders p w _ hroom hadd] at hrun
        obtain ⟨h1, h2⟩ := netSendMessage_ret _ _ _ _ hrun
        rw [h1, h2]
        refine ⟨hsvr, hlock, ?_⟩
        simp only [AList.insert_entries_of_neg hid, List.length_cons]
        rw [hsvr] at hroom
        push_cast
        omega
  | leave w w1 orders puuid _ hrun ih =>
    obtain ⟨hsvr, hlock, hlen⟩ := ih
    rw [Server_RemovePlayer_run orders w puuid hlock] at hrun
    cases hp : w.ROSTER.players.lookup puuid with
    | none =>
      simp only [hp] at hrun
      cases hrun
      exact ⟨hsvr, hlock, hlen⟩
    | some p =>
      cases hc : p.Connection with
      | none => simp only [hp, hc] at hrun; cases hrun
      | some c =>
        simp only [hp, hc] at hrun
        cases hrun
        refine ⟨hsvr, hlock, ?_⟩
        have := erase_length_le w.ROSTER.players puuid
        simp only [Roster.without]
        omega
  | rosterLeave w r1 puuid b _ hrun ih =>
    obtain ⟨hsvr, hlock, hlen⟩ := ih
    rw [RemovePlayer_run w.ROSTER puuid hlock] at hrun
    cases hp : w.ROSTER.players.lookup puuid with
    | none =>
      simp only [hp] at hrun
      cases hrun
      exact ⟨hsvr, hlock, hlen⟩
    | some p =>
      cases hc : p.Connection with
      | none => simp only [hp, hc] at hrun; cases hrun
      | some c =>
        simp only [hp, hc] at hrun
        cases hrun
        refine ⟨hsvr, hlock, ?_⟩
        have := erase_length_le w.ROSTER.players puuid
        simp only
        omega

/-- A name that no written entry has keeps the value it had. -/
theorem foldl_scoreStep_absent (r : Roster) (n : String) :
    ∀ (l : List (Sigma (fun _ : UUID => Int))) (s0 : AList (fun _ : String => Int)),
      (∀ e ∈ l, r.nameOf e.1 ≠ n) → (l.foldl r.scoreStep s0).lookup n = s0.lookup n := by
  intro l
  induction l with
  | nil => intro s0 _; rfl
  | cons x xs ih =>
    intro s0 h
    rw [List.foldl_cons, ih _ (fun e he => h e (List.mem_cons_of_mem _ he)), Roster.scoreStep,
      AList.lookup_insert_ne (Ne.symm (h x (List.mem_cons_self _ _)))]

/-- Every connection of a broadcast to a roster whose players are all connected
receives the envelope once, in list order. -/
theorem deliveries_live (m : Message) (r : Roster) (hlive : r.Live) :
    (deliveries m r.conns).map (fun d => some d.1) = r.conns ∧
    ∀ d ∈ deliveries m r.conns, d.2 = m := by
  unfold Roster.Live at hlive
  unfold Roster.conns deliveries
  generalize r.players.entries = l at hlive
  constructor
  · induction l with
    | nil => rfl
    | cons x xs ih =>
      have hx := hlive x (List.mem_cons_self _ _)
      obtain ⟨c, hc⟩ := Option.ne_none_iff_exists'.mp hx
      simp only [List.map_cons, hc, List.filterMap_cons, Option.map_some', List.map_cons]
      rw [ih (fun e he => hlive e (List.mem_cons_of_mem _ he))]
  · intro d hd
    obtain ⟨c, -, hc⟩ := List.mem_filterMap.mp hd
    cases c with
    | none => cases hc
    | some c1 =>
      simp only [Option.map_some', Option.some.injEq] at hc
      rw [← hc]

/-- The dispatch of a HIT message whose sender is not `uuid.Nil` is the call
`PlayerHit` with the message's name, its sender and the damage 50, whether the
lock lets it proceed or not. -/
theorem ProcessMessage_HIT_run (fresh : UUID) (digits : Nat → Fin 10)
    (orders : Nat → RangeOrder) (conn : Conn) (msg : Message) (w : World)
    (hhit : msg.MsgType = HIT) (hs : msg.Sender ≠ uuid.Nil) :
    ProcessMessage fresh digits orders conn msg w =
      Server.PlayerHit orders msg.Name msg.Sender 50 w := by
  have h1 : (HIT : MessageType) ≠ CONNECT := by decide
  have h2 : (HIT : MessageType) ≠ DISCONNECT := by decide
  have h3 : (HIT : MessageType) ≠ PING := by decide
  have h4 : (HIT : MessageType) ≠ JOIN := by decide
  have h5 : (HIT : MessageType) ≠ JUMP := by decide
  have h6 : (HIT : MessageType) ≠ MOVE := by decide
  have h7 : (HIT : MessageType) ≠ FIRE := by decide
  cases hw : w.ROSTER.lock.writer with
  | true =>
    have hb := liftR_blocked _ w _ (PlayerName_blocked w.ROSTER msg.Sender hw)
    have hl := liftR_blocked _ w _ (PlayerLookup_blocked w.ROSTER msg.Name none hw)
    unfold ProcessMessage Server.PlayerHit
    simp only [hhit, h1, h2, h3, h4, hs, if_false, Op.bind_run, hb, hl]
  | false =>
    have hr := liftR_same _ w _ (PlayerName_run w.ROSTER msg.Sender hw)
    unfold ProcessMessage
    simp only [hhit, h1, h2, h3, h4, h5, h6, h7, hs, if_false, if_true, Op.bind_run, hr]

/-- The verb `%3.2f` writes 50 as "50.00". -/
theorem fmtFloat2_fifty : fmtFloat2 50 = "50.00" := by
  have hf : Rat.floor (5000 : ℚ) = 5000 := by
    show ⌊(5000 : ℚ)⌋ = 5000
    simp
  have h1 : roundHalfEven (|(50:ℚ)| * 100) = 5000 := by
    have : |(50:ℚ)| * 100 = 5000 := by norm_num
    rw [this]
    unfold roundHalfEven
    simp only [hf]
    norm_num
  unfold fmtFloat2
  simp only [h1]
  norm_num
  rfl

/-- The connections returned in the order of a `range` are a rearrangement of
the registered connections. -/
theorem connsIn_perm (r : Roster) (order : RangeOrder) : (r.connsIn order).Perm r.conns :=
  (order.perm r.players.entries).map _

/-- The order `RangeOrder.fixed o` visits the entries as `o` lists them. -/
theorem RangeOrder_fixed_visit (o l : List (Sigma (fun _ : UUID => Player))) (h : o.Perm l) :
    (RangeOrder.fixed o).visit l = o := by
  show (if o.Perm l then o else l) = o
  rw [if_pos h]

/-- The envelopes the constructors of `message.go` build, field by field. -/
theorem envelopes_eq (a b c : String) (scores : AList (fun _ : String => Int)) :
    newBroadcastMessage a = envelope 11 "" a "" ∧
    newLeaveMessage a = envelope 9 a "" "" ∧
    newJoinMessage a b c = envelope 8 b a c ∧
    newClientMessage a = envelope 13 "" a "" ∧
    ({ Message.zero with MsgType := SCOREBOARD, Scoreboard := scores } : Message) =
      scoreboardEnvelope scores :=
  ⟨rfl, rfl, rfl, rfl, rfl⟩

/-! ## Claims -/

/-- C1. In every roster reachable from `newRoster` by `AddPlayer` (players with a
non-nil connection, any digit sequence) and `RemovePlayer`, in any iteration
order, two players registered under different keys have different identities,
different display names, and connections with different remote addresses. -/
theorem roster_uniqueness (r : Roster) (h : JoinLeaveReachable r) (k1 k2 : UUID)
    (p1 p2 : Player) (hk : k1 ≠ k2) (h1 : r.players.lookup k1 = some p1)
    (h2 : r.players.lookup k2 = some p2) :
    p1.ID ≠ p2.ID ∧ p1.Name ≠ p2.Name ∧
    (∃ c1 c2, p1.Connection = some c1 ∧ p2.Connection = some c2 ∧
      c1.RemoteAddr ≠ c2.RemoteAddr) := by
  obtain ⟨-, hent, hpair⟩ := JoinLeaveInv_of_reachable r h
  have m1 : (⟨k1, p1⟩ : Sigma (fun _ : UUID => Player)) ∈ r.players.entries :=
    AList.mem_lookup_iff.mp h1
  have m2 : (⟨k2, p2⟩ : Sigma (fun _ : UUID => Player)) ∈ r.players.entries :=
    AList.mem_lookup_iff.mp h2
  have hne : (⟨k1, p1⟩ : Sigma (fun _ : UUID => Player)) ≠ ⟨k2, p2⟩ := by
    intro heq
    exact hk (congrArg Sigma.fst heq)
  have hd : Distinct ⟨k1, p1⟩ ⟨k2, p2⟩ := hpair.forall Distinct_symm m1 m2 hne
  obtain ⟨hid1, hc1⟩ := hent _ m1
  obtain ⟨hid2, hc2⟩ := hent _ m2
  obtain ⟨c1, hc1⟩ := Option.ne_none_iff_exists'.mp hc1
  obtain ⟨c2, hc2⟩ := Option.ne_none_iff_exists'.mp hc2
  refine ⟨?_, hd.1, c1, c2, hc1, hc2, hd.2 c1 c2 hc1 hc2⟩
  simp only at hid1 hid2
  rw [hid1, hid2]
  exact hk

/-- Witness for C1: the roster reached by two joins under the name Alice. -/
theorem roster_uniqueness_witness :
    JoinLeaveReachable twoAlices ∧ (1 : UUID) ≠ 2 ∧
    twoAlices.players.lookup 1 = some sampleAlice ∧
    twoAlices.players.lookup 2 = some sampleAlice3 ∧
    (sampleAlice.ID ≠ sampleAlice3.ID ∧ sampleAlice.Name ≠ sampleAlice3.Name ∧
      ∃ c1 c2, sampleAlice.Connection = some c1 ∧ sampleAlice3.Connection = some c2 ∧
        c1.RemoteAddr ≠ c2.RemoteAddr) :=
  have hreach : JoinLeaveReachable twoAlices :=
    JoinLeaveReachable.add oneAlice twoAlices (fun _ => 3) sampleAliceAgain true
      (JoinLeaveReachable.add newRoster oneAlice (fun _ => 3) sampleAlice true
        JoinLeaveReachable.init (by decide)
        (Outcome.eq_ret_of _ _ _ (by decide)
          (Roster.ext_entries _ _ (by decide) (by decide) (by decide) (by decide))))
      (by decide)
      (Outcome.eq_ret_of _ _ _ (by decide)
        (Roster.ext_entries _ _ (by decide) (by decide) (by decide) (by decide)))
  ⟨hreach, by decide, rfl, rfl,
    roster_uniqueness twoAlices hreach 1 2 _ _ (by decide) rfl rfl⟩

/-- C2, evaluated at the failing input.  On the empty roster, `PlayerDamage` on
an identity that is not registered returns 0 and stores the zero player under
that identity, while no kill counter and no death counter exists for it: a key
of `players` that is a key of neither counter map. -/
theorem PlayerDamage_unregistered_breaks_counters :
    ∃ r1, Roster.PlayerDamage 7 50 newRoster = .ret 0 r1 ∧
      r1.players.lookup 7 = some Player.zero ∧
      r1.kills.lookup 7 = none ∧ r1.deaths.lookup 7 = none := by
  have hT : Player.zero.TakeDamage 50 = Player.zero :=
    TakeDamage_lethal Player.zero 50 (by norm_num [Player.Health, Player.zero])
  have hL : newRoster.players.lookup 7 = none := rfl
  refine ⟨⟨RWMutex.free, AList.insert 7 Player.zero ∅, ∅, ∅⟩, ?_, ?_, ?_, ?_⟩
  · rw [PlayerDamage_run newRoster 7 50 rfl, hL, Option.getD_none, hT]
    rfl
  · exact AList.lookup_insert _
  · rfl
  · rfl

/-- Counter consistency away from that defect: in every roster reachable from
`newRoster` by `AddPlayer`, `RemovePlayer`, `PlayerKilled`, `RespawnPlayer`,
`ResetPlayer` and `Reset` with arbitrary arguments, and by `PlayerDamage` on
registered identities only, every key of `players` is a key of `kills` and of
`deaths`, and the lock is free between calls. -/
theorem counters_cover_of_guarded (r : Roster) (h : GuardedReachable r) :
    r.lock = RWMutex.free ∧ r.CountersCover := by
  induction h with
  | init =>
    refine ⟨rfl, ?_⟩
    intro k hk
    exact absurd hk (AList.not_mem_empty k)
  | addPlayer r r1 digits p b _ hrun ih =>
    obtain ⟨hlock, hcov⟩ := ih
    have hw : r.lock.writer = false := by rw [hlock]; rfl
    rcases AddPlayer_run digits p r hw with
      ⟨-, hrun1⟩ | ⟨-, -, hrun1⟩ | ⟨-, -, hrun1⟩ | ⟨-, -, ds, -, -, ⟨-, hrun1⟩ | ⟨-, hrun1⟩⟩
    · rw [hrun1] at hrun; cases hrun; exact ⟨hlock, hcov⟩
    · rw [hrun1] at hrun; cases hrun
    · rw [hrun1] at hrun; cases hrun; exact ⟨hlock, hcov⟩
    · rw [hrun1] at hrun; cases hrun
    · rw [hrun1] at hrun
      cases hrun
      refine ⟨hlock, ?_⟩
      intro k hk
      rcases (AList.mem_insert _).mp hk with rfl | hk1
      · exact ⟨(AList.mem_insert _).mpr (Or.inl rfl), (AList.mem_insert _).mpr (Or.inl rfl)⟩
      · exact ⟨(AList.mem_insert _).mpr (Or.inr (hcov k hk1).1),
          (AList.mem_insert _).mpr (Or.inr (hcov k hk1).2)⟩
  | removePlayer r r1 puuid b _ hrun ih =>
    obtain ⟨hlock, hcov⟩ := ih
    rw [RemovePlayer_run r puuid hlock] at hrun
    cases hp : r.players.lookup puuid with
    | none =>
      simp only [hp] at hrun
      cases hrun
      exact ⟨hlock, hcov⟩
    | some p =>
      cases hc : p.Connection with
      | none => simp only [hp, hc] at hrun; cases hrun
      | some c =>
        simp only [hp, hc] at hrun
        cases hrun
        refine ⟨hlock, ?_⟩
        intro k hk
        obtain ⟨hne, hk1⟩ := AList.mem_erase.mp hk
        exact ⟨AList.mem_erase.mpr ⟨hne, (hcov k hk1).1⟩,
          AList.mem_erase.mpr ⟨hne, (hcov k hk1).2⟩⟩
  | playerKilled r r1 v a _ hrun ih =>
    obtain ⟨hlock, hcov⟩ := ih
    rw [PlayerKilled_run r v a hlock] at hrun
    cases hrun
    refine ⟨hlock, ?_⟩
    intro k hk
    exact ⟨(AList.mem_insert _).mpr (Or.inr (hcov k hk).1),
      (AList.mem_insert _).mpr (Or.inr (hcov k hk).2)⟩
  | playerDamage r r1 puuid d health _ hreg hrun ih =>
    obtain ⟨hlock, hcov⟩ := ih
    rw [PlayerDamage_run r puuid d hlock] at hrun
    cases hrun
    refine ⟨hlock, ?_⟩
    intro k hk
    rcases (AList.mem_insert _).mp hk with rfl | hk1
    · exact hcov k hreg
    · exact hcov k hk1
  | respawnPlayer r r1 puuid _ hrun ih =>
    obtain ⟨hlock, hcov⟩ := ih
    rw [RespawnPlayer_run r puuid hlock] at hrun
    cases hrun
    refine ⟨hlock, ?_⟩
    intro k hk
    cases hp : r.players.lookup puuid with
    | none =>
      simp only [hp] at hk
      exact hcov k hk
    | some p =>
      simp only [hp] at hk
      rcases (AList.mem_insert _).mp hk with rfl | hk1
      · exact hcov k (mem_of_lookup_some _ _ _ hp)
      · exact hcov k hk1
  | resetPlayer r r1 puuid _ hrun ih =>
    obtain ⟨hlock, hcov⟩ := ih
    rw [ResetPlayer_run r puuid hlock] at hrun
    cases hrun
    refine ⟨hlock, ?_⟩
    intro k hk
    have hk0 : k ∈ r.players := by
      cases hp : r.players.lookup puuid with
      | none =>
        simp only [hp] at hk
        exact hk
      | some p =>
        simp only [hp] at hk
        rcases (AList.mem_insert _).mp hk with rfl | hk1
        · exact mem_of_lookup_some _ _ _ hp
        · exact hk1
    exact ⟨(AList.mem_insert _).mpr (Or.inr (hcov k hk0).1),
      (AList.mem_insert _).mpr (Or.inr (hcov k hk0).2)⟩
  | reset r r1 _ hrun ih =>
    obtain ⟨hlock, -⟩ := ih
    obtain ⟨r2, hrun2, hl, hp, hk, hd⟩ := Reset_run r hlock
    rw [hrun2] at hrun
    cases hrun
    refine ⟨hl, ?_⟩
    intro k hmem
    have hk0 : k ∈ r.players := by
      have h1 := hp k
      cases hlk : r.players.lookup k with
      | none =>
        rw [hlk] at h1
        exact absurd hmem (AList.lookup_eq_none.mp h1)
      | some p => exact mem_of_lookup_some _ _ _ hlk
    have h2 := hk k
    have h3 := hd k
    simp only [hk0, if_true] at h2 h3
    exact ⟨mem_of_lookup_some _ _ _ h2, mem_of_lookup_some _ _ _ h3⟩

/-- C3. Authentication gate: for every world and every decoded message whose
type is none of CONNECT, DISCONNECT, PING and JOIN, arriving on a connection
whose remote address is that of no registered player, `parseClientMessage` ends
in the world it started in, so the roster is unchanged and nothing is sent,
whatever the other fields of the message hold; and it returns whenever the lock
is not write-held. -/
theorem authentication_gate (fresh : UUID) (digits : Nat → Fin 10)
    (orders : Nat → RangeOrder) (conn : Conn) (msg : Message) (w : World)
    (htype : msg.MsgType ≠ CONNECT ∧ msg.MsgType ≠ DISCONNECT ∧ msg.MsgType ≠ PING ∧
      msg.MsgType ≠ JOIN)
    (hunknown : ∀ e ∈ w.ROSTER.players.entries,
      e.2.Connection.map Conn.RemoteAddr ≠ some conn.RemoteAddr) :
    (parseClientMessage fresh digits orders conn (some msg) w).state = w ∧
    (w.ROSTER.lock.writer = false →
      parseClientMessage fresh digits orders conn (some msg) w = .ret () w) := by
  obtain ⟨h1, h2, h3, h4⟩ := htype
  have hscan := lookupScan_unknown conn.RemoteAddr _ hunknown
  cases hw : w.ROSTER.lock.writer with
  | true =>
    have hb := liftR_blocked _ w _ (PlayerLookup_blocked w.ROSTER "" (some conn.RemoteAddr) hw)
    refine ⟨?_, fun h => by cases h⟩
    simp [parseClientMessage, hb, Outcome.state]
  | false =>
    have hr := liftR_ret _ w _ _ (PlayerLookup_run w.ROSTER "" (some conn.RemoteAddr) hw)
    have : parseClientMessage fresh digits orders conn (some msg) w = .ret () w := by
      simp [parseClientMessage, hr, hscan, ProcessMessage, h1, h2, h3, h4]
    exact ⟨by rw [this]; rfl, fun _ => this⟩

/-- Witness for C3: a HIT message with a forged sender field from an unknown
address. -/
theorem authentication_gate_witness :
    (sampleHit.MsgType ≠ CONNECT ∧ sampleHit.MsgType ≠ DISCONNECT ∧ sampleHit.MsgType ≠ PING ∧
      sampleHit.MsgType ≠ JOIN) ∧
    (∀ e ∈ sampleWorld.ROSTER.players.entries,
      e.2.Connection.map Conn.RemoteAddr ≠ some (Conn.mk "10.0.0.9:5000").RemoteAddr) ∧
    (parseClientMessage 7 (fun _ => 0) (fun _ => RangeOrder.listed) ⟨"10.0.0.9:5000"⟩ (some sampleHit) sampleWorld).state
      = sampleWorld ∧
    (sampleWorld.ROSTER.lock.writer = false →
      parseClientMessage 7 (fun _ => 0) (fun _ => RangeOrder.listed) ⟨"10.0.0.9:5000"⟩ (some sampleHit) sampleWorld
        = .ret () sampleWorld) :=
  ⟨by decide, by decide,
    authentication_gate 7 (fun _ => 0) (fun _ => RangeOrder.listed) ⟨"10.0.0.9:5000"⟩ sampleHit sampleWorld
      (by decide) (by decide)⟩

/-- C4, evaluated at the failing input.  With Alice and Bob registered at
health 100 and the lock free, `PlayerHit` of Bob by Alice with damage 100 does
not return: it waits forever in `Roster.PlayerKilled` on the read hold that
`PlayerConn` left behind.  Alice's kill counter and Bob's death counter are
still 0 and Bob is left at health 0, not respawned. -/
theorem PlayerHit_lethal_never_returns (orders : Nat → RangeOrder) :
    ∃ w1, Server.PlayerHit orders "Bob" 1 100 sampleWorld = .blocked w1 ∧
      w1.ROSTER.kills.lookup 1 = some 0 ∧ w1.ROSTER.deaths.lookup 2 = some 0 ∧
      (w1.ROSTER.players.lookup 2).map Player.Health = some 0 ∧
      w1.ROSTER.lock = { readers := 1, writer := false } := by
  have hrun := PlayerHit_run orders sampleWorld "Bob" 1 2 100 sampleBob rfl rfl (by decide) rfl
  have hT : sampleBob.TakeDamage 100 = { sampleBob with health := 0 } :=
    TakeDamage_lethal sampleBob 100 (le_of_eq rfl)
  rw [hT] at hrun
  simp only [Player.Health, le_refl, if_true] at hrun
  refine ⟨_, hrun, rfl, rfl, ?_, rfl⟩
  simp [AList.lookup_insert, Player.Health]

/-- Counterexample to C5 as stated.  Alice has health 100 and the damage is the
`float32` nearest to one tenth: `PlayerDamage` returns and stores
13094093 / 131072, the exact difference rounded to `float32`, which is not
`max 0 (100 - d)`.  And for a player whose health `Hit` has brought to -50, a
damage of 0 stores 0: the health has increased. -/
theorem PlayerDamage_not_exact_difference :
    ((0 : ℚ) ≤ tenth32 ∧ IsFloat32 tenth32 ∧
      oneAlice.players.lookup 1 = some sampleAlice ∧ sampleAlice.Health = 100 ∧
      (∃ r1, Roster.PlayerDamage 1 tenth32 oneAlice = .ret (13094093 / 131072) r1 ∧
        (r1.players.lookup 1).map Player.Health = some (13094093 / 131072)) ∧
      (13094093 / 131072 : ℚ) ≠ max 0 (sampleAlice.Health - tenth32)) ∧
    (oneHurtAlice.players.lookup 1 = some hurtAlice ∧ hurtAlice.Health = -50 ∧
      (∃ r1, Roster.PlayerDamage 1 0 oneHurtAlice = .ret 0 r1 ∧
        (r1.players.lookup 1).map Player.Health = some 0) ∧
      hurtAlice.Health < 0) := by
  have hH : sampleAlice.Health = 100 := rfl
  have hhurt : hurtAlice.Health = -50 := by
    show float32 (100 - 150) = -50
    rw [show (100 - 150 : ℚ) = -50 by norm_num, float32_neg_fifty]
  refine ⟨⟨by norm_num [tenth32], ⟨float32_tenth, by norm_num [tenth32, abs_of_pos]⟩, rfl, hH,
    ?_, by norm_num [hH, tenth32]⟩, rfl, hhurt, ?_, by rw [hhurt]; norm_num⟩
  · have hrun := PlayerDamage_run oneAlice 1 tenth32 rfl
    have hlk : oneAlice.players.lookup 1 = some sampleAlice := rfl
    rw [hlk, Option.getD_some, TakeDamage_eq, hH, tenth32, float32_hundred_sub_tenth,
      max_eq_right (by norm_num)] at hrun
    exact ⟨_, hrun, by rw [AList.lookup_insert]; rfl⟩
  · have hrun := PlayerDamage_run oneHurtAlice 1 0 rfl
    have hlk : oneHurtAlice.players.lookup 1 = some hurtAlice := rfl
    rw [hlk, Option.getD_some, TakeDamage_lethal hurtAlice 0 (by rw [hhurt]; norm_num)] at hrun
    exact ⟨_, hrun, by rw [AList.lookup_insert]; rfl⟩

/-- C5, amended.  Damage is clamped: for a registered player with health `h`
and a damage `d ≥ 0`, `PlayerDamage` (called with the lock free) returns and
stores `max 0 (float32 (h - d))`: the exact difference rounded to `float32`, or
0 when that is negative.  This is `max 0 (h - d)` when the difference is itself
a `float32` value, and within half a unit in the last place of it in every
case.  The stored health is not negative; when `h` is a `float32` value it is
not above `max 0 h`, so for `h ≥ 0` it is not above `h`.  The player's
identity, name, state and connection, every other player, the counters and the
lock are unchanged. -/
theorem PlayerDamage_clamped (r : Roster) (puuid : UUID) (p : Player) (d : ℚ)
    (hlock : r.lock = RWMutex.free) (hp : r.players.lookup puuid = some p) (hd : 0 ≤ d) :
    ∃ r1, Roster.PlayerDamage puuid d r = .ret (max 0 (float32 (p.Health - d))) r1 ∧
      r1.players.lookup puuid = some { p with health := max 0 (float32 (p.Health - d)) } ∧
      (IsFloat32 (p.Health - d) → max 0 (float32 (p.Health - d)) = max 0 (p.Health - d)) ∧
      |max 0 (float32 (p.Health - d)) - max 0 (p.Health - d)| ≤ float32Ulp (p.Health - d) / 2 ∧
      0 ≤ max 0 (float32 (p.Health - d)) ∧
      (IsFloat32 p.Health → max 0 (float32 (p.Health - d)) ≤ max 0 p.Health) ∧
      (IsFloat32 p.Health → 0 ≤ p.Health → max 0 (float32 (p.Health - d)) ≤ p.Health) ∧
      (∀ x, x ≠ puuid → r1.players.lookup x = r.players.lookup x) ∧
      r1.kills = r.kills ∧ r1.deaths = r.deaths ∧ r1.lock = r.lock := by
  have hrun := PlayerDamage_run r puuid d hlock
  rw [hp, Option.getD_some, TakeDamage_eq] at hrun
  have hup : IsFloat32 p.Health → max 0 (float32 (p.Health - d)) ≤ max 0 p.Health := by
    intro hrep
    rcases le_or_lt (p.Health - d) 0 with hle | hlt
    · rw [max_eq_left (float32_nonpos _ hle)]
      exact le_max_left _ _
    · exact max_le_max (le_refl 0) (float32_le_of_le _ _ hlt (by linarith) hrep.1)
  refine ⟨_, hrun, AList.lookup_insert _, ?_, ?_, le_max_left _ _, hup, ?_, ?_, rfl, rfl, rfl⟩
  · intro hrep
    rw [hrep.1]
  · exact float32_clamp_error _
  · intro hrep h0
    exact le_trans (hup hrep) (le_of_eq (max_eq_right h0))
  · intro x hx
    exact AList.lookup_insert_ne hx

/-- Witness for C5: 50 damage to Alice at health 100 leaves her at 50. -/
theorem PlayerDamage_clamped_witness :
    oneAlice.lock = RWMutex.free ∧ oneAlice.players.lookup 1 = some sampleAlice ∧
    (0 : ℚ) ≤ 50 ∧
    ∃ r1, Roster.PlayerDamage 1 50 oneAlice = .ret 50 r1 ∧
      r1.players.lookup 1 = some { sampleAlice with health := 50 } := by
  obtain ⟨r1, hrun, hlk, -⟩ := PlayerDamage_clamped oneAlice 1 sampleAlice 50 rfl rfl (by norm_num)
  have hv : max 0 (float32 (sampleAlice.Health - 50)) = 50 := by
    rw [show sampleAlice.Health - 50 = 50 by norm_num [Player.Health, sampleAlice, newPlayer],
      float32_fifty]
    norm_num
  rw [hv] at hrun hlk
  exact ⟨rfl, rfl, by norm_num, r1, hrun, hlk⟩

/-- C6. `AddPlayer` rejection is exact and atomic: for every digit sequence,
every player `p` and every roster whose lock is not write-held and whose
registered players all have a connection, `AddPlayer p` returns false exactly
when `p`'s identity is a key of `players` or `p`'s remote address is that of a
registered player; whenever it returns false the roster is unchanged; and with
no read hold outstanding and `p` connected it does return. -/
theorem AddPlayer_rejection_exact (digits : Nat → Fin 10) (p : Player) (r : Roster)
    (hw : r.lock.writer = false) (hlive : r.Live) :
    ((Roster.AddPlayer digits p r).value = some false ↔
        (p.ID ∈ r.players ∨ r.AddrTaken p.Connection)) ∧
    (∀ r1, Roster.AddPlayer digits p r = .ret false r1 → r1 = r) ∧
    (r.lock.readers = 0 → p.Connection ≠ none →
      ∃ b r1, Roster.AddPlayer digits p r = .ret b r1) := by
  rcases AddPlayer_run digits p r hw with
    ⟨hid, hrun⟩ | ⟨hid, hs, hrun⟩ | ⟨hid, hs, hrun⟩ | ⟨hid, hs, ds, -, -, hrun⟩
  · rw [hrun]
    refine ⟨⟨fun _ => Or.inl hid, fun _ => rfl⟩, ?_, fun _ _ => ⟨false, r, rfl⟩⟩
    intro r1 h
    cases h
    rfl
  · rw [hrun]
    have hnot : ¬ r.AddrTaken p.Connection := by
      rintro ⟨e, he, c, c1, hc, hc1, hcc⟩
      obtain ⟨b, hb⟩ := connUniqueScan_live c r.players.entries hlive
      rw [hc, hb] at hs
      cases hs
    refine ⟨⟨fun h => ?_, fun h => ?_⟩, ?_, ?_⟩
    · simp [Outcome.value] at h
    · rcases h with h | h
      · exact absurd h hid
      · exact absurd h hnot
    · intro r1 h
      cases h
    · intro _ hc
      obtain ⟨c, hc1⟩ := Option.ne_none_iff_exists'.mp hc
      obtain ⟨b, hb⟩ := connUniqueScan_live c r.players.entries hlive
      rw [hc1, hb] at hs
      cases hs
  · rw [hrun]
    refine ⟨⟨fun _ => Or.inr (connUniqueScan_false _ _ hs), fun _ => rfl⟩, ?_,
      fun _ _ => ⟨false, r, rfl⟩⟩
    intro r1 h
    cases h
    rfl
  · have hnot : ¬ r.AddrTaken p.Connection := connUniqueScan_true _ _ hs
    have hno : ¬ (p.ID ∈ r.players ∨ r.AddrTaken p.Connection) := by
      rintro (h | h)
      · exact hid h
      · exact hnot h
    rcases hrun with ⟨hr, hrun⟩ | ⟨hr, hrun⟩
    · rw [hrun]
      refine ⟨⟨fun h => ?_, fun h => absurd h hno⟩, ?_, fun h => absurd h hr⟩
      · simp [Outcome.value] at h
      · intro r1 h
        cases h
    · rw [hrun]
      refine ⟨⟨fun h => ?_, fun h => absurd h hno⟩, ?_, fun _ _ => ⟨true, _, rfl⟩⟩
      · simp [Outcome.value] at h
      · intro r1 h
        cases h

/-- Witness for C6: Bob tries to join from the address Alice is registered
with. -/
theorem AddPlayer_rejection_exact_witness :
    oneAlice.lock.writer = false ∧ oneAlice.Live ∧
    ((Roster.AddPlayer (fun _ => 3) (newPlayer 2 "Bob" (some ⟨"10.0.0.1:5000"⟩)) oneAlice).value
        = some false ↔
      ((newPlayer 2 "Bob" (some ⟨"10.0.0.1:5000"⟩)).ID ∈ oneAlice.players ∨
        oneAlice.AddrTaken (newPlayer 2 "Bob" (some ⟨"10.0.0.1:5000"⟩)).Connection)) :=
  have hlive : oneAlice.Live := by
    unfold Roster.Live
    decide
  ⟨rfl, hlive,
    (AddPlayer_rejection_exact (fun _ => 3) (newPlayer 2 "Bob" (some ⟨"10.0.0.1:5000"⟩))
      oneAlice rfl hlive).1⟩

/-- C7. `AddPlayer` success postcondition: whenever `AddPlayer p` returns true,
`p`'s identity was not registered and its address was free, and the new roster
is the old one with one entry inserted under `p`'s identity in `players` and
the counters 0 and 0 under that identity; the stored player has `p`'s identity,
connection, health and state, its name is `p`'s name followed by zero or more
decimal digits, is exactly `p`'s name when no registered player had that name,
and is the name of no previously registered player. -/
theorem AddPlayer_success_post (digits : Nat → Fin 10) (p : Player) (r r1 : Roster)
    (h : Roster.AddPlayer digits p r = .ret true r1) :
    p.ID ∉ r.players ∧ ¬ r.AddrTaken p.Connection ∧
    ∃ q : Player,
      r1 = { r with players := r.players.insert p.ID q,
                    kills := r.kills.insert p.ID 0,
                    deaths := r.deaths.insert p.ID 0 } ∧
      q.ID = p.ID ∧ q.Connection = p.Connection ∧ q.Health = p.Health ∧ q.state = p.state ∧
      (∃ ds : List (Fin 10), q.Name = ds.foldl (fun s d => s ++ toString d.val) p.Name) ∧
      (¬ r.NameTaken p.Name → q.Name = p.Name) ∧
      ¬ r.NameTaken q.Name := by
  have hw : r.lock.writer = false := by
    cases hwr : r.lock.writer with
    | false => rfl
    | true => rw [AddPlayer_blocked digits p r hwr] at h; cases h
  rcases AddPlayer_run digits p r hw with
    ⟨hid, hrun⟩ | ⟨hid, hs, hrun⟩ | ⟨hid, hs, hrun⟩ | ⟨hid, hs, ds, huniq, hnil, hrun⟩
  · rw [hrun] at h; cases h
  · rw [hrun] at h; cases h
  · rw [hrun] at h; cases h
  · rcases hrun with ⟨hr, hrun⟩ | ⟨hr, hrun⟩
    · rw [hrun] at h; cases h
    · rw [hrun] at h
      cases h
      refine ⟨hid, connUniqueScan_true _ _ hs, _, rfl, rfl, rfl, rfl, rfl, ⟨ds, rfl⟩, ?_, huniq⟩
      intro hfree
      rw [hnil hfree]
      rfl

/-- Witness for C7: the second Alice joins and is stored as Alice3. -/
theorem AddPlayer_success_post_witness :
    Roster.AddPlayer (fun _ => 3) sampleAliceAgain oneAlice = .ret true twoAlices ∧
    sampleAliceAgain.ID ∉ oneAlice.players ∧
    ¬ oneAlice.AddrTaken sampleAliceAgain.Connection :=
  have hrun : Roster.AddPlayer (fun _ => 3) sampleAliceAgain oneAlice = .ret true twoAlices :=
    Outcome.eq_ret_of _ _ _ (by decide)
      (Roster.ext_entries _ _ (by decide) (by decide) (by decide) (by decide))
  ⟨hrun, (AddPlayer_success_post (fun _ => 3) sampleAliceAgain oneAlice twoAlices hrun).1,
    (AddPlayer_success_post (fun _ => 3) sampleAliceAgain oneAlice twoAlices hrun).2.1⟩

/-- C8. `RemovePlayer` (called with the lock free, the player registered under
the identity, if any, having a connection) returns true exactly when the
identity was a key of `players`; when it returns true the identity is absent
from `players`, `kills` and `deaths` and every other entry of the three maps is
unchanged; when it returns false the roster is unchanged; the lock is free
again on return. -/
theorem RemovePlayer_spec (r : Roster) (puuid : UUID) (hlock : r.lock = RWMutex.free)
    (hconn : ∀ p, r.players.lookup puuid = some p → p.Connection ≠ none) :
    ∃ b r1, Roster.RemovePlayer puuid r = .ret b r1 ∧
      (b = true ↔ puuid ∈ r.players) ∧
      (b = true →
        r1.players.lookup puuid = none ∧ r1.kills.lookup puuid = none ∧
        r1.deaths.lookup puuid = none ∧
        ∀ x, x ≠ puuid →
          r1.players.lookup x = r.players.lookup x ∧ r1.kills.lookup x = r.kills.lookup x ∧
          r1.deaths.lookup x = r.deaths.lookup x) ∧
      (b = false → r1 = r) ∧ r1.lock = r.lock := by
  obtain ⟨lock, players, kills, deaths⟩ := r
  simp only at hlock hconn
  subst hlock
  cases hp : players.lookup puuid with
  | none =>
    have hmem : puuid ∉ players := AList.lookup_eq_none.mp hp
    refine ⟨false, _, ?_, by simp [hmem], by simp, fun _ => rfl, rfl⟩
    simp [Roster.RemovePlayer, Roster.Lock, Roster.Unlock, RWMutex.free, hp]
  | some p =>
    have hmem : puuid ∈ players := by
      rw [← AList.lookup_isSome, hp]; rfl
    obtain ⟨c, hc⟩ := Option.ne_none_iff_exists'.mp (hconn p hp)
    refine ⟨true, ⟨RWMutex.free, players.erase puuid, kills.erase puuid, deaths.erase puuid⟩,
      ?_, by simp [hmem], ?_, by simp, rfl⟩
    · simp [Roster.RemovePlayer, Roster.Lock, Roster.Unlock, RWMutex.free, hp, hc]
    · intro _
      refine ⟨AList.lookup_erase _ _, AList.lookup_erase _ _, AList.lookup_erase _ _, ?_⟩
      intro x hx
      exact ⟨AList.lookup_erase_ne hx, AList.lookup_erase_ne hx, AList.lookup_erase_ne hx⟩

/-- Witness for C8: Alice leaves. -/
theorem RemovePlayer_spec_witness :
    oneAlice.lock = RWMutex.free ∧
    (∀ p, oneAlice.players.lookup 1 = some p → p.Connection ≠ none) ∧
    ∃ b r1, Roster.RemovePlayer 1 oneAlice = .ret b r1 ∧ (b = true ↔ 1 ∈ oneAlice.players) :=
  have hconn : ∀ p, oneAlice.players.lookup 1 = some p → p.Connection ≠ none := by
    intro p hp
    have hq : oneAlice.players.lookup 1 = some sampleAlice := rfl
    rw [hq] at hp
    cases hp
    decide
  ⟨rfl, hconn,
    (RemovePlayer_spec oneAlice 1 rfl hconn).imp
      (fun _ h => h.imp (fun _ h1 => ⟨h1.1, h1.2.1⟩))⟩

/-- C9. `PlayerKilled v a` of the roster (called with the lock free), for all
identities `v` and `a`, equal or not: the attacker's kill counter becomes its
previous value plus 1 in `int32` arithmetic, or 1 if it had no entry; the
victim's death counter becomes its previous value (0 if absent) plus 1 in
`int32` arithmetic; `players`, every other kill counter, every other death
counter and the lock are unchanged. -/
theorem PlayerKilled_counters (r : Roster) (v a : UUID) (h : r.lock = RWMutex.free) :
    ∃ r1, Roster.PlayerKilled v a r = .ret () r1 ∧ r1.lock = r.lock ∧ r1.players = r.players ∧
      r1.kills.lookup a = some (match r.kills.lookup a with
        | some k => int32 (k + 1)
        | none => 1) ∧
      r1.deaths.lookup v = some (int32 ((r.deaths.lookup v).getD 0 + 1)) ∧
      (∀ x, x ≠ a → r1.kills.lookup x = r.kills.lookup x) ∧
      (∀ x, x ≠ v → r1.deaths.lookup x = r.deaths.lookup x) := by
  obtain ⟨lock, players, kills, deaths⟩ := r
  simp only at h
  subst h
  cases hk : kills.lookup a <;>
  simp [Roster.PlayerKilled, Roster.Lock, Roster.Unlock, RWMutex.free, hk] <;>
  exact ⟨fun x hx => AList.lookup_insert_ne hx, fun x hx => AList.lookup_insert_ne hx⟩

/-- Witness for C9: Alice kills Bob. -/
theorem PlayerKilled_counters_witness :
    sampleRoster.lock = RWMutex.free ∧
    ∃ r1, Roster.PlayerKilled 2 1 sampleRoster = .ret () r1 ∧ r1.lock = sampleRoster.lock ∧
      r1.players = sampleRoster.players :=
  ⟨rfl, (PlayerKilled_counters sampleRoster 2 1 rfl).imp (fun _ h => ⟨h.1, h.2.1, h.2.2.1⟩)⟩

/-- C10 as stated fails.  Bob is registered, yet looking up the name Bob
together with the address of Alice's connection, with Alice scanned first,
returns Alice's identity, and the player registered under it is named Alice. -/
theorem PlayerLookup_address_before_name :
    sampleRoster.NameTaken "Bob" ∧
    Roster.PlayerLookup "Bob" (some "10.0.0.1:5000") sampleRoster = .ret 1 sampleRoster ∧
    (sampleRoster.players.lookup 1).map Player.Name = some "Alice" := by
  refine ⟨⟨⟨2, sampleBob⟩, by decide, rfl⟩, rfl, rfl⟩

/-- C10, amended.  For every roster, every non-empty name and every endpoint:
if some registered player has exactly that name, and every registered player
whose connection matches the endpoint has that name (in particular when the
endpoint is nil), then `PlayerLookup` returns the identity of a registered
player with that name, and so does the scan in every order of the entries. -/
theorem PlayerLookup_by_name (r : Roster) (name : String) (addr : Option String)
    (hname : name ≠ "") (hex : r.NameTaken name)
    (haddr : ∀ e ∈ r.players.entries, addr ≠ none →
      e.2.Connection.map Conn.RemoteAddr = addr → e.2.Name = name)
    (hw : r.lock.writer = false) :
    (∃ puuid p, Roster.PlayerLookup name addr r = .ret puuid r ∧
      r.players.lookup puuid = some p ∧ p.Name = name) ∧
    (∀ order : List (Sigma (fun _ : UUID => Player)), order.Perm r.players.entries →
      ∃ p, r.players.lookup (lookupScan name addr order) = some p ∧ p.Name = name) := by
  constructor
  · obtain ⟨e, he, hn, hrun⟩ := lookupScan_by_name name addr hname r.players.entries hex haddr
    refine ⟨e.1, e.2, ?_, AList.mem_lookup_iff.mpr he, hn⟩
    rw [PlayerLookup_run r name addr hw, hrun]
  · intro order hperm
    obtain ⟨e, he, hn, hrun⟩ := lookupScan_by_name name addr hname order
      (by obtain ⟨e, he, hn⟩ := hex; exact ⟨e, hperm.mem_iff.mpr he, hn⟩)
      (fun e he => haddr e (hperm.mem_iff.mp he))
    exact ⟨e.2, by rw [hrun]; exact AList.mem_lookup_iff.mpr (hperm.mem_iff.mp he), hn⟩

/-- Witness for the amended C10: looking up Bob by name with a nil endpoint. -/
theorem PlayerLookup_by_name_witness :
    ("Bob" : String) ≠ "" ∧ sampleRoster.NameTaken "Bob" ∧
    sampleRoster.lock.writer = false ∧
    ∃ puuid p, Roster.PlayerLookup "Bob" none sampleRoster = .ret puuid sampleRoster ∧
      sampleRoster.players.lookup puuid = some p ∧ p.Name = "Bob" :=
  have hex : sampleRoster.NameTaken "Bob" := ⟨⟨2, sampleBob⟩, by decide, rfl⟩
  ⟨by decide, hex, rfl,
    (PlayerLookup_by_name sampleRoster "Bob" none (by decide) hex (by decide) rfl).1⟩

/-- C11. Sender resolution by endpoint: for every roster whose lock is not
write-held and in which `uuid.Nil` is not a registered identity, and every
endpoint, `PlayerLookup "" addr` returns; it returns `uuid.Nil` exactly when no
registered player's connection has the remote address `addr`, and otherwise the
identity of a registered player whose connection has that address, whatever
the names of the players (an empty registered name included) and in every scan
order. -/
theorem PlayerLookup_by_endpoint (r : Roster) (addr : Option String)
    (hw : r.lock.writer = false) (hnil : uuid.Nil ∉ r.players) :
    (∃ puuid, Roster.PlayerLookup "" addr r = .ret puuid r ∧
      (puuid = uuid.Nil ↔ ∀ e ∈ r.players.entries, ¬ e.2.AtAddr addr) ∧
      (puuid ≠ uuid.Nil → ∃ p, r.players.lookup puuid = some p ∧ p.AtAddr addr)) ∧
    (∀ order : List (Sigma (fun _ : UUID => Player)), order.Perm r.players.entries →
      (lookupScan "" addr order = uuid.Nil ↔ ∀ e ∈ r.players.entries, ¬ e.2.AtAddr addr) ∧
      (lookupScan "" addr order ≠ uuid.Nil →
        ∃ p, r.players.lookup (lookupScan "" addr order) = some p ∧ p.AtAddr addr)) := by
  have key : ∀ order : List (Sigma (fun _ : UUID => Player)), order.Perm r.players.entries →
      (lookupScan "" addr order = uuid.Nil ↔ ∀ e ∈ r.players.entries, ¬ e.2.AtAddr addr) ∧
      (lookupScan "" addr order ≠ uuid.Nil →
        ∃ p, r.players.lookup (lookupScan "" addr order) = some p ∧ p.AtAddr addr) := by
    intro order hperm
    rcases lookupScan_by_addr addr order with ⟨hall, hrun⟩ | ⟨e, he, hat, hrun⟩
    · refine ⟨⟨fun _ e he => hall e (hperm.mem_iff.mpr he), fun _ => hrun⟩, ?_⟩
      intro hne
      exact absurd hrun hne
    · have hmem : e ∈ r.players.entries := hperm.mem_iff.mp he
      have hlk : r.players.lookup e.1 = some e.2 := AList.mem_lookup_iff.mpr hmem
      have hkey : e.1 ≠ uuid.Nil := by
        intro h0
        apply hnil
        rw [← h0]
        exact mem_of_lookup_some _ _ _ hlk
      rw [hrun]
      refine ⟨⟨fun h0 => absurd h0 hkey, fun hall => absurd hat (hall e hmem)⟩, ?_⟩
      intro _
      exact ⟨e.2, hlk, hat⟩
  refine ⟨⟨lookupScan "" addr r.players.entries, PlayerLookup_run r "" addr hw, ?_⟩, key⟩
  exact key _ (List.Perm.refl _)

/-- Witness for C11: the address of Bob's connection resolves to Bob. -/
theorem PlayerLookup_by_endpoint_witness :
    sampleRoster.lock.writer = false ∧ uuid.Nil ∉ sampleRoster.players ∧
    ∃ puuid, Roster.PlayerLookup "" (some "10.0.0.2:5000") sampleRoster = .ret puuid sampleRoster ∧
      (puuid = uuid.Nil ↔
        ∀ e ∈ sampleRoster.players.entries, ¬ e.2.AtAddr (some "10.0.0.2:5000")) ∧
      (puuid ≠ uuid.Nil →
        ∃ p, sampleRoster.players.lookup puuid = some p ∧ p.AtAddr (some "10.0.0.2:5000")) :=
  ⟨rfl, by decide,
    (PlayerLookup_by_endpoint sampleRoster (some "10.0.0.2:5000") rfl (by decide)).1⟩

/-- C12. Scoreboard: for every roster whose lock is not write-held, whose
`kills` map has exactly the registered identities as keys and whose display
names are pairwise distinct, `Scoreboard` returns, leaving the roster as it
was, a map in which a name has the count `k` exactly when some registered
player has that name and kill count `k`, and which has as many entries as there
are registered players. -/
theorem Scoreboard_spec (r : Roster) (hw : r.lock.writer = false)
    (hkeys : ∀ puuid, puuid ∈ r.kills ↔ puuid ∈ r.players)
    (hnames : ∀ k1 k2 p1 p2, k1 ≠ k2 → r.players.lookup k1 = some p1 →
      r.players.lookup k2 = some p2 → p1.Name ≠ p2.Name) :
    ∃ scores, Roster.Scoreboard r = .ret scores r ∧
      (∀ (name : String) (k : Int), scores.lookup name = some k ↔
        ∃ puuid p, r.players.lookup puuid = some p ∧ p.Name = name ∧
          r.kills.lookup puuid = some k) ∧
      scores.entries.length = r.players.entries.length := by
  have hreg : ∀ e ∈ r.kills.entries, ∃ p, r.players.lookup e.1 = some p ∧ r.nameOf e.1 = p.Name := by
    intro e he
    have hk : e.1 ∈ r.kills := mem_of_lookup_some _ _ _ (AList.mem_lookup_iff.mpr he)
    have hp : e.1 ∈ r.players := (hkeys e.1).mp hk
    cases hlk : r.players.lookup e.1 with
    | none => exact absurd hp (AList.lookup_eq_none.mp hlk)
    | some p => exact ⟨p, rfl, by simp [Roster.nameOf, hlk]⟩
  have hpair : r.kills.entries.Pairwise (fun e f => r.nameOf e.1 ≠ r.nameOf f.1) := by
    have hnd : r.kills.entries.Pairwise (fun e f => e.1 ≠ f.1) := by
      have := r.kills.nodupKeys
      rwa [List.nodupKeys_iff_pairwise] at this
    refine List.Pairwise.imp_of_mem ?_ hnd
    intro e f he hf hne
    obtain ⟨p1, hp1, hn1⟩ := hreg e he
    obtain ⟨p2, hp2, hn2⟩ := hreg f hf
    rw [hn1, hn2]
    exact hnames e.1 f.1 p1 p2 hne hp1 hp2
  refine ⟨r.scores, Scoreboard_run r hw, ?_, ?_⟩
  · intro name k
    rw [Roster.scores, foldl_scoreStep_lookup r _ ∅ hpair name k]
    constructor
    · rintro (⟨e, he, hn, hk⟩ | ⟨-, hlk⟩)
      · obtain ⟨p, hp, hnp⟩ := hreg e he
        refine ⟨e.1, p, hp, by rw [← hnp, hn], ?_⟩
        rw [← hk]
        exact AList.mem_lookup_iff.mpr he
      · simp at hlk
    · rintro ⟨puuid, p, hp, hn, hk⟩
      left
      refine ⟨⟨puuid, k⟩, AList.mem_lookup_iff.mp hk, ?_, rfl⟩
      simp [Roster.nameOf, hp, hn]
  · rw [Roster.scores, foldl_scoreStep_length r _ ∅ hpair (fun e _ => AList.not_mem_empty _)]
    simp only [AList.empty_entries, List.length_nil, zero_add]
    exact entries_length_eq_of_keys _ _ hkeys

/-- Witness for C12: the scoreboard of Alice and Bob. -/
theorem Scoreboard_spec_witness :
    sampleRoster.lock.writer = false ∧
    (∀ puuid, puuid ∈ sampleRoster.kills ↔ puuid ∈ sampleRoster.players) ∧
    ∃ scores, Roster.Scoreboard sampleRoster = .ret scores sampleRoster ∧
      scores.entries.length = sampleRoster.players.entries.length :=
  have hkeys : ∀ puuid, puuid ∈ sampleRoster.kills ↔ puuid ∈ sampleRoster.players := by
    intro puuid
    have hk : sampleRoster.kills.keys = sampleRoster.players.keys := by decide
    rw [AList.mem_keys, AList.mem_keys, hk]
  have hnames : ∀ k1 k2 p1 p2, k1 ≠ k2 → sampleRoster.players.lookup k1 = some p1 →
      sampleRoster.players.lookup k2 = some p2 → p1.Name ≠ p2.Name := by
    intro k1 k2 p1 p2 hne h1 h2
    have m1 := AList.mem_lookup_iff.mp h1
    have m2 := AList.mem_lookup_iff.mp h2
    have hent : sampleRoster.players.entries = [⟨1, sampleAlice⟩, ⟨2, sampleBob⟩] := by decide
    rw [hent] at m1 m2
    simp only [List.mem_cons, List.mem_singleton, List.not_mem_nil, or_false] at m1 m2
    rcases m1 with h | h <;> rcases m2 with h' | h' <;> cases h <;> cases h' <;>
      first
      | exact absurd rfl hne
      | decide
  ⟨rfl, hkeys,
    (Scoreboard_spec sampleRoster rfl hkeys hnames).imp (fun _ h => ⟨h.1, h.2.2⟩)⟩

/-- C20, evaluated at the failing input.  With Alice registered and the lock
free, `PlayerConn` for Alice returns her connection with one read hold still
outstanding, and in the roster it leaves behind `PlayerDamage`, `PlayerKilled`,
`RemovePlayer` and `AddPlayer` of a new player all wait forever. -/
theorem PlayerConn_leaves_read_hold :
    Roster.PlayerConn 1 oneAlice = .ret sampleAlice.Connection oneAliceHeld ∧
    oneAliceHeld.lock ≠ oneAlice.lock ∧
    Roster.PlayerDamage 1 50 oneAliceHeld = .blocked oneAliceHeld ∧
    Roster.PlayerKilled 1 1 oneAliceHeld = .blocked oneAliceHeld ∧
    Roster.RemovePlayer 1 oneAliceHeld = .blocked oneAliceHeld ∧
    Roster.AddPlayer (fun _ => 3) sampleBob oneAliceHeld = .blocked oneAliceHeld := by
  have hheld : oneAliceHeld.lock ≠ RWMutex.free := by decide
  refine ⟨PlayerConn_run_registered oneAlice 1 sampleAlice rfl rfl, by decide, ?_, ?_, ?_, ?_⟩
  · simp [Roster.PlayerDamage, Lock_blocked _ hheld]
  · simp [Roster.PlayerKilled, Lock_blocked _ hheld]
  · simp [Roster.RemovePlayer, Lock_blocked _ hheld]
  · rcases AddPlayer_run (fun _ => 3) sampleBob oneAliceHeld rfl with
      ⟨hid, -⟩ | ⟨-, hs, -⟩ | ⟨-, hs, -⟩ | ⟨-, -, ds, -, -, ⟨-, hrun⟩ | ⟨hr, -⟩⟩
    · exact absurd hid (by decide)
    · exact absurd hs (by decide)
    · exact absurd hs (by decide)
    · exact hrun
    · exact absurd hr (by decide)

/-- C19, evaluated at the failing input.  The server returned by `newServer`
has `State` 0, the zero value, which is neither STOPPED nor STARTED; its
identity is the one minted for it. -/
theorem newServer_state_unset :
    (newServer 99 false 300).State = 0 ∧ (newServer 99 false 300).State ≠ STOPPED ∧
    (newServer 99 false 300).State ≠ STARTED ∧ (newServer 99 false 300).ID = 99 := by
  refine ⟨rfl, by decide, by decide, rfl⟩

/-- C13. Reset: for every roster, `Reset` (called with the lock free) returns
with the lock free; the registered identities are the same as before, and every
registered player is stored with health 100 and state IDLE and with its
identity, name and connection unchanged, its kill count 0 and its death count
0. -/
theorem Reset_spec (r : Roster) (hlock : r.lock = RWMutex.free) :
    ∃ r1, Roster.Reset r = .ret () r1 ∧ r1.lock = r.lock ∧
      (∀ puuid, puuid ∈ r1.players ↔ puuid ∈ r.players) ∧
      (∀ puuid p, r.players.lookup puuid = some p →
        r1.players.lookup puuid = some { p with health := 100, state := IDLE } ∧
        r1.kills.lookup puuid = some 0 ∧ r1.deaths.lookup puuid = some 0) := by
  obtain ⟨r1, hrun, hl, hp, hk, hd⟩ := Reset_run r hlock
  refine ⟨r1, hrun, hl.trans hlock.symm, ?_, ?_⟩
  · intro puuid
    rw [← AList.lookup_isSome, ← AList.lookup_isSome, hp puuid]
    cases r.players.lookup puuid <;> rfl
  · intro puuid p hlk
    have hmem : puuid ∈ r.players := mem_of_lookup_some _ _ _ hlk
    refine ⟨?_, ?_, ?_⟩
    · rw [hp puuid, hlk]
      rfl
    · rw [hk puuid, if_pos hmem]
    · rw [hd puuid, if_pos hmem]

/-- Witness for C13: resetting the roster of Alice and Bob. -/
theorem Reset_spec_witness :
    sampleRoster.lock = RWMutex.free ∧
    ∃ r1, Roster.Reset sampleRoster = .ret () r1 ∧ r1.lock = sampleRoster.lock ∧
      (∀ puuid, puuid ∈ r1.players ↔ puuid ∈ sampleRoster.players) :=
  ⟨rfl, (Reset_spec sampleRoster rfl).imp (fun _ h => ⟨h.1, h.2.1, h.2.2.1⟩)⟩

/-- C14, evaluated at the failing input.  Alice is registered with health 100
in state IDLE; the damage step with damage 100 brings her health to 0 and
leaves her stored state IDLE, so `IsDead` is false for the stored player. -/
theorem PlayerDamage_lethal_not_dead :
    ∃ r1 q, Roster.PlayerDamage 1 100 oneAlice = .ret 0 r1 ∧
      r1.players.lookup 1 = some q ∧ q.Health = 0 ∧ q.state = IDLE ∧ q.state ≠ DEAD ∧
      q.IsDead = false := by
  have hrun := PlayerDamage_run oneAlice 1 100 rfl
  have hlk : oneAlice.players.lookup 1 = some sampleAlice := rfl
  have hT : sampleAlice.TakeDamage 100 = { sampleAlice with health := 0 } :=
    TakeDamage_lethal sampleAlice 100 (le_of_eq rfl)
  rw [hlk, Option.getD_some, hT] at hrun
  exact ⟨_, _, hrun, AList.lookup_insert _, rfl, rfl, by decide, by decide⟩

/-- C16, evaluated at the failing input.  With twenty players registered and
`MaxPlayers` 20, `PlayerJoin` of a newcomer returns in the world it was called
in: the roster is unchanged and nothing at all is sent, to the newcomer or to
anyone else. -/
theorem PlayerJoin_full_sends_nothing (orders : Nat → RangeOrder) :
    (fullWorld.ROSTER.players.entries.length : Int) = 20 ∧ fullWorld.SVR.MaxPlayers = 20 ∧
    fullWorld.sent = [] ∧
    Server.PlayerJoin (fun _ => 3) orders sampleZed fullWorld = .ret () fullWorld := by
  have hlen : (fullWorld.ROSTER.players.entries.length : Int) = 20 := by decide
  refine ⟨hlen, rfl, rfl, PlayerJoin_full _ _ _ _ ?_⟩
  rw [hlen]
  decide

/-- C15. Capacity bound: for every world and player, when the player count is
at least `MaxPlayers`, `PlayerJoin` returns in the world it was called in, so
`players`, `kills` and `deaths` are unchanged; hence, for a server with
`MaxPlayers ≥ 0` (20 for `newServer`), in every world reachable from an empty
roster by `PlayerJoin` and `RemovePlayer` the player count is at most
`MaxPlayers`. -/
theorem capacity_bound (svr : Server) (hmax : 0 ≤ svr.MaxPlayers) :
    (∀ (w : World) (digits : Nat → Fin 10) (orders : Nat → RangeOrder) (p : Player),
      (w.ROSTER.players.entries.length : Int) ≥ w.SVR.MaxPlayers →
      ∃ w1, Server.PlayerJoin digits orders p w = .ret () w1 ∧
        w1.ROSTER.players = w.ROSTER.players ∧ w1.ROSTER.kills = w.ROSTER.kills ∧
        w1.ROSTER.deaths = w.ROSTER.deaths) ∧
    (∀ w, CapacityReachable svr w →
      (w.ROSTER.players.entries.length : Int) ≤ w.SVR.MaxPlayers) := by
  constructor
  · intro w digits orders p hfull
    exact ⟨w, PlayerJoin_full digits orders p w hfull, rfl, rfl, rfl⟩
  · intro w h
    obtain ⟨hsvr, -, hlen⟩ := capacity_inv svr hmax w h
    rw [hsvr]
    exact hlen

/-- Witness for C15: the server built by `newServer`. -/
theorem capacity_bound_witness :
    (0 : Int) ≤ (newServer 99 false 300).MaxPlayers ∧
    (∀ w, CapacityReachable (newServer 99 false 300) w →
      (w.ROSTER.players.entries.length : Int) ≤ w.SVR.MaxPlayers) :=
  ⟨by decide, (capacity_bound (newServer 99 false 300) (by decide)).2⟩

/-- C21. HIT dispatch ignores the payload's damage: for every world and every
HIT message whose sender is a registered identity (in a roster where
`uuid.Nil` is not one), `ProcessMessage` is the call `PlayerHit` with the
victim named by the message's `Name`, the sender as attacker and the damage 50.
So every HIT message with the same name and sender, whatever its `Damage`,
`HitPlayer` and other fields, ends in the same outcome: the same roster and the
same messages written.  And when the name resolves to a registered victim `p`
(lock free), the victim is stored with health `max 0 (float32 (p.Health - 50))`,
which is `max 0 (p.Health - 50)` for a `float32` health of at most 100, the
victim's connection is sent "remaining health" with that value, and the call
returns when the health is a `float32` value above 50. -/
theorem HIT_dispatch_fixed_damage (fresh : UUID) (digits : Nat → Fin 10)
    (orders : Nat → RangeOrder) (conn : Conn) (msg : Message) (w : World)
    (hhit : msg.MsgType = HIT)
    (hreg : msg.Sender ∈ w.ROSTER.players) (hnil : uuid.Nil ∉ w.ROSTER.players) :
    ProcessMessage fresh digits orders conn msg w =
      Server.PlayerHit orders msg.Name msg.Sender 50 w ∧
    (∀ msg2 : Message, msg2.MsgType = HIT → msg2.Name = msg.Name → msg2.Sender = msg.Sender →
      ProcessMessage fresh digits orders conn msg2 w = ProcessMessage fresh digits orders conn msg w) ∧
    (∀ (d : ℚ) (hitPlayer : String),
      ProcessMessage fresh digits orders conn { msg with Damage := d, HitPlayer := hitPlayer } w =
        ProcessMessage fresh digits orders conn msg w) ∧
    (∀ (vUUID : UUID) (p : Player), w.ROSTER.lock = RWMutex.free →
      lookupScan msg.Name none w.ROSTER.players.entries = vUUID → vUUID ≠ uuid.Nil →
      w.ROSTER.players.lookup vUUID = some p →
      ∃ w1, (ProcessMessage fresh digits orders conn msg w).state = w1 ∧
        w1.ROSTER.players.lookup vUUID =
          some { p with health := max 0 (float32 (p.Health - 50)) } ∧
        (IsFloat32 p.Health → p.Health ≤ 100 →
          max 0 (float32 (p.Health - 50)) = max 0 (p.Health - 50)) ∧
        w1.ROSTER.kills = w.ROSTER.kills ∧ w1.ROSTER.deaths = w.ROSTER.deaths ∧
        (∀ c, p.Connection = some c →
          w1.sent = w.sent ++
            [(c, newClientMessage
              ("remaining health " ++ fmtFloat2 (max 0 (float32 (p.Health - 50)))))]) ∧
        (IsFloat32 p.Health → 50 < p.Health →
          ProcessMessage fresh digits orders conn msg w = .ret () w1)) := by
  have hs : msg.Sender ≠ uuid.Nil := fun h => hnil (h ▸ hreg)
  have hrun := ProcessMessage_HIT_run fresh digits orders conn msg w hhit hs
  have hsame : ∀ msg2 : Message, msg2.MsgType = HIT → msg2.Name = msg.Name →
      msg2.Sender = msg.Sender →
      ProcessMessage fresh digits orders conn msg2 w = ProcessMessage fresh digits orders conn msg w := by
    intro msg2 ht hn hsd
    rw [hrun, ProcessMessage_HIT_run fresh digits orders conn msg2 w ht (hsd ▸ hs), hn, hsd]
  refine ⟨hrun, hsame, fun d hitPlayer => hsame _ hhit rfl rfl, ?_⟩
  intro vUUID p hlock hv hne hp
  have hhit2 := PlayerHit_run orders w msg.Name msg.Sender vUUID 50 p hlock hv hne hp
  rw [TakeDamage_eq] at hhit2
  have hH : ({ p with health := max 0 (float32 (p.Health - 50)) } : Player).Health =
      max 0 (float32 (p.Health - 50)) := rfl
  rw [hH] at hhit2
  rw [hrun]
  have hexact : IsFloat32 p.Health → p.Health ≤ 100 →
      max 0 (float32 (p.Health - 50)) = max 0 (p.Health - 50) := by
    intro hrep h100
    rcases le_or_lt 50 p.Health with h50 | h50
    · rw [float32_sub_fifty_exact p.Health hrep.1 h50 h100]
    · rw [max_eq_left (float32_nonpos _ (by linarith)), max_eq_left (by linarith)]
  by_cases hdead : max 0 (float32 (p.Health - 50)) ≤ 0
  · have hle : IsFloat32 p.Health → ¬ 50 < p.Health := by
      intro hrep hlt
      have : 0 < max 0 (float32 (p.Health - 50)) :=
        lt_max_of_lt_right (float32_sub_fifty_pos p.Health hrep.1 hlt)
      exact absurd hdead (not_le.mpr this)
    rw [if_pos hdead] at hhit2
    rw [hhit2]
    refine ⟨_, rfl, ?_, hexact, rfl, rfl, ?_, fun hrep hlt => absurd hlt (hle hrep)⟩
    · simp only [Outcome.state, AList.lookup_insert]
    · intro c hc
      simp only [Outcome.state, hc]
  · rw [if_neg hdead] at hhit2
    rw [hhit2]
    refine ⟨_, rfl, ?_, hexact, rfl, rfl, ?_, fun _ _ => rfl⟩
    · simp only [Outcome.state, AList.lookup_insert]
    · intro c hc
      simp only [Outcome.state, hc]

/-- Witness for C21: Alice's HIT message naming Bob, once bare and once with a
payload claiming a damage of 10 on "Alice"; both leave Bob at health 50 and
send him "remaining health 50.00". -/
theorem HIT_dispatch_fixed_damage_witness :
    sampleHit.MsgType = HIT ∧ sampleHit.Sender ∈ sampleWorld.ROSTER.players ∧
    uuid.Nil ∉ sampleWorld.ROSTER.players ∧
    ProcessMessage 7 (fun _ => 0) (fun _ => RangeOrder.listed) ⟨"10.0.0.1:5000"⟩ sampleHitPayload sampleWorld =
      ProcessMessage 7 (fun _ => 0) (fun _ => RangeOrder.listed) ⟨"10.0.0.1:5000"⟩ sampleHit sampleWorld ∧
    ∃ w1, ProcessMessage 7 (fun _ => 0) (fun _ => RangeOrder.listed) ⟨"10.0.0.1:5000"⟩ sampleHitPayload sampleWorld =
        .ret () w1 ∧
      (w1.ROSTER.players.lookup 2).map Player.Health = some 50 ∧
      w1.sent = [(⟨"10.0.0.2:5000"⟩, newClientMessage "remaining health 50.00")] := by
  have h := HIT_dispatch_fixed_damage 7 (fun _ => 0) (fun _ => RangeOrder.listed)
    ⟨"10.0.0.1:5000"⟩ sampleHit sampleWorld
    rfl (by decide) (by decide)
  have hsame := h.2.2.1 10 "Alice"
  obtain ⟨w1, -, hp, -, -, -, hsent, hret⟩ := h.2.2.2 2 sampleBob rfl rfl (by decide) rfl
  have hH : sampleBob.Health = 100 := rfl
  have hm : max (0 : ℚ) (float32 (100 - 50)) = 50 := by
    rw [show (100 - 50 : ℚ) = 50 by norm_num, float32_fifty]
    norm_num
  rw [hH, hm] at hp hsent
  rw [hH] at hret
  refine ⟨rfl, by decide, by decide, hsame, w1, ?_, ?_, ?_⟩
  · exact hsame.trans (hret ⟨float32_hundred, by norm_num⟩ (by norm_num))
  · rw [hp]
    rfl
  · have := hsent ⟨"10.0.0.2:5000"⟩ rfl
    rw [fmtFloat2_fifty] at this
    exact this

/-- C17. Join notifications below capacity, for a player `p` on a connection
`c`, whatever the orders of the two `range`s over the connections.  When
`AddPlayer` returns true, `PlayerJoin` returns having written, in this order:
the BROADCAST envelope (wire type 11) with content "Player <final name> joined"
to every connection registered after the join, the joiner's included; the
SCOREBOARD envelope (wire type 10) with the map `Scoreboard` returns to every
one of them; and one JOIN envelope (wire type 8) to `c` with result "success",
the identity string of `p` as content and the final name as name.  The final
name is the name of the player stored under the identity of `p`.  Each of the
two broadcasts visits the registered connections in an order of its own.  When
`AddPlayer` returns false, `PlayerJoin` returns having written only one JOIN
envelope to `c`, with result "failure" and empty content and name, and the
roster is unchanged. -/
theorem PlayerJoin_notifications (digits : Nat → Fin 10) (orders : Nat → RangeOrder)
    (p : Player) (c : Conn) (w : World) (r1 : Roster) (b : Bool)
    (hroom : (w.ROSTER.players.entries.length : Int) < w.SVR.MaxPlayers)
    (hconn : p.Connection = some c)
    (hadd : Roster.AddPlayer digits p w.ROSTER = .ret b r1) :
    (b = true →
      ∃ (q : Player) (scores : AList (fun _ : String => Int)),
        r1.players.lookup p.ID = some q ∧ q.Connection = some c ∧
        Roster.Scoreboard r1 = .ret scores r1 ∧
        Server.PlayerJoin digits orders p w = .ret ()
          { w with
            ROSTER := r1,
            sent := w.sent ++
              deliveries (envelope 11 "" ("Player " ++ q.Name ++ " joined") "")
                (r1.connsIn (orders 0)) ++
              deliveries (scoreboardEnvelope scores) (r1.connsIn (orders 1)) ++
              [(c, envelope 8 q.Name (UUID.String p.ID) "success")] } ∧
        (r1.connsIn (orders 0)).Perm r1.conns ∧ (r1.connsIn (orders 1)).Perm r1.conns ∧
        some c ∈ r1.conns) ∧
    (b = false →
      Server.PlayerJoin digits orders p w = .ret ()
        { w with sent := w.sent ++ [(c, envelope 8 "" "" "failure")] }) := by
  obtain ⟨hl, hw⟩ := AddPlayer_ret_lock digits p _ _ _ hadd
  have hw1 : r1.lock.writer = false := by rw [hl]; exact hw
  constructor
  · intro hb
    subst hb
    have hq : ∃ q, r1.players.lookup p.ID = some q ∧ q.Connection = some c := by
      rcases AddPlayer_run digits p w.ROSTER hw with
        ⟨-, hrun⟩ | ⟨-, -, hrun⟩ | ⟨-, -, hrun⟩ | ⟨-, -, ds, -, -, ⟨-, hrun⟩ | ⟨-, hrun⟩⟩
      · rw [hrun] at hadd; cases hadd
      · rw [hrun] at hadd; cases hadd
      · rw [hrun] at hadd; cases hadd
      · rw [hrun] at hadd; cases hadd
      · rw [hrun] at hadd
        cases hadd
        exact ⟨_, AList.lookup_insert _, hconn⟩
    obtain ⟨q, hlk, hqc⟩ := hq
    have hname : r1.nameOf p.ID = q.Name := by simp [Roster.nameOf, hlk]
    refine ⟨q, r1.scores, hlk, hqc, Scoreboard_run r1 hw1, ?_, connsIn_perm _ _,
      connsIn_perm _ _, ?_⟩
    · rw [PlayerJoin_added digits orders p w r1 hroom hadd, hconn, hname]
      rfl
    · have hmem := AList.mem_lookup_iff.mp hlk
      exact List.mem_map.mpr ⟨_, hmem, hqc⟩
  · intro hb
    subst hb
    have hsame : r1 = w.ROSTER := by
      rcases AddPlayer_run digits p w.ROSTER hw with
        ⟨-, hrun⟩ | ⟨-, -, hrun⟩ | ⟨-, -, hrun⟩ | ⟨-, -, ds, -, -, ⟨-, hrun⟩ | ⟨-, hrun⟩⟩ <;>
      · rw [hrun] at hadd
        cases hadd <;> rfl
    rw [PlayerJoin_rejected digits orders p w r1 hroom hadd, hconn, hsame]
    rfl

/-- Witness for C17: the second Alice joins the world of the first and is
renamed Alice3.  The BROADCAST envelopes are written in one order, the
SCOREBOARD envelopes in the opposite order, the JOIN envelope last. -/
theorem PlayerJoin_notifications_witness :
    ((oneAlice.players.entries.length : Int) < (newServer 99 false 300).MaxPlayers) ∧
    sampleAliceAgain.Connection = some ⟨"10.0.0.2:5000"⟩ ∧
    Roster.AddPlayer (fun _ => 3) sampleAliceAgain oneAlice = .ret true twoAlices ∧
    Server.PlayerJoin (fun _ => 3) sampleOrders sampleAliceAgain
        { ROSTER := oneAlice, SVR := newServer 99 false 300, sent := [] } = .ret ()
      { ROSTER := twoAlices, SVR := newServer 99 false 300,
        sent :=
          [(⟨"10.0.0.2:5000"⟩, envelope 11 "" "Player Alice3 joined" ""),
           (⟨"10.0.0.1:5000"⟩, envelope 11 "" "Player Alice3 joined" ""),
           (⟨"10.0.0.1:5000"⟩,
             scoreboardEnvelope (AList.insert "Alice" 0 (AList.insert "Alice3" 0 ∅))),
           (⟨"10.0.0.2:5000"⟩,
             scoreboardEnvelope (AList.insert "Alice" 0 (AList.insert "Alice3" 0 ∅))),
           (⟨"10.0.0.2:5000"⟩,
             envelope 8 "Alice3" "00000000-0000-0000-0000-000000000002" "success")] } := by
  have hadd : Roster.AddPlayer (fun _ => 3) sampleAliceAgain oneAlice = .ret true twoAlices :=
    Outcome.eq_ret_of _ _ _ (by decide)
      (Roster.ext_entries _ _ (by decide) (by decide) (by decide) (by decide))
  obtain ⟨q, scores, hq, -, hsc, hrun, -⟩ :=
    (PlayerJoin_notifications (fun _ => 3) sampleOrders sampleAliceAgain ⟨"10.0.0.2:5000"⟩
      { ROSTER := oneAlice, SVR := newServer 99 false 300, sent := [] } twoAlices true
      (by decide) rfl hadd).1 rfl
  have hq1 : twoAlices.players.lookup sampleAliceAgain.ID = some sampleAlice3 := rfl
  rw [hq1] at hq
  cases hq
  rw [Scoreboard_run twoAlices rfl] at hsc
  cases hsc
  have hS : twoAlices.scores = AList.insert "Alice" 0 (AList.insert "Alice3" 0 ∅) :=
    AList.ext (by decide)
  have hid : UUID.String sampleAliceAgain.ID = "00000000-0000-0000-0000-000000000002" := by
    decide
  have hname : "Player " ++ sampleAlice3.Name ++ " joined" = "Player Alice3 joined" := by decide
  rw [hS, hid, hname] at hrun
  exact ⟨by decide, rfl, hadd, hrun⟩

/-- C18. Leave notifications, for a world whose roster lock is free, whatever
the orders of the three `range`s over the connections.  `Server.RemovePlayer`
on an identity that is not registered returns in the world it was called in:
nothing is changed and nothing is sent.  On an identity registered with a
connection it returns with the identity absent from `players`, `kills` and
`deaths` and every other player as before, having written, in this order: the
BROADCAST envelope (wire type 11) with content "Player <name> left" to every
remaining registered connection, the LEAVE envelope (wire type 9) with the
leaver's name as name to every one of them, and the SCOREBOARD envelope (wire
type 10) with the map `Scoreboard` returns for the remaining roster to every
one of them.  Each of the three broadcasts visits the remaining connections in
an order of its own.  The scoreboard has no entry under the leaver's name when
every key of `kills` was a registered identity and names were pairwise
distinct. -/
theorem RemovePlayer_notifications (orders : Nat → RangeOrder) (w : World) (puuid : UUID)
    (hlock : w.ROSTER.lock = RWMutex.free) :
    (w.ROSTER.players.lookup puuid = none →
      Server.RemovePlayer orders puuid w = .ret () w) ∧
    (∀ p c, w.ROSTER.players.lookup puuid = some p → p.Connection = some c →
      ∃ scores : AList (fun _ : String => Int),
        Roster.Scoreboard (w.ROSTER.without puuid) = .ret scores (w.ROSTER.without puuid) ∧
        Server.RemovePlayer orders puuid w = .ret ()
          { w with
            ROSTER := w.ROSTER.without puuid,
            sent := w.sent ++
              deliveries (envelope 11 "" ("Player " ++ p.Name ++ " left") "")
                ((w.ROSTER.without puuid).connsIn (orders 0)) ++
              deliveries (envelope 9 p.Name "" "")
                ((w.ROSTER.without puuid).connsIn (orders 1)) ++
              deliveries (scoreboardEnvelope scores)
                ((w.ROSTER.without puuid).connsIn (orders 2)) } ∧
        (∀ i, ((w.ROSTER.without puuid).connsIn (orders i)).Perm
          (w.ROSTER.without puuid).conns) ∧
        (w.ROSTER.without puuid).players.lookup puuid = none ∧
        (w.ROSTER.without puuid).kills.lookup puuid = none ∧
        (w.ROSTER.without puuid).deaths.lookup puuid = none ∧
        (∀ x, x ≠ puuid →
          (w.ROSTER.without puuid).players.lookup x = w.ROSTER.players.lookup x) ∧
        ((∀ k, k ∈ w.ROSTER.kills → k ∈ w.ROSTER.players) →
          (∀ k1 k2 p1 p2, k1 ≠ k2 → w.ROSTER.players.lookup k1 = some p1 →
            w.ROSTER.players.lookup k2 = some p2 → p1.Name ≠ p2.Name) →
          scores.lookup p.Name = none)) := by
  have hrun := Server_RemovePlayer_run orders w puuid hlock
  have hw1 : (w.ROSTER.without puuid).lock.writer = false := by
    show w.ROSTER.lock.writer = false
    rw [hlock]
    rfl
  constructor
  · intro hp
    simp only [hp] at hrun
    exact hrun
  · intro p c hp hc
    simp only [hp, hc] at hrun
    refine ⟨(w.ROSTER.without puuid).scores, Scoreboard_run _ hw1, hrun,
      fun i => connsIn_perm _ _, AList.lookup_erase _ _, AList.lookup_erase _ _,
      AList.lookup_erase _ _, fun x hx => AList.lookup_erase_ne hx, ?_⟩
    intro hcover hnames
    rw [Roster.scores, foldl_scoreStep_absent _ p.Name _ ∅ ?_]
    · rfl
    · intro e he
      have hke : e.1 ∈ w.ROSTER.kills.erase puuid :=
        mem_of_lookup_some _ _ _ (AList.mem_lookup_iff.mpr he)
      obtain ⟨hne, hk⟩ := AList.mem_erase.mp hke
      have hreg : e.1 ∈ w.ROSTER.players := hcover _ hk
      cases hq : w.ROSTER.players.lookup e.1 with
      | none => exact absurd hreg (AList.lookup_eq_none.mp hq)
      | some q =>
        have hname : (w.ROSTER.without puuid).nameOf e.1 = q.Name := by
          simp only [Roster.nameOf, Roster.without, AList.lookup_erase_ne hne, hq]
        rw [hname]
        exact hnames e.1 puuid q p hne hq hp

/-- Witness for C18: Bob leaves the world of Alice, Bob and Carol.  Alice and
Carol are sent the BROADCAST envelope in one order and the LEAVE and SCOREBOARD
envelopes in the opposite order. -/
theorem RemovePlayer_notifications_witness :
    threeWorld.ROSTER.lock = RWMutex.free ∧
    Server.RemovePlayer sampleOrders 2 threeWorld = .ret ()
      { ROSTER :=
          { lock := RWMutex.free,
            players := AList.insert 1 sampleAlice (AList.insert 3 sampleCarol ∅),
            kills := AList.insert 1 0 (AList.insert 3 0 ∅),
            deaths := AList.insert 1 0 (AList.insert 3 0 ∅) },
        SVR := newServer 99 false 300,
        sent :=
          [(⟨"10.0.0.1:5000"⟩, envelope 11 "" "Player Bob left" ""),
           (⟨"10.0.0.3:5000"⟩, envelope 11 "" "Player Bob left" ""),
           (⟨"10.0.0.3:5000"⟩, envelope 9 "Bob" "" ""),
           (⟨"10.0.0.1:5000"⟩, envelope 9 "Bob" "" ""),
           (⟨"10.0.0.3:5000"⟩,
             scoreboardEnvelope (AList.insert "Carol" 0 (AList.insert "Alice" 0 ∅))),
           (⟨"10.0.0.1:5000"⟩,
             scoreboardEnvelope (AList.insert "Carol" 0 (AList.insert "Alice" 0 ∅)))] } := by
  obtain ⟨scores, hsc, hrun, -⟩ :=
    (RemovePlayer_notifications sampleOrders threeWorld 2 rfl).2 sampleBob ⟨"10.0.0.2:5000"⟩
      rfl rfl
  rw [Scoreboard_run _ rfl] at hsc
  cases hsc
  have hS : (threeWorld.ROSTER.without 2).scores =
      AList.insert "Carol" 0 (AList.insert "Alice" 0 ∅) := AList.ext (by decide)
  have hname : "Player " ++ sampleBob.Name ++ " left" = "Player Bob left" := by decide
  rw [hS, hname] at hrun
  refine ⟨rfl, ?_⟩
  rw [hrun]
  apply Outcome.eq_ret_of
  · rfl
  · show World.mk _ _ _ = World.mk _ _ _
    congr 1

end GameServer
